import Mathlib

/-!
Cave generator and tile map: embedding and verified properties.

Shallow embedding of `cave_generator.{h,cpp}` and of the data part of
`tilemap.{h,cpp}`.

* C++ `int` values (coordinates, dimensions, tile codes, loop counters) are `Int`.
* `std::vector<std::vector<T>>` is `List (List T)`, row `y` first, column `x` second.
  A read outside the stored vectors yields a default value and a write outside them
  is dropped (both are undefined behaviour in C++; every access of the code that the
  theorems below speak about is inside the grid).
* `std::mt19937` together with the `std::uniform_*_distribution` objects is library
  code; it is embedded as an infinite stream of variates of which every distribution
  call consumes the next one.
* `float` values (`fillProbability`, `dist(rng)`, the arguments and the result of
  `perlinNoise`) are rationals: comparisons are exact, and the arithmetic of `perlinNoise`
  is carried out without rounding. Its integer hash is computed on 32-bit patterns.
* Console output (`std::cout`) is dropped.
* The `while (!queue.empty())` loops are run with a fuel counter and return `none`
  when the fuel is used up before the queue is empty; the callers hand in
  `width * height`, which is proved to suffice on every well-formed grid
  (`fillSmallCaverns_spec`, `findCaverns_returns`).
-/

namespace Octobot

/-! ## Tile codes (cave_generator.h) -/

/-- The constant `CaveGenerator::TILE_WALL = 30*11+24`. -/
def TILE_WALL : Int := 30 * 11 + 24

/-- The constant `CaveGenerator::TILE_FLOOR = 30*2+19`. -/
def TILE_FLOOR : Int := 30 * 2 + 19

/-! ## Two-dimensional vectors -/

/-- Read `m[y][x]`; `d` is returned for an index outside the stored rows. -/
def getAt {α : Type} (d : α) (m : List (List α)) (x y : Int) : α :=
  if 0 ≤ x ∧ 0 ≤ y then (m.getD y.toNat []).getD x.toNat d else d

/-- Write `m[y][x] = v`; a write outside the stored rows is dropped. -/
def setAt {α : Type} (m : List (List α)) (x y : Int) (v : α) : List (List α) :=
  if 0 ≤ x ∧ 0 ≤ y then m.set y.toNat ((m.getD y.toNat []).set x.toNat v) else m

/-- The values `lo, lo+1, ..., hi-1` of a loop `for (i = lo; i < hi; i++)`. -/
def intRange (lo hi : Int) : List Int :=
  (List.range (hi - lo).toNat).map (fun (i : Nat) => lo + (i : Int))

/-- The pairs `(x, y)` visited by `for (y = y0; y < y1; y++) for (x = x0; x < x1; x++)`,
in the order in which the loop body runs. -/
def rowMajor (x0 x1 y0 y1 : Int) : List (Int × Int) :=
  (intRange y0 y1).flatMap (fun y => (intRange x0 x1).map (fun x => (x, y)))

/-- The vector `std::vector<std::vector<T>>(h, std::vector<T>(w, v))`. -/
def filled {α : Type} (w h : Int) (v : α) : List (List α) :=
  List.replicate h.toNat (List.replicate w.toNat v)

/-! ## Random number stream -/

/-- State of the random number stream: the variates it will deliver and how many of
them have been consumed. -/
structure Rng where
  draws : Nat → ℚ
  pos : Nat

/-- One call `dist(rng)` of a `std::uniform_real_distribution<float>(0, 1)`. -/
def Rng.uniformReal (r : Rng) : ℚ × Rng :=
  (r.draws r.pos, { r with pos := r.pos + 1 })

/-- One call `dist(rng)` of a `std::uniform_int_distribution<int>(a, b)`: the next
variate `u` is mapped to `a + floor (u * (b - a + 1))`. -/
def Rng.uniformInt (r : Rng) (a b : Int) : Int × Rng :=
  (a + ⌊r.draws r.pos * ((b - a + 1 : Int) : ℚ)⌋, { r with pos := r.pos + 1 })

/-! ## CaveGenerator -/

/-- The data members of `class CaveGenerator`. -/
structure CaveGenerator where
  width : Int
  height : Int
  map : List (List Int)
  rng : Rng

/-- Constructor `CaveGenerator(w, h, seed)`; `rng` is the stream seeded with `seed`. -/
def CaveGenerator.create (w h : Int) (rng : Rng) : CaveGenerator :=
  { width := w, height := h, map := filled w h TILE_WALL, rng := rng }

/-- The cell `map[y][x]`. -/
def CaveGenerator.cell (g : CaveGenerator) (x y : Int) : Int :=
  getAt 0 g.map x y

/-- Run `body` `n` times (`for (iter = 0; iter < n; iter++)`). -/
def repeatN {σ : Type} (body : σ → σ) : Nat → σ → σ
  | 0, s => s
  | n + 1, s => repeatN body n (body s)

/-! ### generateCellularAutomata -/

/-- Body of the initial random fill:
`map[y][x] = dist(rng) < fillProbability ? TILE_WALL : TILE_FLOOR`. -/
def initialFillCell (fillProbability : ℚ) (st : List (List Int) × Rng) (c : Int × Int) :
    List (List Int) × Rng :=
  let d := st.2.uniformReal
  (setAt st.1 c.1 c.2 (if d.1 < fillProbability then TILE_WALL else TILE_FLOOR), d.2)

/-- The initial random fill loop of `generateCellularAutomata`. -/
def initialFill (g : CaveGenerator) (fillProbability : ℚ) : CaveGenerator :=
  let r := (rowMajor 0 g.width 0 g.height).foldl (initialFillCell fillProbability) (g.map, g.rng)
  { g with map := r.1, rng := r.2 }

/-- The offsets `(dx, dy)` of `for (dy = -1; dy <= 1; dy++) for (dx = -1; dx <= 1; dx++)`. -/
def offsets9 : List (Int × Int) := rowMajor (-1) 2 (-1) 2

/-- The neighbour count of the cellular automaton: the offsets with `dx == 0 && dy == 0`
are skipped, the others count when `map[y + dy][x + dx] == TILE_WALL`. -/
def caWallCount (m : List (List Int)) (x y : Int) : Int :=
  (((offsets9.filter (fun d => ¬ (d.1 = 0 ∧ d.2 = 0))).filter
    (fun d => getAt 0 m (x + d.1) (y + d.2) = TILE_WALL)).length : Int)

/-- One iteration of the cellular-automata loop: `newMap = map`, every interior cell of
`newMap` is rewritten from `map`, then `map = newMap`. -/
def caPass (g : CaveGenerator) : CaveGenerator :=
  let newMap := (rowMajor 1 (g.width - 1) 1 (g.height - 1)).foldl
    (fun newMap c =>
      setAt newMap c.1 c.2 (if caWallCount g.map c.1 c.2 ≥ 5 then TILE_WALL else TILE_FLOOR))
    g.map
  { g with map := newMap }

/-- The method `CaveGenerator::generateCellularAutomata(fillProbability, iterations)`. -/
def generateCellularAutomata (g : CaveGenerator) (fillProbability : ℚ) (iterations : Int) :
    CaveGenerator :=
  repeatN caPass iterations.toNat (initialFill g fillProbability)

/-! ### generateRandomWalk -/

/-- The carving loops of one step of a walk at `(x, y)`:
`for (wy = -tunnelWidth/2; wy <= tunnelWidth/2; wy++) for (wx = ...)` with the interior
guard. C++ integer division truncates towards zero. -/
def carveBlock (w h : Int) (m : List (List Int)) (x y tunnelWidth : Int) : List (List Int) :=
  (rowMajor (Int.tdiv (-tunnelWidth) 2) (Int.tdiv tunnelWidth 2 + 1)
      (Int.tdiv (-tunnelWidth) 2) (Int.tdiv tunnelWidth 2 + 1)).foldl
    (fun m d =>
      let cx := x + d.1
      let cy := y + d.2
      if cx ≥ 1 ∧ cx < w - 1 ∧ cy ≥ 1 ∧ cy < h - 1 then setAt m cx cy TILE_FLOOR else m)
    m

/-- State of one random walk: the grid, the walker position and the stream. -/
structure WalkState where
  map : List (List Int)
  x : Int
  y : Int
  rng : Rng

/-- One step of a walk: carve, draw a direction, move (0 = up, 1 = down, 2 = left,
3 = right), clamped to the interior. -/
def walkStep (w h tunnelWidth : Int) (s : WalkState) : WalkState :=
  let m := carveBlock w h s.map s.x s.y tunnelWidth
  let d := s.rng.uniformInt 0 3
  if d.1 = 0 then { map := m, x := s.x, y := max 1 (s.y - 1), rng := d.2 }
  else if d.1 = 1 then { map := m, x := s.x, y := min (h - 2) (s.y + 1), rng := d.2 }
  else if d.1 = 2 then { map := m, x := max 1 (s.x - 1), y := s.y, rng := d.2 }
  else if d.1 = 3 then { map := m, x := min (w - 2) (s.x + 1), y := s.y, rng := d.2 }
  else { map := m, x := s.x, y := s.y, rng := d.2 }

/-- One walk: draw the start and the tunnel width, then `walkLength` steps. -/
def oneWalk (w h walkLength : Int) (st : List (List Int) × Rng) : List (List Int) × Rng :=
  let dx := st.2.uniformInt 1 (w - 2)
  let dy := dx.2.uniformInt 1 (h - 2)
  let dw := dy.2.uniformInt 8 16
  let s := repeatN (walkStep w h dw.1) walkLength.toNat
    { map := st.1, x := dx.1, y := dy.1, rng := dw.2 }
  (s.map, s.rng)

/-- The method `CaveGenerator::generateRandomWalk(walks, walkLength)`. -/
def generateRandomWalk (g : CaveGenerator) (walks walkLength : Int) : CaveGenerator :=
  let allWalls := (rowMajor 0 g.width 0 g.height).foldl
    (fun m c => setAt m c.1 c.2 TILE_WALL) g.map
  let r := repeatN (oneWalk g.width g.height walkLength) walks.toNat (allWalls, g.rng)
  { g with map := r.1, rng := r.2 }

/-! ### smoothMap -/

/-- The number of offsets of the 3x3 window (centre included, as in the code) with
`map[y + dy][x + dx] == TILE_FLOOR`. -/
def smoothFloorCount (m : List (List Int)) (x y : Int) : Int :=
  ((offsets9.filter (fun d => getAt 0 m (x + d.1) (y + d.2) = TILE_FLOOR)).length : Int)

/-- The number of offsets of the 3x3 window counted by the `else` branch. -/
def smoothWallCount (m : List (List Int)) (x y : Int) : Int :=
  ((offsets9.filter (fun d => ¬ getAt 0 m (x + d.1) (y + d.2) = TILE_FLOOR)).length : Int)

/-- One iteration of the loop of `smoothMap`. -/
def smoothPass (g : CaveGenerator) : CaveGenerator :=
  let newMap := (rowMajor 1 (g.width - 1) 1 (g.height - 1)).foldl
    (fun newMap c =>
      setAt newMap c.1 c.2
        (if smoothFloorCount g.map c.1 c.2 > smoothWallCount g.map c.1 c.2
          then TILE_FLOOR else TILE_WALL))
    g.map
  { g with map := newMap }

/-- The method `CaveGenerator::smoothMap(iterations)`. -/
def smoothMap (g : CaveGenerator) (iterations : Int) : CaveGenerator :=
  repeatN smoothPass iterations.toNat g

/-! ### Flood fill of fillSmallCaverns -/

/-- The four neighbours `(cx + dx[i], cy + dy[i])`, `i = 0..3`, with
`dx = {0, 0, 1, -1}` and `dy = {1, -1, 0, 0}`. -/
def neighbours4 (c : Int × Int) : List (Int × Int) :=
  [(c.1 + 0, c.2 + 1), (c.1 + 0, c.2 + -1), (c.1 + 1, c.2 + 0), (c.1 + -1, c.2 + 0)]

/-- Local state of one flood fill of `fillSmallCaverns`. The vector `queue` is used as
a stack: the head of the list is `queue.back()`. -/
structure FloodState where
  visited : List (List Bool)
  queue : List (Int × Int)
  cavern : List (Int × Int)

/-- Body of the neighbour loop: the bounds test, `!visited[ny][nx]` and
`map[ny][nx] == TILE_FLOOR`, then mark and push. -/
def floodVisit (w h : Int) (m : List (List Int)) (st : FloodState) (n : Int × Int) :
    FloodState :=
  if n.1 ≥ 0 ∧ n.1 < w ∧ n.2 ≥ 0 ∧ n.2 < h ∧
      getAt false st.visited n.1 n.2 = false ∧ getAt 0 m n.1 n.2 = TILE_FLOOR then
    { st with visited := setAt st.visited n.1 n.2 true, queue := n :: st.queue }
  else st

/-- One iteration of `while (!queue.empty())` with `pos = queue.back()` already popped:
`pos` is appended to `cavern`, then the four neighbours are examined. -/
def floodStep (w h : Int) (m : List (List Int)) (pos : Int × Int) (rest : List (Int × Int))
    (st : FloodState) : FloodState :=
  (neighbours4 pos).foldl (floodVisit w h m)
    { st with queue := rest, cavern := st.cavern ++ [pos] }

/-- The loop `while (!queue.empty())`, at most `fuel` iterations. -/
def floodLoop (w h : Int) (m : List (List Int)) : Nat → FloodState → Option FloodState
  | fuel, st =>
    match st.queue with
    | [] => some st
    | pos :: rest =>
      match fuel with
      | 0 => none
      | f + 1 => floodLoop w h m f (floodStep w h m pos rest st)

/-- Body of the scanning loops of `fillSmallCaverns` at cell `c = (x, y)`: when the cell is
an unvisited Floor cell its cavern is collected and, if it has fewer than `minSize`
cells, every cell of it is set to `TILE_WALL`. -/
def fillCell (w h minSize : Int) (st : List (List Int) × List (List Bool)) (c : Int × Int) :
    Option (List (List Int) × List (List Bool)) :=
  if getAt false st.2 c.1 c.2 = false ∧ getAt 0 st.1 c.1 c.2 = TILE_FLOOR then
    match floodLoop w h st.1 (w * h).toNat
        { visited := setAt st.2 c.1 c.2 true, queue := [c], cavern := [] } with
    | none => none
    | some fs =>
      if (fs.cavern.length : Int) < minSize then
        some (fs.cavern.foldl (fun m pos => setAt m pos.1 pos.2 TILE_WALL) st.1, fs.visited)
      else some (st.1, fs.visited)
  else some st

/-- The method `CaveGenerator::fillSmallCaverns(minSize)`. -/
def fillSmallCaverns (g : CaveGenerator) (minSize : Int) : Option CaveGenerator :=
  match (rowMajor 0 g.width 0 g.height).foldlM (fillCell g.width g.height minSize)
      (g.map, filled g.width g.height false) with
  | none => none
  | some r => some { g with map := r.1 }

/-! ### connectAllCaverns -/

/-- Local state of one flood fill of `connectAllCaverns`: the id grid, the stack and the
bounding box collected so far. -/
structure RegionState where
  caveID : List (List Int)
  queue : List (Int × Int)
  minX : Int
  maxX : Int
  minY : Int
  maxY : Int

/-- Body of the neighbour loop of `connectAllCaverns`. -/
def regionVisit (w h : Int) (m : List (List Int)) (nextID : Int) (st : RegionState)
    (n : Int × Int) : RegionState :=
  if n.1 ≥ 0 ∧ n.1 < w ∧ n.2 ≥ 0 ∧ n.2 < h ∧
      getAt 0 st.caveID n.1 n.2 = -1 ∧ getAt 0 m n.1 n.2 = TILE_FLOOR then
    { st with caveID := setAt st.caveID n.1 n.2 nextID, queue := n :: st.queue }
  else st

/-- One iteration of the flood loop of `connectAllCaverns` with `pos` already popped:
the bounding box is widened, then the four neighbours are examined. -/
def regionStep (w h : Int) (m : List (List Int)) (nextID : Int) (pos : Int × Int)
    (rest : List (Int × Int)) (st : RegionState) : RegionState :=
  (neighbours4 pos).foldl (regionVisit w h m nextID)
    { st with queue := rest, minX := min st.minX pos.1, maxX := max st.maxX pos.1,
              minY := min st.minY pos.2, maxY := max st.maxY pos.2 }

/-- The flood loop of `connectAllCaverns`, at most `fuel` iterations. -/
def regionLoop (w h : Int) (m : List (List Int)) (nextID : Int) :
    Nat → RegionState → Option RegionState
  | fuel, st =>
    match st.queue with
    | [] => some st
    | pos :: rest =>
      match fuel with
      | 0 => none
      | f + 1 => regionLoop w h m nextID f (regionStep w h m nextID pos rest st)

/-- State of the scanning loops of `connectAllCaverns`. -/
structure ScanState where
  caveID : List (List Int)
  caveCenters : List (Int × Int)
  nextID : Int

/-- Body of the scanning loops of `connectAllCaverns` at cell `c = (x, y)`. -/
def scanCell (w h : Int) (m : List (List Int)) (st : ScanState) (c : Int × Int) :
    Option ScanState :=
  if getAt 0 st.caveID c.1 c.2 = -1 ∧ getAt 0 m c.1 c.2 = TILE_FLOOR then
    match regionLoop w h m st.nextID (w * h).toNat
        { caveID := setAt st.caveID c.1 c.2 st.nextID, queue := [c],
          minX := c.1, maxX := c.1, minY := c.2, maxY := c.2 } with
    | none => none
    | some rs =>
      some { caveID := rs.caveID,
             caveCenters := st.caveCenters ++
               [(Int.tdiv (rs.minX + rs.maxX) 2, Int.tdiv (rs.minY + rs.maxY) 2)],
             nextID := st.nextID + 1 }
  else some st

/-- The region scan of `connectAllCaverns`: the final `caveID`, `caveCenters`, `nextID`. -/
def findCaverns (g : CaveGenerator) : Option ScanState :=
  (rowMajor 0 g.width 0 g.height).foldlM (scanCell g.width g.height g.map)
    { caveID := filled g.width g.height (-1), caveCenters := [], nextID := 0 }

/-- The horizontal tunnel between two centres (`connectionWidth = 20`,
`wy` from `-connectionWidth/2` to `connectionWidth/2`). -/
def carveHorizontal (w h : Int) (m : List (List Int)) (x1 y1 x2 : Int) : List (List Int) :=
  (intRange (min x1 x2) (max x1 x2 + 1)).foldl
    (fun m x =>
      (intRange (Int.tdiv (-20) 2) (Int.tdiv 20 2 + 1)).foldl
        (fun m wy =>
          let ny := y1 + wy
          if ny ≥ 1 ∧ ny < h - 1 ∧ x ≥ 1 ∧ x < w - 1 then setAt m x ny TILE_FLOOR else m)
        m)
    m

/-- The vertical tunnel between two centres. -/
def carveVertical (w h : Int) (m : List (List Int)) (y1 x2 y2 : Int) : List (List Int) :=
  (intRange (min y1 y2) (max y1 y2 + 1)).foldl
    (fun m y =>
      (intRange (Int.tdiv (-20) 2) (Int.tdiv 20 2 + 1)).foldl
        (fun m wx =>
          let nx := x2 + wx
          if y ≥ 1 ∧ y < h - 1 ∧ nx ≥ 1 ∧ nx < w - 1 then setAt m nx y TILE_FLOOR else m)
        m)
    m

/-- Body of the connecting loop for index `i`: the centres `caveCenters[i]` and
`caveCenters[i + 1]` are joined by a horizontal and then a vertical tunnel. -/
def connectPair (w h : Int) (centers : List (Int × Int)) (m : List (List Int)) (i : Int) :
    List (List Int) :=
  let c1 := centers.getD i.toNat (0, 0)
  let c2 := centers.getD (i + 1).toNat (0, 0)
  carveVertical w h (carveHorizontal w h m c1.1 c1.2 c2.1) c1.2 c2.1 c2.2

/-- The method `CaveGenerator::connectAllCaverns()`. -/
def connectAllCaverns (g : CaveGenerator) : Option CaveGenerator :=
  match findCaverns g with
  | none => none
  | some sc =>
    some { g with map := (intRange 0 (sc.nextID - 1)).foldl
                    (connectPair g.width g.height sc.caveCenters) g.map }

/-! ### getMapFlat -/

/-- The method `CaveGenerator::getMapFlat()`: `flat.push_back(map[y][x])` in row-major
order. -/
def getMapFlat (g : CaveGenerator) : List Int :=
  (rowMajor 0 g.width 0 g.height).foldl (fun flat c => flat ++ [getAt 0 g.map c.1 c.2]) []

/-! ## Tilemap (tilemap.h, tilemap.cpp) -/

/-- The data members of `class Tilemap` that do not belong to SDL. -/
structure Tilemap where
  tiles : List (List Int)
  tileWidth : Int
  tileHeight : Int
  mapWidth : Int
  mapHeight : Int

/-- The tile grid set up by the constructor `Tilemap(renderer, path, tileW, tileH, mapW,
mapH)`: `mapH` rows of `mapW` zeros. -/
def Tilemap.create (tileW tileH mapW mapH : Int) : Tilemap :=
  { tiles := filled mapW mapH 0, tileWidth := tileW, tileHeight := tileH,
    mapWidth := mapW, mapHeight := mapH }

/-- The method `Tilemap::loadMapFromArray(mapData)`. The pointer is `none` when null;
otherwise it points to the listed values. The result is the returned flag and the tile map
afterwards. The loop reads `mapData[0]` to `mapData[mapWidth * mapHeight - 1]`; in C++ a
read past the listed values is undefined, and the value 0 that `getD` gives there stands
for nothing in the program: this definition describes the method only for arrays that
hold at least `mapWidth * mapHeight` values, for which no such read occurs. -/
def Tilemap.loadMapFromArray (t : Tilemap) (mapData : Option (List Int)) : Bool × Tilemap :=
  match mapData with
  | none => (false, t)
  | some data =>
    let r := (rowMajor 0 t.mapWidth 0 t.mapHeight).foldl
      (fun (st : List (List Int) × Nat) c => (setAt st.1 c.1 c.2 (data.getD st.2 0), st.2 + 1))
      (t.tiles, 0)
    (true, { t with tiles := r.1 })

/-- The method `Tilemap::getTile(x, y)`. -/
def Tilemap.getTile (t : Tilemap) (x y : Int) : Int :=
  if x ≥ 0 ∧ x < t.mapWidth ∧ y ≥ 0 ∧ y < t.mapHeight then getAt 0 t.tiles x y else -1

/-- The method `Tilemap::isSolidTile(x, y)`. -/
def Tilemap.isSolidTile (t : Tilemap) (x y : Int) : Bool :=
  if x < 0 ∨ x ≥ t.mapWidth ∨ y < 0 ∨ y ≥ t.mapHeight then true
  else
    let tileIndex := getAt 0 t.tiles x y
    decide (tileIndex = 0 ∨ tileIndex = 4)

/-! ## Specification vocabulary -/

/-- The vector `m` has `h` rows of `w` entries each. -/
def Shape {α : Type} (w h : Int) (m : List (List α)) : Prop :=
  (m.length : Int) = h ∧ ∀ row ∈ m, (row.length : Int) = w

/-- The grid has `height` rows of `width` cells each (established by the constructor). -/
def WellFormed (g : CaveGenerator) : Prop :=
  Shape g.width g.height g.map

/-- The coordinate lies inside a `w` by `h` grid. -/
def InGrid (w h : Int) (c : Int × Int) : Prop :=
  0 ≤ c.1 ∧ c.1 < w ∧ 0 ≤ c.2 ∧ c.2 < h

instance instDecidableInGrid (w h : Int) (c : Int × Int) : Decidable (InGrid w h c) := by
  unfold InGrid
  infer_instance

/-- The coordinate lies on the outermost ring of a `w` by `h` grid. -/
def OnRing (w h : Int) (c : Int × Int) : Prop :=
  InGrid w h c ∧ (c.1 = 0 ∨ c.1 = w - 1 ∨ c.2 = 0 ∨ c.2 = h - 1)

/-- The cell `c` is an in-grid Floor cell of `m`. -/
def IsFloor (w h : Int) (m : List (List Int)) (c : Int × Int) : Prop :=
  InGrid w h c ∧ getAt 0 m c.1 c.2 = TILE_FLOOR

/-- Two coordinates are 4-adjacent: they differ by one in exactly one component. -/
def Adj4 (a b : Int × Int) : Prop :=
  (a.1 = b.1 ∧ (b.2 = a.2 + 1 ∨ b.2 = a.2 - 1)) ∨ (a.2 = b.2 ∧ (b.1 = a.1 + 1 ∨ b.1 = a.1 - 1))

/-- One step between two 4-adjacent Floor cells of `m`. -/
def FloorStep (w h : Int) (m : List (List Int)) (a b : Int × Int) : Prop :=
  Adj4 a b ∧ IsFloor w h m a ∧ IsFloor w h m b

/-- The cells `a` and `b` are joined by a 4-connected path of Floor cells of `m`. -/
def Connected (w h : Int) (m : List (List Int)) (a b : Int × Int) : Prop :=
  Relation.ReflTransGen (FloorStep w h m) a b

/-- The list `cells` enumerates, without repetition, the maximal 4-connected Floor region
of `m` that contains `c`. -/
def IsRegionOf (w h : Int) (m : List (List Int)) (c : Int × Int) (cells : List (Int × Int)) :
    Prop :=
  cells.Nodup ∧ ∀ d, d ∈ cells ↔ Connected w h m c d

/-! ## Example states -/

/-- A random number stream whose every variate is 0. -/
def zeroStream : Rng := { draws := fun _ => 0, pos := 0 }

/-- A 3x3 generator whose only Floor cells are the corners `(0, 0)` and `(2, 2)`. -/
def cornerCaves : CaveGenerator :=
  { width := 3, height := 3,
    map := [[TILE_FLOOR, TILE_WALL, TILE_WALL],
            [TILE_WALL, TILE_WALL, TILE_WALL],
            [TILE_WALL, TILE_WALL, TILE_FLOOR]],
    rng := zeroStream }

/-- A 3x3 tile map as set up by the constructor (all tiles 0), 16x16 pixel tiles. -/
def emptyTilemap : Tilemap := Tilemap.create 16 16 3 3

/-! ## Invariants of the flood fill of fillSmallCaverns -/

/-- The cell is an in-grid Floor cell of `m` that is not marked in `v0`. -/
def IsOpen (w h : Int) (m : List (List Int)) (v0 : List (List Bool)) (c : Int × Int) : Prop :=
  InGrid w h c ∧ getAt false v0 c.1 c.2 = false ∧ getAt 0 m c.1 c.2 = TILE_FLOOR

/-- One step between two 4-adjacent open cells. -/
def OpenStep (w h : Int) (m : List (List Int)) (v0 : List (List Bool)) (a b : Int × Int) :
    Prop :=
  Adj4 a b ∧ IsOpen w h m v0 a ∧ IsOpen w h m v0 b

/-- Invariant of `while (!queue.empty())` in a flood fill started at `s` with the marks
`v0`: the marks are `v0` plus the collected and the stacked cells, no cell is collected
or stacked twice, and every such cell is open and reachable from `s` through open
cells. -/
structure FloodInv (w h : Int) (m : List (List Int)) (v0 : List (List Bool)) (s : Int × Int)
    (st : FloodState) : Prop where
  shape : Shape w h st.visited
  visited_iff : ∀ c : Int × Int, getAt false st.visited c.1 c.2 = true ↔
    (getAt false v0 c.1 c.2 = true ∨ c ∈ st.cavern ∨ c ∈ st.queue)
  nodup : (st.cavern ++ st.queue).Nodup
  reach : ∀ c : Int × Int, c ∈ st.cavern ∨ c ∈ st.queue →
    IsOpen w h m v0 c ∧ Relation.ReflTransGen (OpenStep w h m v0) s c
  seed : s ∈ st.cavern ∨ s ∈ st.queue

/-- Every open neighbour of a collected cell is collected or stacked. -/
def FloodClosed (w h : Int) (m : List (List Int)) (v0 : List (List Bool)) (st : FloodState) :
    Prop :=
  ∀ c ∈ st.cavern, ∀ n, Adj4 c n → IsOpen w h m v0 n → n ∈ st.cavern ∨ n ∈ st.queue

/-- Invariant of the scanning loops of `fillSmallCaverns(minSize)` started on the grid
`m0`: the marked cells are Floor cells of `m0` and form whole regions of `m0`; unmarked
cells still hold their value of `m0`; a marked cell holds Wall when its region of `m0`
has fewer than `minSize` cells and Floor otherwise. -/
structure FillInv (w h minSize : Int) (m0 : List (List Int))
    (st : List (List Int) × List (List Bool)) : Prop where
  shapeMap : Shape w h st.1
  shapeVisited : Shape w h st.2
  visited_floor : ∀ c : Int × Int, getAt false st.2 c.1 c.2 = true → IsFloor w h m0 c
  visited_closed : ∀ c d : Int × Int, getAt false st.2 c.1 c.2 = true → FloorStep w h m0 c d →
    getAt false st.2 d.1 d.2 = true
  unvisited_same : ∀ c : Int × Int, getAt false st.2 c.1 c.2 = false →
    getAt 0 st.1 c.1 c.2 = getAt 0 m0 c.1 c.2
  visited_value : ∀ c : Int × Int, getAt false st.2 c.1 c.2 = true →
    ∃ cells, IsRegionOf w h m0 c cells ∧
      getAt 0 st.1 c.1 c.2 = if (cells.length : Int) < minSize then TILE_WALL else TILE_FLOOR

/-! ## Counting regions, and the example grids of the connector -/

/-- The list `reps` holds exactly one Floor cell of every maximal 4-connected Floor region
of `m`: its members are Floor, pairwise not connected, and every Floor cell is connected
to one of them. The number of regions of `m` is then `reps.length`. -/
def IsRegionReps (w h : Int) (m : List (List Int)) (reps : List (Int × Int)) : Prop :=
  (∀ r ∈ reps, IsFloor w h m r) ∧
  reps.Pairwise (fun a b => ¬ Connected w h m a b) ∧
  ∀ c, IsFloor w h m c → ∃ r ∈ reps, Connected w h m r c

/-- A stream whose draws number 0 and 8 are 1/2 and whose other draws are 0. -/
def cornerStream : Rng := { draws := fun i => if i = 0 ∨ i = 8 then 1 / 2 else 0, pos := 0 }

/-- The 3x3 grid whose Floor cells are the three cells of the diagonal. -/
def diagonalCaves : CaveGenerator :=
  { width := 3, height := 3,
    map := [[TILE_FLOOR, TILE_WALL, TILE_WALL],
            [TILE_WALL, TILE_FLOOR, TILE_WALL],
            [TILE_WALL, TILE_WALL, TILE_FLOOR]],
    rng := zeroStream }

/-- The cells of an L-shaped cavern along the left and the bottom of a 29x27 grid. -/
def leftCavern (x y : Int) : Bool :=
  (x = 1 ∧ 1 ≤ y ∧ y ≤ 25) ∨ (y = 25 ∧ 1 ≤ x ∧ x ≤ 23)

/-- The cells of an L-shaped cavern along the top and the right of a 29x27 grid. -/
def rightCavern (x y : Int) : Bool :=
  (y = 1 ∧ 3 ≤ x ∧ x ≤ 27) ∨ (x = 27 ∧ 1 ≤ y ∧ y ≤ 25)

/-- The cells of the corridor between the bounding-box midpoints (12, 13) and (15, 13). -/
def midCorridor (x y : Int) : Bool :=
  (12 ≤ x ∧ x ≤ 15 ∧ 3 ≤ y ∧ y ≤ 23) ∨ (y = 13 ∧ 5 ≤ x ∧ x ≤ 25)

/-- A 29x27 generator whose Floor cells are two interior L-shaped caverns. -/
def nestedCaves : CaveGenerator :=
  { width := 29, height := 27,
    map := (intRange 0 27).map (fun y => (intRange 0 29).map (fun x =>
      if leftCavern x y ∨ rightCavern x y then TILE_FLOOR else TILE_WALL)),
    rng := zeroStream }

/-- The grid of `nestedCaves` with the corridor cells set to Floor. -/
def nestedCavesJoined : List (List Int) :=
  (intRange 0 27).map (fun y => (intRange 0 29).map (fun x =>
    if leftCavern x y ∨ rightCavern x y ∨ midCorridor x y then TILE_FLOOR else TILE_WALL))

/-! ### generatePerlinNoise -/

/-- The conversion `(int)x` of a float: truncation towards zero. -/
def truncToInt (q : ℚ) : Int := if 0 ≤ q then ⌊q⌋ else ⌈q⌉

/-- The 32-bit pattern of an `int` (wrapping arithmetic is arithmetic on these patterns
modulo `2^32`). -/
def bits32 (n : Int) : Nat := (n % 2 ^ 32).toNat

/-- The integer part of the lambda `hash` of `perlinNoise`: `n = (n << 13) ^ n`, then
`(n * (n * n * 15731 + 789221) + 1376312589) & 0x7fffffff`, computed on 32-bit
patterns. -/
def hashBits (n : Int) : Nat :=
  let u := bits32 n
  let k := ((u <<< 13) % 2 ^ 32) ^^^ u
  ((k * (k * k * 15731 + 789221) + 1376312589) % 2 ^ 32) &&& 0x7fffffff

/-- The lambda `hash` of `perlinNoise`: the masked value divided by `0x7fffffff`. -/
def hash (n : Int) : ℚ := (hashBits n : ℚ) / 0x7fffffff

/-- The method `CaveGenerator::fade(t)`. -/
def fade (t : ℚ) : ℚ := t * t * t * (t * (t * 6 - 15) + 10)

/-- The method `CaveGenerator::interpolate(a, b, t)`. -/
def interpolate (a b t : ℚ) : ℚ := a + (b - a) * t

/-- The method `CaveGenerator::perlinNoise(x, y, seed)`. -/
def perlinNoise (x y : ℚ) (seed : Int) : ℚ :=
  let xi := truncToInt x
  let yi := truncToInt y
  let xf := x - (xi : ℚ)
  let yf := y - (yi : ℚ)
  let n00 := hash (xi + yi * 73856093 + seed)
  let n10 := hash (xi + 1 + yi * 73856093 + seed)
  let n01 := hash (xi + (yi + 1) * 73856093 + seed)
  let n11 := hash (xi + 1 + (yi + 1) * 73856093 + seed)
  let u := fade xf
  let v := fade yf
  let nx0 := interpolate n00 n10 u
  let nx1 := interpolate n01 n11 u
  interpolate nx0 nx1 v

/-- The method `CaveGenerator::generatePerlinNoise(scale, threshold)`. -/
def generatePerlinNoise (g : CaveGenerator) (scale threshold : ℚ) : CaveGenerator :=
  let newMap := (rowMajor 0 g.width 0 g.height).foldl
    (fun m c =>
      setAt m c.1 c.2
        (if perlinNoise ((c.1 : ℚ) * scale) ((c.2 : ℚ) * scale) 12345 > threshold
          then TILE_WALL else TILE_FLOOR))
    g.map
  { g with map := newMap }

/-! ### ensureTopCenterEntrance -/

/-- The count `floorNeighbors` of the 5x5 window around `(x, y)`: the offsets
`dy, dx = -2..2` whose cell lies in the grid and holds `TILE_FLOOR`. -/
def entranceFloorNeighbors (w h : Int) (m : List (List Int)) (x y : Int) : Int :=
  (((rowMajor (-2) 3 (-2) 3).filter (fun d =>
      x + d.1 ≥ 0 ∧ x + d.1 < w ∧ y + d.2 ≥ 0 ∧ y + d.2 < h ∧
        getAt 0 m (x + d.1) (y + d.2) = TILE_FLOOR)).length : Int)

/-- State of the passage loops of `ensureTopCenterEntrance`: the grid and whether the
`return` statement has been reached. -/
structure EntranceState where
  map : List (List Int)
  returned : Bool

/-- Body of the passage loops at cell `c = (x, y)` with `topY = 5`: nothing once the
method has returned; otherwise the cell is set to Floor and, when `y > topY + 200` and
more than 8 cells of the 5x5 window are Floor, the method returns. -/
def entranceCell (w h : Int) (st : EntranceState) (c : Int × Int) : EntranceState :=
  if st.returned then st
  else
    let m := setAt st.map c.1 c.2 TILE_FLOOR
    if c.2 > 5 + 200 then
      if entranceFloorNeighbors w h m c.1 c.2 > 8 then { map := m, returned := true }
      else { map := m, returned := false }
    else { map := m, returned := false }

/-- The chamber loops of `ensureTopCenterEntrance` (`topY = 5`): the 5x5 block around
`(centerX, topY)` with the interior guard. -/
def carveChamber (w h : Int) (m : List (List Int)) (centerX : Int) : List (List Int) :=
  (rowMajor (centerX - 2) (centerX + 2 + 1) (5 - 2) (5 + 2 + 1)).foldl
    (fun m c =>
      if c.1 ≥ 1 ∧ c.1 < w - 1 ∧ c.2 ≥ 1 ∧ c.2 < h - 1 then setAt m c.1 c.2 TILE_FLOOR else m)
    m

/-- The method `CaveGenerator::ensureTopCenterEntrance()`. -/
def ensureTopCenterEntrance (g : CaveGenerator) : CaveGenerator :=
  let centerX := Int.tdiv g.width 2
  let chamber := carveChamber g.width g.height g.map centerX
  let r := (rowMajor (centerX - 1) (centerX + 1 + 1) (5 + 3) (g.height - 1)).foldl
    (entranceCell g.width g.height) { map := chamber, returned := false }
  { g with map := r.map }

/-! ### Sequences of stage invocations -/

/-- One invocation of a public generation or post-processing method, with its
arguments. -/
inductive Stage where
  | cellularAutomata (fillProbability : ℚ) (iterations : Int)
  | perlinNoise (scale threshold : ℚ)
  | randomWalk (walks walkLength : Int)
  | smooth (iterations : Int)
  | fillSmall (minSize : Int)
  | connectAll
  | topCenterEntrance

/-- Run one stage invocation on a generator. -/
def runStage (g : CaveGenerator) : Stage → Option CaveGenerator
  | Stage.cellularAutomata p n => some (generateCellularAutomata g p n)
  | Stage.perlinNoise s t => some (generatePerlinNoise g s t)
  | Stage.randomWalk n l => some (generateRandomWalk g n l)
  | Stage.smooth n => some (smoothMap g n)
  | Stage.fillSmall k => fillSmallCaverns g k
  | Stage.connectAll => connectAllCaverns g
  | Stage.topCenterEntrance => some (ensureTopCenterEntrance g)

/-- Run a sequence of stage invocations, first to last. -/
def runStages (stages : List Stage) (g : CaveGenerator) : Option CaveGenerator :=
  stages.foldlM runStage g

/-! ## Further specification vocabulary -/

/-- Every cell of the `w` by `h` grid `m` holds `TILE_WALL` or `TILE_FLOOR`. -/
def AllTiles (w h : Int) (m : List (List Int)) : Prop :=
  ∀ c : Int × Int, InGrid w h c → getAt 0 m c.1 c.2 = TILE_WALL ∨ getAt 0 m c.1 c.2 = TILE_FLOOR

/-- The cell is an interior cell: `1 <= x <= w - 2` and `1 <= y <= h - 2`. -/
def Interior (w h : Int) (c : Int × Int) : Prop :=
  1 ≤ c.1 ∧ c.1 ≤ w - 2 ∧ 1 ≤ c.2 ∧ c.2 ≤ h - 2

/-- The cell is at least `k + 1` cells away from every edge of the grid. -/
def Inner (w h : Int) (k : Nat) (c : Int × Int) : Prop :=
  (k : Int) + 1 ≤ c.1 ∧ c.1 ≤ w - 2 - k ∧ (k : Int) + 1 ≤ c.2 ∧ c.2 ≤ h - 2 - k

/-- The eight Moore neighbours of `(x, y)`. -/
def neighbours8 (x y : Int) : List (Int × Int) :=
  [(x - 1, y - 1), (x, y - 1), (x + 1, y - 1), (x - 1, y), (x + 1, y),
   (x - 1, y + 1), (x, y + 1), (x + 1, y + 1)]

/-- The number of Moore neighbours of `(x, y)` that hold `TILE_WALL` in `m`. -/
def wallNeighbours8 (m : List (List Int)) (x y : Int) : Nat :=
  ((neighbours8 x y).filter (fun c => getAt 0 m c.1 c.2 = TILE_WALL)).length

/-- The number of Moore neighbours of `(x, y)` that hold `TILE_FLOOR` in `m`. -/
def floorNeighbours8 (m : List (List Int)) (x y : Int) : Nat :=
  ((neighbours8 x y).filter (fun c => getAt 0 m c.1 c.2 = TILE_FLOOR)).length

/-- The number of Moore neighbours of `(x, y)` that do not hold `TILE_FLOOR` in `m`. -/
def nonFloorNeighbours8 (m : List (List Int)) (x y : Int) : Nat :=
  ((neighbours8 x y).filter (fun c => ¬ getAt 0 m c.1 c.2 = TILE_FLOOR)).length

/-- A 3x3 generator whose Floor cells are the centre and its four 4-neighbours. -/
def plusCaves : CaveGenerator :=
  { width := 3, height := 3,
    map := [[TILE_WALL, TILE_FLOOR, TILE_WALL],
            [TILE_FLOOR, TILE_FLOOR, TILE_FLOOR],
            [TILE_WALL, TILE_FLOOR, TILE_WALL]],
    rng := zeroStream }

/-- A 3x3 generator whose ring is Floor and whose centre is Wall. -/
def ringFloorCaves : CaveGenerator :=
  { width := 3, height := 3,
    map := [[TILE_FLOOR, TILE_FLOOR, TILE_FLOOR],
            [TILE_FLOOR, TILE_WALL, TILE_FLOOR],
            [TILE_FLOOR, TILE_FLOOR, TILE_FLOOR]],
    rng := zeroStream }

/-- A 5x5 generator whose ring is Floor and whose interior is Wall. -/
def ringFloorCaves5 : CaveGenerator :=
  { width := 5, height := 5,
    map := [[TILE_FLOOR, TILE_FLOOR, TILE_FLOOR, TILE_FLOOR, TILE_FLOOR],
            [TILE_FLOOR, TILE_WALL, TILE_WALL, TILE_WALL, TILE_FLOOR],
            [TILE_FLOOR, TILE_WALL, TILE_WALL, TILE_WALL, TILE_FLOOR],
            [TILE_FLOOR, TILE_WALL, TILE_WALL, TILE_WALL, TILE_FLOOR],
            [TILE_FLOOR, TILE_FLOOR, TILE_FLOOR, TILE_FLOOR, TILE_FLOOR]],
    rng := zeroStream }

/-- The grid `m` has `h` rows of `w` cells and every cell holds `TILE_WALL` or
`TILE_FLOOR`. -/
def ValidGrid (w h : Int) (m : List (List Int)) : Prop :=
  Shape w h m ∧ AllTiles w h m

/-- The number of cells of the `w` by `h` grid whose entry of `caveID` is still -1. -/
def unmarkedCount (w h : Int) (caveID : List (List Int)) : Nat :=
  (rowMajor 0 w 0 h).countP (fun c => getAt 0 caveID c.1 c.2 = -1)

/-! ## Walks of generateRandomWalk, one at a time -/

/-- The tunnel width `distWidth(rng)` drawn at the start of a walk, after `distX(rng)` and
`distY(rng)`. -/
def walkWidth (w h : Int) (st : List (List Int) × Rng) : Int :=
  (((st.2.uniformInt 1 (w - 2)).2.uniformInt 1 (h - 2)).2.uniformInt 8 16).1

/-- The state at the start of a walk: the start position `distX(rng)`, `distY(rng)` and
the stream after the draw of the tunnel width. -/
def walkStart (w h : Int) (st : List (List Int) × Rng) : WalkState :=
  { map := st.1,
    x := (st.2.uniformInt 1 (w - 2)).1,
    y := ((st.2.uniformInt 1 (w - 2)).2.uniformInt 1 (h - 2)).1,
    rng := (((st.2.uniformInt 1 (w - 2)).2.uniformInt 1 (h - 2)).2.uniformInt 8 16).2 }

/-- The grid and the stream of `generateRandomWalk(walks, walkLength)` after the all-Wall
fill and the first `j` walks. -/
def walksAfter (g : CaveGenerator) (walkLength : Int) (j : Nat) : List (List Int) × Rng :=
  repeatN (oneWalk g.width g.height walkLength) j
    ((rowMajor 0 g.width 0 g.height).foldl (fun m c => setAt m c.1 c.2 TILE_WALL) g.map, g.rng)

/-- The walker of walk number `j` (counted from 0) after `k` steps. -/
def walkerAt (g : CaveGenerator) (walkLength : Int) (j k : Nat) : WalkState :=
  repeatN (walkStep g.width g.height (walkWidth g.width g.height (walksAfter g walkLength j))) k
    (walkStart g.width g.height (walksAfter g walkLength j))

/-! ## Counting Floor cells along a row or a column -/

/-- The number of Floor cells of row `y` of the grid `m` of width `w`. -/
def floorCountRow (w : Int) (m : List (List Int)) (y : Int) : Nat :=
  ((intRange 0 w).filter (fun x => getAt 0 m x y = TILE_FLOOR)).length

/-- The number of Floor cells of column `x` of the grid `m` of height `h`. -/
def floorCountColumn (h : Int) (m : List (List Int)) (x : Int) : Nat :=
  ((intRange 0 h).filter (fun y => getAt 0 m x y = TILE_FLOOR)).length

/-! ## Further example states -/

/-- A stream whose first two variates are 2/5 and whose other variates are 0: on a 12x12
grid the first walk starts at (5, 5) with tunnel width 8. -/
def walkStream : Rng := { draws := fun i => if i < 2 then 2 / 5 else 0, pos := 0 }

/-- A 5x23 generator whose only Floor cells are (1, 11) and (3, 11). -/
def twinCaves : CaveGenerator :=
  { width := 5, height := 23,
    map := (intRange 0 23).map (fun y => (intRange 0 5).map (fun x =>
      if y = 11 ∧ (x = 1 ∨ x = 3) then TILE_FLOOR else TILE_WALL)),
    rng := zeroStream }

instance instDecidableInterior (w h : Int) (c : Int × Int) : Decidable (Interior w h c) := by
  unfold Interior
  infer_instance

/-! # Theorems -/

/-! ## Two-dimensional vectors: reading after writing -/

theorem getD_set_list {α : Type} (l : List α) (i j : Nat) (a d : α) :
    (l.set i a).getD j d = if i = j ∧ i < l.length then a else l.getD j d := by
  simp only [List.getD_eq_getElem?_getD, List.getElem?_set]
  by_cases hij : i = j
  · subst hij
    by_cases hl : i < l.length
    · simp [hl]
    · simp [hl, List.getElem?_eq_none (Nat.le_of_not_lt hl)]
  · simp [hij]

theorem getAt_setAt_ne {α : Type} (d : α) (m : List (List α)) (x y x' y' : Int) (v : α)
    (hne : ¬ (x' = x ∧ y' = y)) : getAt d (setAt m x y v) x' y' = getAt d m x' y' := by
  unfold getAt setAt
  by_cases h1 : 0 ≤ x ∧ 0 ≤ y
  · by_cases h2 : 0 ≤ x' ∧ 0 ≤ y'
    · simp only [h1, h2, and_self, if_true]
      rw [getD_set_list]
      by_cases hy : y.toNat = y'.toNat ∧ y.toNat < m.length
      · rw [if_pos hy, getD_set_list]
        have hxx : ¬ (x.toNat = x'.toNat ∧ x.toNat < (m.getD y.toNat []).length) := by
          intro hx
          apply hne
          constructor <;> omega
        rw [if_neg hxx, hy.1]
      · rw [if_neg hy]
    · simp [h2]
  · simp [h1]

theorem getAt_setAt_same {α : Type} (d : α) (w h : Int) (m : List (List α)) (x y : Int) (v : α)
    (hm : Shape w h m) (hc : InGrid w h (x, y)) : getAt d (setAt m x y v) x y = v := by
  obtain ⟨hx0, hxw, hy0, hyh⟩ := hc
  simp only at hx0 hxw hy0 hyh
  have hylen : y.toNat < m.length := by have := hm.1; omega
  have hrow : ((m.getD y.toNat []).length : Int) = w := by
    apply hm.2
    rw [List.getD_eq_getElem?_getD, List.getElem?_eq_getElem hylen]
    exact List.getElem_mem hylen
  have hxlen : x.toNat < (m.getD y.toNat []).length := by omega
  unfold getAt setAt
  simp only [hx0, hy0, and_self, if_true]
  rw [getD_set_list, if_pos ⟨rfl, hylen⟩, getD_set_list, if_pos ⟨rfl, hxlen⟩]

theorem getAt_setAt {α : Type} (d : α) (w h : Int) (m : List (List α)) (x y x' y' : Int) (v : α)
    (hm : Shape w h m) (hc : InGrid w h (x, y)) :
    getAt d (setAt m x y v) x' y' = if x' = x ∧ y' = y then v else getAt d m x' y' := by
  by_cases hxy : x' = x ∧ y' = y
  · rw [if_pos hxy, hxy.1, hxy.2]
    exact getAt_setAt_same d w h m x y v hm hc
  · rw [if_neg hxy]
    exact getAt_setAt_ne d m x y x' y' v hxy

theorem shape_setAt {α : Type} (w h : Int) (m : List (List α)) (x y : Int) (v : α)
    (hm : Shape w h m) : Shape w h (setAt m x y v) := by
  unfold setAt
  split
  · by_cases hy : y.toNat < m.length
    · refine ⟨by rw [List.length_set]; exact hm.1, ?_⟩
      intro row hrow
      rcases List.mem_or_eq_of_mem_set hrow with hin | heq
      · exact hm.2 row hin
      · rw [heq, List.length_set]
        apply hm.2
        rw [List.getD_eq_getElem?_getD, List.getElem?_eq_getElem hy]
        exact List.getElem_mem hy
    · rw [List.set_eq_of_length_le (Nat.le_of_not_lt hy)]
      exact hm
  · exact hm

theorem getAt_default_or_mem {α : Type} (d : α) (m : List (List α)) (x y : Int) :
    getAt d m x y = d ∨ ∃ row ∈ m, getAt d m x y ∈ row := by
  unfold getAt
  split
  · by_cases hy : y.toNat < m.length
    · by_cases hx : x.toNat < (m.getD y.toNat []).length
      · right
        refine ⟨m.getD y.toNat [], ?_, ?_⟩
        · rw [List.getD_eq_getElem?_getD, List.getElem?_eq_getElem hy]
          exact List.getElem_mem hy
        · rw [List.getD_eq_getElem?_getD _ x.toNat, List.getElem?_eq_getElem hx]
          exact List.getElem_mem hx
      · left
        rw [List.getD_eq_getElem?_getD _ x.toNat, List.getElem?_eq_none (Nat.le_of_not_lt hx)]
        rfl
    · left
      rw [List.getD_eq_getElem?_getD m, List.getElem?_eq_none (Nat.le_of_not_lt hy)]
      rfl
  · left
    rfl

theorem getAt_filled {α : Type} (d : α) (w h x y : Int) : getAt d (filled w h d) x y = d := by
  rcases getAt_default_or_mem d (filled w h d) x y with h1 | ⟨row, hrow, hmem⟩
  · exact h1
  · unfold filled at hrow
    rw [List.mem_replicate] at hrow
    rw [hrow.2, List.mem_replicate] at hmem
    exact hmem.2

theorem shape_filled {α : Type} (w h : Int) (v : α) (hh : 0 ≤ h) (hw : 0 < h → 0 ≤ w) :
    Shape w h (filled w h v) := by
  unfold Shape filled
  refine ⟨by simp; omega, ?_⟩
  intro row hrow
  rw [List.mem_replicate] at hrow
  have hpos : 0 < h := by omega
  rw [hrow.2, List.length_replicate]
  have := hw hpos
  omega

/-! ## Loop ranges -/

theorem mem_intRange (lo hi i : Int) : i ∈ intRange lo hi ↔ lo ≤ i ∧ i < hi := by
  unfold intRange
  simp only [List.mem_map, List.mem_range]
  constructor
  · rintro ⟨k, hk, rfl⟩
    omega
  · intro hi'
    exact ⟨(i - lo).toNat, by omega, by omega⟩

theorem mem_rowMajor (x0 x1 y0 y1 : Int) (c : Int × Int) :
    c ∈ rowMajor x0 x1 y0 y1 ↔ x0 ≤ c.1 ∧ c.1 < x1 ∧ y0 ≤ c.2 ∧ c.2 < y1 := by
  unfold rowMajor
  simp only [List.mem_flatMap, List.mem_map, mem_intRange]
  constructor
  · rintro ⟨y, hy, x, hx, rfl⟩
    exact ⟨hx.1, hx.2, hy.1, hy.2⟩
  · rintro ⟨h1, h2, h3, h4⟩
    exact ⟨c.2, ⟨h3, h4⟩, c.1, ⟨h1, h2⟩, rfl⟩

theorem mem_rowMajor_grid (w h : Int) (c : Int × Int) :
    c ∈ rowMajor 0 w 0 h ↔ InGrid w h c := by
  rw [mem_rowMajor]
  rfl

theorem nodup_intRange (lo hi : Int) : (intRange lo hi).Nodup := by
  unfold intRange
  apply List.Nodup.map _ (List.nodup_range _)
  intro a b hab
  simp only at hab
  omega

theorem nodup_rowMajor (x0 x1 y0 y1 : Int) : (rowMajor x0 x1 y0 y1).Nodup := by
  unfold rowMajor
  rw [List.nodup_flatMap]
  constructor
  · intro y _
    apply List.Nodup.map _ (nodup_intRange _ _)
    intro a b hab
    simpa using hab
  · apply List.Pairwise.imp _ (nodup_intRange y0 y1)
    intro a b hab
    simp only [Function.onFun, List.disjoint_left, List.mem_map]
    rintro c ⟨x, _, rfl⟩ ⟨x', _, hx'⟩
    apply hab
    simpa using (congrArg Prod.snd hx').symm

/-! ## Loops that write one cell per iteration -/

theorem foldl_setAt_shape {α : Type} (w h : Int) (val : List (List α) → Int × Int → α)
    (cs : List (Int × Int)) (m : List (List α)) (hm : Shape w h m) :
    Shape w h (cs.foldl (fun m c => setAt m c.1 c.2 (val m c)) m) := by
  induction cs generalizing m with
  | nil => exact hm
  | cons c cs ih => exact ih _ (shape_setAt w h m c.1 c.2 _ hm)

theorem foldl_setAt_not_mem {α : Type} (d : α) (val : List (List α) → Int × Int → α)
    (cs : List (Int × Int)) (m : List (List α)) (x y : Int) (hc : (x, y) ∉ cs) :
    getAt d (cs.foldl (fun m c => setAt m c.1 c.2 (val m c)) m) x y = getAt d m x y := by
  induction cs generalizing m with
  | nil => rfl
  | cons c cs ih =>
    rw [List.foldl_cons, ih _ (fun hmem => hc (List.mem_cons_of_mem _ hmem))]
    apply getAt_setAt_ne
    rintro ⟨h1, h2⟩
    apply hc
    have : (x, y) = c := Prod.ext h1 h2
    rw [this]
    exact List.mem_cons_self _ _

theorem foldl_setAt_mem {α : Type} (d : α) (w h : Int) (f : Int × Int → α)
    (cs : List (Int × Int)) (m : List (List α)) (hm : Shape w h m)
    (hcs : ∀ c ∈ cs, InGrid w h c) (x y : Int) (hc : (x, y) ∈ cs) :
    getAt d (cs.foldl (fun m c => setAt m c.1 c.2 (f c)) m) x y = f (x, y) := by
  induction cs generalizing m with
  | nil => exact absurd hc (List.not_mem_nil _)
  | cons c cs ih =>
    rw [List.foldl_cons]
    by_cases hin : (x, y) ∈ cs
    · exact ih _ (shape_setAt w h m c.1 c.2 _ hm)
        (fun c' hc' => hcs c' (List.mem_cons_of_mem _ hc')) hin
    · rw [foldl_setAt_not_mem d (fun _ c => f c) cs _ x y hin]
      rcases List.mem_cons.mp hc with heq | hmem
      · rw [← heq]
        exact getAt_setAt_same d w h m x y _ hm (heq ▸ hcs c (List.mem_cons_self _ _))
      · exact absurd hmem hin

/-- A loop that writes `val s` at every visited cell while threading a state `s`
through `next`: cell number `i` of the visiting order receives `val (next^[i] s)`. -/
theorem foldl_indexed_write {α σ : Type} (d : α) (w h : Int) (val : σ → α) (next : σ → σ)
    (cs : List (Int × Int)) (m : List (List α)) (s : σ) (hm : Shape w h m)
    (hnd : cs.Nodup) (hcs : ∀ c ∈ cs, InGrid w h c) :
    Shape w h (cs.foldl (fun st c => (setAt st.1 c.1 c.2 (val st.2), next st.2)) (m, s)).1 ∧
    (cs.foldl (fun st c => (setAt st.1 c.1 c.2 (val st.2), next st.2)) (m, s)).2
      = next^[cs.length] s ∧
    (∀ (i : Nat) (c : Int × Int), cs[i]? = some c →
      getAt d (cs.foldl (fun st c => (setAt st.1 c.1 c.2 (val st.2), next st.2)) (m, s)).1
        c.1 c.2 = val (next^[i] s)) ∧
    (∀ c, c ∉ cs →
      getAt d (cs.foldl (fun st c => (setAt st.1 c.1 c.2 (val st.2), next st.2)) (m, s)).1
        c.1 c.2 = getAt d m c.1 c.2) := by
  induction cs generalizing m s with
  | nil =>
    refine ⟨hm, rfl, ?_, fun _ _ => rfl⟩
    intro i c hi
    simp at hi
  | cons c0 cs ih =>
    have hnd' := List.nodup_cons.mp hnd
    obtain ⟨ih1, ih2, ih3, ih4⟩ := ih (setAt m c0.1 c0.2 (val s)) (next s)
      (shape_setAt w h m c0.1 c0.2 _ hm) hnd'.2
      (fun c hc => hcs c (List.mem_cons_of_mem _ hc))
    simp only [List.foldl_cons]
    refine ⟨ih1, ?_, ?_, ?_⟩
    · rw [ih2, List.length_cons, Function.iterate_succ_apply]
    · intro i c hi
      cases i with
      | zero =>
        simp only [List.getElem?_cons_zero, Option.some.injEq] at hi
        subst hi
        rw [ih4 c0 hnd'.1]
        exact getAt_setAt_same d w h m c0.1 c0.2 _ hm (hcs c0 (List.mem_cons_self _ _))
      | succ j =>
        simp only [List.getElem?_cons_succ] at hi
        rw [ih3 j c hi, Function.iterate_succ_apply]
    · intro c hc
      rw [ih4 c (fun hmem => hc (List.mem_cons_of_mem _ hmem))]
      apply getAt_setAt_ne
      rintro ⟨h1, h2⟩
      apply hc
      rw [show c = c0 from Prod.ext h1 h2]
      exact List.mem_cons_self _ _

/-! ## Row-major numbering of the cells -/

theorem intRange_zero_succ (n : Nat) :
    intRange 0 ((n : Int) + 1) = intRange 0 (n : Int) ++ [(n : Int)] := by
  unfold intRange
  have h1 : ((n : Int) + 1 - 0).toNat = n + 1 := by omega
  have h2 : ((n : Int) - 0).toNat = n := by omega
  rw [h1, h2, List.range_succ, List.map_append]
  simp

theorem length_intRange (lo hi : Int) : (intRange lo hi).length = (hi - lo).toNat := by
  unfold intRange
  simp

theorem length_rowMajor_rows (W n : Nat) :
    (rowMajor 0 (W : Int) 0 (n : Int)).length = n * W := by
  induction n with
  | zero => simp [rowMajor, intRange]
  | succ k ih =>
    unfold rowMajor at ih ⊢
    rw [Nat.cast_succ, intRange_zero_succ, List.flatMap_append, List.length_append, ih]
    simp [length_intRange, Nat.succ_mul]

theorem intRange_zero_getElem? (W x : Nat) (hx : x < W) :
    (intRange 0 (W : Int))[x]? = some (x : Int) := by
  unfold intRange
  have h1 : ((W : Int) - 0).toNat = W := by omega
  rw [h1, List.getElem?_map, List.getElem?_range hx]
  simp

theorem rowMajor_getElem? (W H x y : Nat) (hx : x < W) (hy : y < H) :
    (rowMajor 0 (W : Int) 0 (H : Int))[y * W + x]? = some ((x : Int), (y : Int)) := by
  induction H with
  | zero => omega
  | succ k ih =>
    have hlen := length_rowMajor_rows W k
    unfold rowMajor at ih hlen ⊢
    rw [Nat.cast_succ, intRange_zero_succ, List.flatMap_append]
    by_cases hyk : y < k
    · have hlt : y * W + x < k * W := by
        calc y * W + x < y * W + W := by omega
          _ = (y + 1) * W := by ring
          _ ≤ k * W := Nat.mul_le_mul_right W hyk
      rw [List.getElem?_append_left (by rw [hlen]; exact hlt)]
      exact ih hyk
    · have hyk' : y = k := by omega
      subst hyk'
      rw [List.getElem?_append_right (by rw [hlen]; omega), hlen]
      simp only [Nat.add_sub_cancel_left, List.flatMap_cons, List.flatMap_nil, List.append_nil,
        List.getElem?_map, intRange_zero_getElem? W x hx, Option.map_some']

/-- In a `w` by `h` grid the cell `(x, y)` is number `y * w + x` of the row-major scan. -/
theorem rowMajor_index (w h : Int) (x y : Int) (hc : InGrid w h (x, y)) :
    (rowMajor 0 w 0 h)[(y * w + x).toNat]? = some (x, y) := by
  obtain ⟨hx0, hxw, hy0, hyh⟩ := hc
  simp only at hx0 hxw hy0 hyh
  have hget := rowMajor_getElem? w.toNat h.toNat x.toNat y.toNat (by omega) (by omega)
  have hw : ((w.toNat : Nat) : Int) = w := by omega
  have hh : ((h.toNat : Nat) : Int) = h := by omega
  have hxx : ((x.toNat : Nat) : Int) = x := by omega
  have hyy : ((y.toNat : Nat) : Int) = y := by omega
  have hidx : (y * w + x).toNat = y.toNat * w.toNat + x.toNat := by
    have : y * w + x = ((y.toNat * w.toNat + x.toNat : Nat) : Int) := by
      push_cast
      rw [hw, hxx, hyy]
    rw [this]
    rfl
  rw [hw, hh, hxx, hyy] at hget
  rw [hidx]
  exact hget

theorem length_rowMajor_grid (w h : Int) (hw : 0 ≤ w) (hh : 0 ≤ h) :
    ((rowMajor 0 w 0 h).length : Int) = w * h := by
  have h1 := length_rowMajor_rows w.toNat h.toNat
  have hw' : ((w.toNat : Nat) : Int) = w := by omega
  have hh' : ((h.toNat : Nat) : Int) = h := by omega
  rw [hw', hh'] at h1
  rw [h1]
  push_cast
  rw [hw', hh']
  ring

/-! ## Repeated passes -/

theorem repeatN_invariant {σ : Type} (body : σ → σ) (P : σ → Prop)
    (hstep : ∀ s, P s → P (body s)) (n : Nat) (s : σ) (hs : P s) : P (repeatN body n s) := by
  induction n generalizing s with
  | zero => exact hs
  | succ k ih => exact ih (body s) (hstep s hs)

/-! ## The initial random fill -/

theorem uniformReal_iterate (r : Rng) (i : Nat) :
    (fun r : Rng => r.uniformReal.2)^[i] r = { draws := r.draws, pos := r.pos + i } := by
  induction i generalizing r with
  | zero => rfl
  | succ k ih =>
    rw [Function.iterate_succ_apply, ih]
    simp only [Rng.uniformReal]
    congr 1
    omega

theorem initialFill_width (g : CaveGenerator) (p : ℚ) : (initialFill g p).width = g.width := rfl

theorem initialFill_height (g : CaveGenerator) (p : ℚ) : (initialFill g p).height = g.height :=
  rfl

theorem initialFill_spec (g : CaveGenerator) (p : ℚ) (hg : WellFormed g) :
    WellFormed (initialFill g p) ∧
    ∀ x y, InGrid g.width g.height (x, y) →
      (initialFill g p).cell x y =
        if g.rng.draws (g.rng.pos + (y * g.width + x).toNat) < p then TILE_WALL
        else TILE_FLOOR := by
  have hfold := foldl_indexed_write (0 : Int) g.width g.height
    (fun r : Rng => if r.uniformReal.1 < p then TILE_WALL else TILE_FLOOR)
    (fun r : Rng => r.uniformReal.2) (rowMajor 0 g.width 0 g.height) g.map g.rng hg
    (nodup_rowMajor _ _ _ _) (fun c hc => (mem_rowMajor_grid _ _ c).mp hc)
  obtain ⟨h1, _, h3, _⟩ := hfold
  refine ⟨h1, ?_⟩
  intro x y hc
  have h := h3 (y * g.width + x).toNat (x, y) (rowMajor_index g.width g.height x y hc)
  rw [uniformReal_iterate] at h
  exact h

/-! ## The neighbour-counting passes -/

theorem caPass_width (g : CaveGenerator) : (caPass g).width = g.width := rfl

theorem caPass_height (g : CaveGenerator) : (caPass g).height = g.height := rfl

theorem caPass_wellFormed (g : CaveGenerator) (hg : WellFormed g) : WellFormed (caPass g) :=
  foldl_setAt_shape g.width g.height _ _ g.map hg

theorem smoothPass_width (g : CaveGenerator) : (smoothPass g).width = g.width := rfl

theorem smoothPass_height (g : CaveGenerator) : (smoothPass g).height = g.height := rfl

theorem smoothPass_wellFormed (g : CaveGenerator) (hg : WellFormed g) :
    WellFormed (smoothPass g) :=
  foldl_setAt_shape g.width g.height _ _ g.map hg

theorem not_interior_of_ring (w h : Int) (c : Int × Int) (hr : OnRing w h c) :
    c ∉ rowMajor 1 (w - 1) 1 (h - 1) := by
  rw [mem_rowMajor]
  obtain ⟨_, hr⟩ := hr
  omega

theorem caPass_ring (g : CaveGenerator) (x y : Int) (hr : OnRing g.width g.height (x, y)) :
    (caPass g).cell x y = g.cell x y :=
  foldl_setAt_not_mem 0 _ _ g.map x y (not_interior_of_ring _ _ _ hr)

theorem smoothPass_ring (g : CaveGenerator) (x y : Int)
    (hr : OnRing g.width g.height (x, y)) : (smoothPass g).cell x y = g.cell x y :=
  foldl_setAt_not_mem 0 _ _ g.map x y (not_interior_of_ring _ _ _ hr)

theorem repeat_ring (pass : CaveGenerator → CaveGenerator) (g : CaveGenerator) (x y : Int)
    (hw : ∀ s, (pass s).width = s.width) (hh : ∀ s, (pass s).height = s.height)
    (hpass : ∀ s, OnRing s.width s.height (x, y) → (pass s).cell x y = s.cell x y)
    (hr : OnRing g.width g.height (x, y)) (n : Nat) :
    (repeatN pass n g).cell x y = g.cell x y := by
  have h := repeatN_invariant pass
    (fun s => s.width = g.width ∧ s.height = g.height ∧ s.cell x y = g.cell x y)
    (fun s hs => by
      refine ⟨by rw [hw, hs.1], by rw [hh, hs.2.1], ?_⟩
      rw [hpass s (by rw [hs.1, hs.2.1]; exact hr)]
      exact hs.2.2)
    n g ⟨rfl, rfl, rfl⟩
  exact h.2.2

theorem caOffsets_eq :
    offsets9.filter (fun d => ¬ (d.1 = 0 ∧ d.2 = 0)) =
      [(-1, -1), (0, -1), (1, -1), (-1, 0), (1, 0), (-1, 1), (0, 1), (1, 1)] := by
  decide

theorem caPass_interior (g : CaveGenerator) (hg : WellFormed g) (x y : Int)
    (hc : (x, y) ∈ rowMajor 1 (g.width - 1) 1 (g.height - 1)) :
    (caPass g).cell x y = if caWallCount g.map x y ≥ 5 then TILE_WALL else TILE_FLOOR :=
  foldl_setAt_mem 0 g.width g.height
    (fun c => if caWallCount g.map c.1 c.2 ≥ 5 then TILE_WALL else TILE_FLOOR) _ g.map hg
    (fun c hc' => by
      rw [mem_rowMajor] at hc'
      exact ⟨by omega, by omega, by omega, by omega⟩)
    x y hc

theorem caPass_all_wall (g : CaveGenerator) (hg : WellFormed g)
    (hall : ∀ x y, InGrid g.width g.height (x, y) → g.cell x y = TILE_WALL) :
    ∀ x y, InGrid g.width g.height (x, y) → (caPass g).cell x y = TILE_WALL := by
  intro x y hc
  by_cases hint : (x, y) ∈ rowMajor 1 (g.width - 1) 1 (g.height - 1)
  · rw [caPass_interior g hg x y hint]
    have hcount : caWallCount g.map x y = 8 := by
      unfold caWallCount
      rw [caOffsets_eq, List.filter_eq_self.mpr]
      · rfl
      · intro d hd
        rw [mem_rowMajor] at hint
        simp only [List.mem_cons, List.mem_singleton, List.not_mem_nil, or_false] at hd
        have hn : InGrid g.width g.height (x + d.1, y + d.2) := by
          unfold InGrid
          rcases hd with h | h | h | h | h | h | h | h <;> subst h <;> simp only <;> omega
        exact decide_eq_true (hall _ _ hn)
    rw [hcount]
    rfl
  · have h := foldl_setAt_not_mem 0
      (fun (m : List (List Int)) (c : Int × Int) =>
        if caWallCount g.map c.1 c.2 ≥ 5 then TILE_WALL else TILE_FLOOR)
      (rowMajor 1 (g.width - 1) 1 (g.height - 1)) g.map x y hint
    exact h.trans (hall x y hc)

/-! ## Example states are well formed -/

theorem cornerCaves_wellFormed : WellFormed cornerCaves := by
  unfold WellFormed Shape cornerCaves
  decide

theorem create_wellFormed (w h : Int) (r : Rng) (hw : 0 ≤ w) (hh : 0 ≤ h) :
    WellFormed (CaveGenerator.create w h r) :=
  shape_filled w h TILE_WALL hh (fun _ => hw)

/-! ## Border invariant, zero iterations, all-Wall scenarios -/

/-- C4: on a well-formed grid `smoothMap(iterations)` leaves every cell of the outermost
ring unchanged, and after `generateCellularAutomata(p, iterations)` every cell of the
outermost ring holds the value given to it by the initial random fill, i.e. Wall when
its draw (number `y * width + x` of the call) is below `p` and Floor otherwise. -/
theorem border_ring_unchanged (g : CaveGenerator) (hg : WellFormed g) (p : ℚ)
    (iterations : Int) (x y : Int) (hr : OnRing g.width g.height (x, y)) :
    (smoothMap g iterations).cell x y = g.cell x y ∧
    (generateCellularAutomata g p iterations).cell x y = (initialFill g p).cell x y ∧
    (generateCellularAutomata g p iterations).cell x y =
      (if g.rng.draws (g.rng.pos + (y * g.width + x).toNat) < p then TILE_WALL
       else TILE_FLOOR) := by
  have hca : (generateCellularAutomata g p iterations).cell x y = (initialFill g p).cell x y :=
    repeat_ring caPass (initialFill g p) x y caPass_width caPass_height
      (fun s hs => caPass_ring s x y hs) hr _
  refine ⟨?_, hca, ?_⟩
  · exact repeat_ring smoothPass g x y smoothPass_width smoothPass_height
      (fun s hs => smoothPass_ring s x y hs) hr _
  · rw [hca]
    exact (initialFill_spec g p hg).2 x y hr.1

theorem border_ring_unchanged_witness :
    WellFormed cornerCaves ∧ OnRing cornerCaves.width cornerCaves.height (2, 1) ∧
    (smoothMap cornerCaves 3).cell 2 1 = cornerCaves.cell 2 1 ∧
    (generateCellularAutomata cornerCaves (1 / 2) 3).cell 2 1
      = (initialFill cornerCaves (1 / 2)).cell 2 1 ∧
    (generateCellularAutomata cornerCaves (1 / 2) 3).cell 2 1 =
      (if cornerCaves.rng.draws (cornerCaves.rng.pos + (1 * cornerCaves.width + 2).toNat)
          < 1 / 2 then TILE_WALL else TILE_FLOOR) :=
  ⟨cornerCaves_wellFormed, by unfold OnRing InGrid cornerCaves; decide,
    border_ring_unchanged cornerCaves cornerCaves_wellFormed (1 / 2) 3 2 1
      (by unfold OnRing InGrid cornerCaves; decide)⟩

/-- C8: `smoothMap(0)` returns the generator unchanged, and on a well-formed grid
`generateCellularAutomata(p, 0)` leaves in every cell `(x, y)` exactly the value of the
initial probability fill: Wall when draw number `y * width + x` of the call is below `p`,
Floor otherwise. -/
theorem zero_iterations_only_fill (g : CaveGenerator) (hg : WellFormed g) (p : ℚ) :
    smoothMap g 0 = g ∧
    generateCellularAutomata g p 0 = initialFill g p ∧
    ∀ x y, InGrid g.width g.height (x, y) →
      (generateCellularAutomata g p 0).cell x y =
        (if g.rng.draws (g.rng.pos + (y * g.width + x).toNat) < p then TILE_WALL
         else TILE_FLOOR) :=
  ⟨rfl, rfl, (initialFill_spec g p hg).2⟩

theorem zero_iterations_only_fill_witness :
    WellFormed cornerCaves ∧ smoothMap cornerCaves 0 = cornerCaves ∧
    generateCellularAutomata cornerCaves (1 / 2) 0 = initialFill cornerCaves (1 / 2) ∧
    ∀ x y, InGrid cornerCaves.width cornerCaves.height (x, y) →
      (generateCellularAutomata cornerCaves (1 / 2) 0).cell x y =
        (if cornerCaves.rng.draws (cornerCaves.rng.pos + (y * cornerCaves.width + x).toNat)
            < 1 / 2 then TILE_WALL else TILE_FLOOR) :=
  ⟨cornerCaves_wellFormed, zero_iterations_only_fill cornerCaves cornerCaves_wellFormed (1 / 2)⟩

/-- C9: on a well-formed grid of any size, for every iteration count and every stream of
draws with values in [0, 1), `generateCellularAutomata(1.0, iterations)` leaves every
cell of the grid Wall. -/
theorem full_probability_all_wall (g : CaveGenerator) (hg : WellFormed g) (iterations : Int)
    (hdraws : ∀ i, 0 ≤ g.rng.draws i ∧ g.rng.draws i < 1) (x y : Int)
    (hc : InGrid g.width g.height (x, y)) :
    (generateCellularAutomata g 1 iterations).cell x y = TILE_WALL := by
  unfold generateCellularAutomata
  have hinit := initialFill_spec g 1 hg
  have h := repeatN_invariant caPass
    (fun s => s.width = g.width ∧ s.height = g.height ∧ WellFormed s ∧
      ∀ x y, InGrid g.width g.height (x, y) → s.cell x y = TILE_WALL)
    (fun s hs => by
      refine ⟨by rw [caPass_width, hs.1], by rw [caPass_height, hs.2.1],
        caPass_wellFormed s hs.2.2.1, ?_⟩
      have hall := caPass_all_wall s hs.2.2.1 (by rw [hs.1, hs.2.1]; exact hs.2.2.2)
      rw [hs.1, hs.2.1] at hall
      exact hall)
    iterations.toNat (initialFill g 1)
    ⟨rfl, rfl, hinit.1, fun x y hxy => by
      rw [hinit.2 x y hxy, if_pos (hdraws _).2]⟩
  exact h.2.2.2 x y hc

theorem full_probability_all_wall_witness :
    WellFormed (CaveGenerator.create 5 5 zeroStream) ∧
    (∀ i, 0 ≤ (CaveGenerator.create 5 5 zeroStream).rng.draws i ∧
      (CaveGenerator.create 5 5 zeroStream).rng.draws i < 1) ∧
    InGrid 5 5 (2, 2) ∧
    (generateCellularAutomata (CaveGenerator.create 5 5 zeroStream) 1 0).cell 2 2 = TILE_WALL :=
  ⟨create_wellFormed 5 5 zeroStream (by decide) (by decide),
    fun _ => ⟨le_refl _, zero_lt_one⟩, by unfold InGrid; decide,
    full_probability_all_wall (CaveGenerator.create 5 5 zeroStream)
      (create_wellFormed 5 5 zeroStream (by decide) (by decide)) 0
      (fun _ => ⟨le_refl _, zero_lt_one⟩) 2 2 (by unfold InGrid; decide)⟩

/-- C10: on a well-formed grid, whatever its prior contents and whatever `walkLength`,
`generateRandomWalk(0, walkLength)` leaves every cell of the grid Wall (and consumes no
draw). -/
theorem zero_walks_all_wall (g : CaveGenerator) (hg : WellFormed g) (walkLength : Int)
    (x y : Int) (hc : InGrid g.width g.height (x, y)) :
    (generateRandomWalk g 0 walkLength).cell x y = TILE_WALL ∧
    (generateRandomWalk g 0 walkLength).rng = g.rng := by
  constructor
  · exact foldl_setAt_mem 0 g.width g.height (fun _ => TILE_WALL) _ g.map hg
      (fun c hc' => (mem_rowMajor_grid _ _ c).mp hc') x y ((mem_rowMajor_grid _ _ _).mpr hc)
  · rfl

theorem zero_walks_all_wall_witness :
    WellFormed cornerCaves ∧ InGrid cornerCaves.width cornerCaves.height (0, 0) ∧
    (generateRandomWalk cornerCaves 0 500).cell 0 0 = TILE_WALL ∧
    (generateRandomWalk cornerCaves 0 500).rng = cornerCaves.rng :=
  ⟨cornerCaves_wellFormed, by unfold InGrid cornerCaves; decide,
    zero_walks_all_wall cornerCaves cornerCaves_wellFormed 500 0 0
      (by unfold InGrid cornerCaves; decide)⟩

/-! ## getMapFlat and the tile map -/

theorem foldl_push_back {α β : Type} (f : α → β) (cs : List α) (acc : List β) :
    cs.foldl (fun flat c => flat ++ [f c]) acc = acc ++ cs.map f := by
  induction cs generalizing acc with
  | nil => simp
  | cons c cs ih => rw [List.foldl_cons, ih, List.map_cons, List.append_assoc]; rfl

theorem getMapFlat_eq (g : CaveGenerator) :
    getMapFlat g = (rowMajor 0 g.width 0 g.height).map (fun c => getAt 0 g.map c.1 c.2) := by
  unfold getMapFlat
  rw [foldl_push_back (fun c : Int × Int => getAt 0 g.map c.1 c.2)]
  rfl

theorem getMapFlat_index (g : CaveGenerator) (x y : Int)
    (hc : InGrid g.width g.height (x, y)) :
    (getMapFlat g)[(y * g.width + x).toNat]? = some (g.cell x y) := by
  rw [getMapFlat_eq, List.getElem?_map, rowMajor_index g.width g.height x y hc]
  rfl

theorem succ_iterate (i : Nat) : (fun n : Nat => n + 1)^[i] 0 = i := by
  induction i with
  | zero => rfl
  | succ k ih => rw [Function.iterate_succ_apply', ih]

theorem loadMapFromArray_getTile (t : Tilemap) (data : List Int)
    (ht : Shape t.mapWidth t.mapHeight t.tiles) (x y : Int)
    (hc : InGrid t.mapWidth t.mapHeight (x, y)) :
    (t.loadMapFromArray (some data)).2.getTile x y
      = data.getD (y * t.mapWidth + x).toNat 0 := by
  have hfold := foldl_indexed_write (0 : Int) t.mapWidth t.mapHeight
    (fun i : Nat => data.getD i 0) (fun i : Nat => i + 1)
    (rowMajor 0 t.mapWidth 0 t.mapHeight) t.tiles 0 ht
    (nodup_rowMajor _ _ _ _) (fun c hc => (mem_rowMajor_grid _ _ c).mp hc)
  obtain ⟨_, _, h3, _⟩ := hfold
  have h := h3 (y * t.mapWidth + x).toNat (x, y) (rowMajor_index _ _ x y hc)
  rw [succ_iterate] at h
  obtain ⟨hx0, hxw, hy0, hyh⟩ := hc
  simp only at hx0 hxw hy0 hyh
  unfold Tilemap.getTile Tilemap.loadMapFromArray
  simp only [ge_iff_le, hx0, hxw, hy0, hyh, and_self, if_true]
  exact h

/-- C5: on a well-formed generator `getMapFlat` returns `width * height` values, the one at
index `y * width + x` being the grid cell `(x, y)` for every cell of the grid; and once
that sequence is loaded by `loadMapFromArray` into a tile map of the same dimensions,
`getTile(x, y)` returns the same value for every cell of the grid. -/
theorem flat_round_trip (g : CaveGenerator) (hg : WellFormed g) (t : Tilemap)
    (ht : Shape t.mapWidth t.mapHeight t.tiles) (hw : t.mapWidth = g.width)
    (hh : t.mapHeight = g.height) :
    ((getMapFlat g).length : Int) = g.width * g.height ∧
    ∀ x y, InGrid g.width g.height (x, y) →
      (getMapFlat g)[(y * g.width + x).toNat]? = some (g.cell x y) ∧
      (t.loadMapFromArray (some (getMapFlat g))).1 = true ∧
      (t.loadMapFromArray (some (getMapFlat g))).2.getTile x y = g.cell x y := by
  constructor
  · rw [getMapFlat_eq, List.length_map]
    have hh0 : 0 ≤ g.height := by rw [← hg.1]; exact Int.ofNat_nonneg _
    by_cases hpos : 0 < g.height
    · have hw0 : 0 ≤ g.width := by
        have hne : g.map ≠ [] := by
          intro he
          have := hg.1
          rw [he] at this
          simp at this
          omega
        obtain ⟨row, hrow⟩ := List.exists_mem_of_ne_nil _ hne
        rw [← hg.2 row hrow]
        exact Int.ofNat_nonneg _
      exact length_rowMajor_grid _ _ hw0 hh0
    · have hz : g.height = 0 := by omega
      rw [hz]
      simp [rowMajor, intRange]
  · intro x y hc
    refine ⟨getMapFlat_index g x y hc, rfl, ?_⟩
    rw [loadMapFromArray_getTile t _ ht x y (by rw [hw, hh]; exact hc), hw,
      List.getD_eq_getElem?_getD, getMapFlat_index g x y hc]
    rfl

theorem flat_round_trip_witness :
    WellFormed cornerCaves ∧ Shape emptyTilemap.mapWidth emptyTilemap.mapHeight emptyTilemap.tiles ∧
    emptyTilemap.mapWidth = cornerCaves.width ∧ emptyTilemap.mapHeight = cornerCaves.height ∧
    (((getMapFlat cornerCaves).length : Int) = cornerCaves.width * cornerCaves.height ∧
    ∀ x y, InGrid cornerCaves.width cornerCaves.height (x, y) →
      (getMapFlat cornerCaves)[(y * cornerCaves.width + x).toNat]? = some (cornerCaves.cell x y) ∧
      (emptyTilemap.loadMapFromArray (some (getMapFlat cornerCaves))).1 = true ∧
      (emptyTilemap.loadMapFromArray (some (getMapFlat cornerCaves))).2.getTile x y
        = cornerCaves.cell x y) :=
  ⟨cornerCaves_wellFormed, by unfold Shape emptyTilemap Tilemap.create filled; decide, rfl, rfl,
    flat_round_trip cornerCaves cornerCaves_wellFormed emptyTilemap
      (by unfold Shape emptyTilemap Tilemap.create filled; decide) rfl rfl⟩

/-- C6, evaluated on the code: a freshly constructed 3x3 generator holds Wall in
every cell; after its `getMapFlat` output is loaded into a 3x3 tile map, `getTile(1, 1)`
returns `TILE_WALL` and yet `isSolidTile(1, 1)` is false, because `isSolidTile` tests the
tile codes 0 and 4 whereas `TILE_WALL` is 354. -/
theorem isSolidTile_misses_wall :
    (CaveGenerator.create 3 3 zeroStream).cell 1 1 = TILE_WALL ∧
    TILE_WALL = 354 ∧
    (emptyTilemap.loadMapFromArray
      (some (getMapFlat (CaveGenerator.create 3 3 zeroStream)))).2.getTile 1 1 = TILE_WALL ∧
    (emptyTilemap.loadMapFromArray
      (some (getMapFlat (CaveGenerator.create 3 3 zeroStream)))).2.isSolidTile 1 1 = false := by
  decide

/-! ## Correctness of the flood fill -/

theorem mem_neighbours4 (c n : Int × Int) : n ∈ neighbours4 c ↔ Adj4 c n := by
  unfold neighbours4 Adj4
  simp only [List.mem_cons, List.mem_singleton, List.not_mem_nil, or_false, Prod.ext_iff]
  omega

theorem adj4_symm (a b : Int × Int) (hab : Adj4 a b) : Adj4 b a := by
  unfold Adj4 at *
  omega

theorem nodup_inGrid_length (w h : Int) (l : List (Int × Int)) (hnd : l.Nodup)
    (hl : ∀ c ∈ l, InGrid w h c) : l.length ≤ (w * h).toNat := by
  cases l with
  | nil => exact Nat.zero_le _
  | cons c0 l0 =>
    obtain ⟨h1, h2, h3, h4⟩ := hl c0 (List.mem_cons_self _ _)
    have hsub : (c0 :: l0) ⊆ rowMajor 0 w 0 h := fun c hc => (mem_rowMajor_grid w h c).mpr (hl c hc)
    have hle := (List.Nodup.subperm hnd hsub).length_le
    have hlen := length_rowMajor_grid w h (by omega) (by omega)
    omega

theorem floodVisit_inv (w h : Int) (m : List (List Int)) (v0 : List (List Bool))
    (s pos n : Int × Int) (st : FloodState) (hinv : FloodInv w h m v0 s st)
    (hpos : pos ∈ st.cavern) (hadj : Adj4 pos n) :
    FloodInv w h m v0 s (floodVisit w h m st n) ∧
    (floodVisit w h m st n).cavern = st.cavern ∧
    (∀ c ∈ st.queue, c ∈ (floodVisit w h m st n).queue) ∧
    (IsOpen w h m v0 n →
      n ∈ (floodVisit w h m st n).cavern ∨ n ∈ (floodVisit w h m st n).queue) := by
  unfold floodVisit
  split
  next hcond =>
    obtain ⟨hx0, hxw, hy0, hyh, hnv, hfl⟩ := hcond
    have hin : InGrid w h n := ⟨hx0, hxw, hy0, hyh⟩
    have hnot : ¬ (getAt false v0 n.1 n.2 = true ∨ n ∈ st.cavern ∨ n ∈ st.queue) := by
      intro hor
      have := (hinv.visited_iff n).mpr hor
      rw [hnv] at this
      exact Bool.false_ne_true this
    have hv0 : getAt false v0 n.1 n.2 = false := by
      cases hb : getAt false v0 n.1 n.2
      · rfl
      · exact absurd (Or.inl hb) hnot
    have hopen : IsOpen w h m v0 n := ⟨hin, hv0, hfl⟩
    refine ⟨⟨?_, ?_, ?_, ?_, ?_⟩, rfl, fun c hc => List.mem_cons_of_mem _ hc,
      fun _ => Or.inr (List.mem_cons_self _ _)⟩
    · exact shape_setAt w h _ _ _ _ hinv.shape
    · intro c
      show getAt false (setAt st.visited n.1 n.2 true) c.1 c.2 = true ↔
        (getAt false v0 c.1 c.2 = true ∨ c ∈ st.cavern ∨ c ∈ n :: st.queue)
      rw [getAt_setAt false w h st.visited n.1 n.2 c.1 c.2 true hinv.shape hin]
      by_cases hcn : c.1 = n.1 ∧ c.2 = n.2
      · have hceq : c = n := Prod.ext hcn.1 hcn.2
        rw [if_pos hcn]
        simp [hceq]
      · rw [if_neg hcn, hinv.visited_iff c]
        have hne : c ≠ n := fun he => hcn ⟨by rw [he], by rw [he]⟩
        simp [hne]
    · show (st.cavern ++ n :: st.queue).Nodup
      rw [List.nodup_middle, List.nodup_cons]
      refine ⟨?_, hinv.nodup⟩
      rw [List.mem_append]
      intro hor
      exact hnot (Or.inr hor)
    · intro c hc
      have hc' : c ∈ st.cavern ∨ c = n ∨ c ∈ st.queue := by
        rcases hc with h1 | h1
        · exact Or.inl h1
        · exact Or.inr (List.mem_cons.mp h1)
      rcases hc' with h1 | h1 | h1
      · exact hinv.reach c (Or.inl h1)
      · rw [h1]
        have hp := hinv.reach pos (Or.inl hpos)
        exact ⟨hopen, Relation.ReflTransGen.tail hp.2 ⟨hadj, hp.1, hopen⟩⟩
      · exact hinv.reach c (Or.inr h1)
    · rcases hinv.seed with h1 | h1
      · exact Or.inl h1
      · exact Or.inr (List.mem_cons_of_mem _ h1)
  next hcond =>
    refine ⟨hinv, rfl, fun c hc => hc, ?_⟩
    intro hopen
    have hvis : getAt false st.visited n.1 n.2 = true := by
      cases hb : getAt false st.visited n.1 n.2
      · exact absurd ⟨hopen.1.1, hopen.1.2.1, hopen.1.2.2.1, hopen.1.2.2.2, hb, hopen.2.2⟩ hcond
      · rfl
    rcases (hinv.visited_iff n).mp hvis with h1 | h1
    · rw [hopen.2.1] at h1
      exact absurd h1 Bool.false_ne_true
    · exact h1

theorem foldl_floodVisit_inv (w h : Int) (m : List (List Int)) (v0 : List (List Bool))
    (s pos : Int × Int) (ns : List (Int × Int)) (st : FloodState)
    (hinv : FloodInv w h m v0 s st) (hpos : pos ∈ st.cavern) (hadj : ∀ n ∈ ns, Adj4 pos n) :
    FloodInv w h m v0 s (ns.foldl (floodVisit w h m) st) ∧
    (ns.foldl (floodVisit w h m) st).cavern = st.cavern ∧
    (∀ c ∈ st.queue, c ∈ (ns.foldl (floodVisit w h m) st).queue) ∧
    (∀ n ∈ ns, IsOpen w h m v0 n →
      n ∈ (ns.foldl (floodVisit w h m) st).cavern ∨
      n ∈ (ns.foldl (floodVisit w h m) st).queue) := by
  induction ns generalizing st with
  | nil => exact ⟨hinv, rfl, fun c hc => hc, fun n hn => absurd hn (List.not_mem_nil _)⟩
  | cons n0 ns ih =>
    obtain ⟨h1, h2, h3, h4⟩ := floodVisit_inv w h m v0 s pos n0 st hinv hpos
      (hadj n0 (List.mem_cons_self _ _))
    obtain ⟨i1, i2, i3, i4⟩ := ih (floodVisit w h m st n0) h1 (by rw [h2]; exact hpos)
      (fun n hn => hadj n (List.mem_cons_of_mem _ hn))
    rw [List.foldl_cons]
    refine ⟨i1, by rw [i2, h2], fun c hc => i3 c (h3 c hc), ?_⟩
    intro n hn hopen
    rcases List.mem_cons.mp hn with heq | hmem
    · rw [heq]
      rcases h4 (heq ▸ hopen) with h5 | h5
      · left
        rw [i2]
        exact h5
      · exact Or.inr (i3 n0 h5)
    · exact i4 n hmem hopen

theorem floodStep_inv (w h : Int) (m : List (List Int)) (v0 : List (List Bool))
    (s pos : Int × Int) (rest : List (Int × Int)) (st : FloodState)
    (hq : st.queue = pos :: rest) (hinv : FloodInv w h m v0 s st)
    (hcl : FloodClosed w h m v0 st) :
    FloodInv w h m v0 s (floodStep w h m pos rest st) ∧
    FloodClosed w h m v0 (floodStep w h m pos rest st) ∧
    (floodStep w h m pos rest st).cavern.length = st.cavern.length + 1 := by
  have hmemiff : ∀ c, (c ∈ st.cavern ++ [pos] ∨ c ∈ rest) ↔ (c ∈ st.cavern ∨ c ∈ st.queue) := by
    intro c
    rw [hq]
    simp only [List.mem_append, List.mem_singleton, List.mem_cons]
    tauto
  have hinv1 : FloodInv w h m v0 s
      { st with queue := rest, cavern := st.cavern ++ [pos] } := by
    refine ⟨hinv.shape, ?_, ?_, ?_, ?_⟩
    · intro c
      rw [hinv.visited_iff c, ← hmemiff c]
    · have := hinv.nodup
      rw [hq] at this
      show ((st.cavern ++ [pos]) ++ rest).Nodup
      rw [List.append_assoc]
      exact this
    · intro c hc
      exact hinv.reach c ((hmemiff c).mp hc)
    · exact (hmemiff s).mpr hinv.seed
  have hposmem : pos ∈ st.cavern ++ [pos] := by simp
  obtain ⟨f1, f2, f3, f4⟩ := foldl_floodVisit_inv w h m v0 s pos (neighbours4 pos)
    { st with queue := rest, cavern := st.cavern ++ [pos] } hinv1 hposmem
    (fun n hn => (mem_neighbours4 pos n).mp hn)
  unfold floodStep
  refine ⟨f1, ?_, ?_⟩
  · intro c hc n hadj hopen
    rw [f2] at hc
    rcases List.mem_append.mp hc with hold | hnew
    · rcases hcl c hold n hadj hopen with h1 | h1
      · left
        rw [f2]
        exact List.mem_append_left _ h1
      · rw [hq] at h1
        rcases List.mem_cons.mp h1 with h2 | h2
        · left
          rw [f2, h2]
          exact hposmem
        · exact Or.inr (f3 n h2)
    · rw [List.mem_singleton] at hnew
      rw [hnew] at hadj
      exact f4 n ((mem_neighbours4 pos n).mpr hadj) hopen
  · rw [f2, List.length_append]
    rfl

theorem floodLoop_complete (w h : Int) (m : List (List Int)) (v0 : List (List Bool))
    (s : Int × Int) (fuel : Nat) (st : FloodState) (hinv : FloodInv w h m v0 s st)
    (hcl : FloodClosed w h m v0 st) (hfuel : (w * h).toNat ≤ fuel + st.cavern.length) :
    ∃ st', floodLoop w h m fuel st = some st' ∧ FloodInv w h m v0 s st' ∧
      FloodClosed w h m v0 st' ∧ st'.queue = [] := by
  induction fuel generalizing st with
  | zero =>
    unfold floodLoop
    split
    next hq => exact ⟨st, rfl, hinv, hcl, hq⟩
    next pos rest hq =>
      exfalso
      have hlen := nodup_inGrid_length w h _ hinv.nodup
        (fun c hc => (hinv.reach c (List.mem_append.mp hc)).1.1)
      rw [List.length_append, hq, List.length_cons] at hlen
      omega
  | succ f ih =>
    unfold floodLoop
    split
    next hq => exact ⟨st, rfl, hinv, hcl, hq⟩
    next pos rest hq =>
      obtain ⟨s1, s2, s3⟩ := floodStep_inv w h m v0 s pos rest st hq hinv hcl
      exact ih _ s1 s2 (by rw [s3]; omega)

/-! ## Regions -/

theorem floorStep_symm (w h : Int) (m : List (List Int)) (a b : Int × Int)
    (hab : FloorStep w h m a b) : FloorStep w h m b a :=
  ⟨adj4_symm a b hab.1, hab.2.2, hab.2.1⟩

theorem connected_symm (w h : Int) (m : List (List Int)) (a b : Int × Int)
    (hab : Connected w h m a b) : Connected w h m b a := by
  induction hab with
  | refl => exact Relation.ReflTransGen.refl
  | tail _ hstep ih => exact Relation.ReflTransGen.head (floorStep_symm w h m _ _ hstep) ih

theorem connected_trans (w h : Int) (m : List (List Int)) (a b c : Int × Int)
    (hab : Connected w h m a b) (hbc : Connected w h m b c) : Connected w h m a c :=
  Relation.ReflTransGen.trans hab hbc

theorem isRegionOf_of_mem (w h : Int) (m : List (List Int)) (c d : Int × Int)
    (cells : List (Int × Int)) (hreg : IsRegionOf w h m c cells) (hd : d ∈ cells) :
    IsRegionOf w h m d cells := by
  refine ⟨hreg.1, fun e => ?_⟩
  have hcd := (hreg.2 d).mp hd
  rw [hreg.2 e]
  exact ⟨fun hce => connected_trans w h m d c e (connected_symm w h m c d hcd) hce,
    fun hde => connected_trans w h m c d e hcd hde⟩

theorem isRegionOf_length_eq (w h : Int) (m : List (List Int)) (c : Int × Int)
    (l1 l2 : List (Int × Int)) (h1 : IsRegionOf w h m c l1) (h2 : IsRegionOf w h m c l2) :
    l1.length = l2.length :=
  ((List.perm_ext_iff_of_nodup h1.1 h2.1).mpr
    (fun d => by rw [h1.2 d, h2.2 d])).length_eq

/-! ## The scanning loops of fillSmallCaverns -/

theorem fillInv_after_flood (w h minSize : Int) (m0 : List (List Int))
    (st : List (List Int) × List (List Bool)) (c : Int × Int) (fs : FloodState)
    (newMap : List (List Int)) (hst : FillInv w h minSize m0 st)
    (hinv : FloodInv w h st.1 st.2 c fs) (hcl : FloodClosed w h st.1 st.2 fs)
    (hq : fs.queue = []) (hshape : Shape w h newMap)
    (hnew : ∀ c1 : Int × Int, getAt 0 newMap c1.1 c1.2 =
      if c1 ∈ fs.cavern ∧ (fs.cavern.length : Int) < minSize then TILE_WALL
      else getAt 0 st.1 c1.1 c1.2) :
    FillInv w h minSize m0 (newMap, fs.visited) ∧
    (∀ c1 : Int × Int, getAt false st.2 c1.1 c1.2 = true →
      getAt false fs.visited c1.1 c1.2 = true) ∧
    getAt false fs.visited c.1 c.2 = true := by
  have hopen : ∀ c1, IsOpen w h st.1 st.2 c1 →
      IsFloor w h m0 c1 ∧ getAt false st.2 c1.1 c1.2 = false := by
    intro c1 ho
    exact ⟨⟨ho.1, by rw [← hst.unvisited_same c1 ho.2.1]; exact ho.2.2⟩, ho.2.1⟩
  have hseed : c ∈ fs.cavern := by
    rcases hinv.seed with h1 | h1
    · exact h1
    · rw [hq] at h1
      exact absurd h1 (List.not_mem_nil _)
  have hvis : ∀ c1 : Int × Int, getAt false fs.visited c1.1 c1.2 = true ↔
      (getAt false st.2 c1.1 c1.2 = true ∨ c1 ∈ fs.cavern) := by
    intro c1
    rw [hinv.visited_iff c1, hq]
    simp
  have hmem_conn : ∀ c1, c1 ∈ fs.cavern → Connected w h m0 c c1 := by
    intro c1 hc1
    have hr := (hinv.reach c1 (Or.inl hc1)).2
    exact Relation.ReflTransGen.mono
      (fun a b hab => ⟨hab.1, (hopen a hab.2.1).1, (hopen b hab.2.2).1⟩) hr
  have hconn_mem : ∀ c1, Connected w h m0 c c1 →
      IsOpen w h st.1 st.2 c1 ∧ c1 ∈ fs.cavern := by
    intro c1 hc1
    induction hc1 with
    | refl => exact ⟨(hinv.reach c (Or.inl hseed)).1, hseed⟩
    | @tail b d _ hstep ih =>
      have hunv : getAt false st.2 d.1 d.2 = false := by
        cases hb : getAt false st.2 d.1 d.2
        · rfl
        · have := hst.visited_closed d b hb (floorStep_symm w h m0 b d hstep)
          rw [ih.1.2.1] at this
          exact absurd this Bool.false_ne_true
      have hod : IsOpen w h st.1 st.2 d :=
        ⟨hstep.2.2.1, hunv, by rw [hst.unvisited_same d hunv]; exact hstep.2.2.2⟩
      refine ⟨hod, ?_⟩
      rcases hcl b ih.2 d hstep.1 hod with h1 | h1
      · exact h1
      · rw [hq] at h1
        exact absurd h1 (List.not_mem_nil _)
  have hnd : fs.cavern.Nodup := by
    have := hinv.nodup
    rw [hq, List.append_nil] at this
    exact this
  have hreg : IsRegionOf w h m0 c fs.cavern :=
    ⟨hnd, fun d => ⟨hmem_conn d, fun hd => (hconn_mem d hd).2⟩⟩
  refine ⟨⟨hshape, hinv.shape, ?_, ?_, ?_, ?_⟩, fun c1 h1 => (hvis c1).mpr (Or.inl h1),
    (hvis c).mpr (Or.inr hseed)⟩
  · intro c1 h1
    rcases (hvis c1).mp h1 with h2 | h2
    · exact hst.visited_floor c1 h2
    · exact (hopen c1 (hinv.reach c1 (Or.inl h2)).1).1
  · intro c1 d h1 hstep
    rcases (hvis c1).mp h1 with h2 | h2
    · exact (hvis d).mpr (Or.inl (hst.visited_closed c1 d h2 hstep))
    · exact (hvis d).mpr (Or.inr
        (hconn_mem d (Relation.ReflTransGen.tail (hmem_conn c1 h2) hstep)).2)
  · intro c1 h1
    have hnot : ¬ (getAt false st.2 c1.1 c1.2 = true ∨ c1 ∈ fs.cavern) := by
      intro hor
      have := (hvis c1).mpr hor
      rw [h1] at this
      exact Bool.false_ne_true this
    have hold : getAt false st.2 c1.1 c1.2 = false := by
      cases hb : getAt false st.2 c1.1 c1.2
      · rfl
      · exact absurd (Or.inl hb) hnot
    show getAt 0 newMap c1.1 c1.2 = getAt 0 m0 c1.1 c1.2
    rw [hnew c1, if_neg (fun hand => hnot (Or.inr hand.1))]
    exact hst.unvisited_same c1 hold
  · intro c1 h1
    show ∃ cells, IsRegionOf w h m0 c1 cells ∧ getAt 0 newMap c1.1 c1.2 =
      if (cells.length : Int) < minSize then TILE_WALL else TILE_FLOOR
    by_cases hc1 : c1 ∈ fs.cavern
    · refine ⟨fs.cavern, isRegionOf_of_mem w h m0 c c1 _ hreg hc1, ?_⟩
      rw [hnew c1]
      by_cases hsmall : (fs.cavern.length : Int) < minSize
      · rw [if_pos ⟨hc1, hsmall⟩, if_pos hsmall]
      · rw [if_neg (fun hand => hsmall hand.2), if_neg hsmall]
        exact (hinv.reach c1 (Or.inl hc1)).1.2.2
    · have hold : getAt false st.2 c1.1 c1.2 = true := by
        rcases (hvis c1).mp h1 with h2 | h2
        · exact h2
        · exact absurd h2 hc1
      obtain ⟨cells, hcells, hval⟩ := hst.visited_value c1 hold
      refine ⟨cells, hcells, ?_⟩
      rw [hnew c1, if_neg (fun hand => hc1 hand.1)]
      exact hval

theorem fillCell_inv (w h minSize : Int) (m0 : List (List Int))
    (st : List (List Int) × List (List Bool)) (c : Int × Int)
    (hst : FillInv w h minSize m0 st) (hc : InGrid w h c) :
    ∃ st', fillCell w h minSize st c = some st' ∧ FillInv w h minSize m0 st' ∧
      (∀ c1 : Int × Int, getAt false st.2 c1.1 c1.2 = true →
        getAt false st'.2 c1.1 c1.2 = true) ∧
      (IsFloor w h m0 c → getAt false st'.2 c.1 c.2 = true) := by
  unfold fillCell
  split
  next hcond =>
    obtain ⟨hnv, hfl⟩ := hcond
    have hopen : IsOpen w h st.1 st.2 c := ⟨hc, hnv, hfl⟩
    have hinit : FloodInv w h st.1 st.2 c
        { visited := setAt st.2 c.1 c.2 true, queue := [c], cavern := [] } := by
      refine ⟨shape_setAt w h _ _ _ _ hst.shapeVisited, ?_, ?_, ?_, ?_⟩
      · intro c1
        show getAt false (setAt st.2 c.1 c.2 true) c1.1 c1.2 = true ↔
          (getAt false st.2 c1.1 c1.2 = true ∨ c1 ∈ ([] : List (Int × Int)) ∨ c1 ∈ [c])
        rw [getAt_setAt false w h st.2 c.1 c.2 c1.1 c1.2 true hst.shapeVisited hc]
        by_cases hcc : c1.1 = c.1 ∧ c1.2 = c.2
        · have heq : c1 = c := Prod.ext hcc.1 hcc.2
          rw [if_pos hcc]
          simp [heq]
        · have hne : c1 ≠ c := fun he => hcc ⟨by rw [he], by rw [he]⟩
          rw [if_neg hcc]
          simp [hne]
      · show ([] ++ [c]).Nodup
        simp
      · intro c1 hc1
        have heq : c1 = c := by
          rcases hc1 with h1 | h1
          · exact absurd h1 (List.not_mem_nil _)
          · exact List.mem_singleton.mp h1
        rw [heq]
        exact ⟨hopen, Relation.ReflTransGen.refl⟩
      · exact Or.inr (List.mem_singleton.mpr rfl)
    have hclosed : FloodClosed w h st.1 st.2
        { visited := setAt st.2 c.1 c.2 true, queue := [c], cavern := [] } :=
      fun c1 hc1 => absurd hc1 (List.not_mem_nil _)
    obtain ⟨fs, hloop, hinv, hcl, hq⟩ := floodLoop_complete w h st.1 st.2 c (w * h).toNat _
      hinit hclosed (Nat.le_add_right _ _)
    rw [hloop]
    have hingrid : ∀ c1 ∈ fs.cavern, InGrid w h c1 :=
      fun c1 hc1 => (hinv.reach c1 (Or.inl hc1)).1.1
    by_cases hsmall : (fs.cavern.length : Int) < minSize
    · simp only [hsmall, if_true]
      refine ⟨_, rfl, ?_⟩
      have h := fillInv_after_flood w h minSize m0 st c fs
        (fs.cavern.foldl (fun m pos => setAt m pos.1 pos.2 TILE_WALL) st.1) hst hinv hcl hq
        (foldl_setAt_shape w h (fun _ _ => TILE_WALL) fs.cavern st.1 hst.shapeMap)
        (fun c1 => by
          by_cases hc1 : c1 ∈ fs.cavern
          · rw [if_pos ⟨hc1, hsmall⟩]
            exact foldl_setAt_mem 0 w h (fun _ => TILE_WALL) fs.cavern st.1 hst.shapeMap
              hingrid c1.1 c1.2 hc1
          · rw [if_neg (fun hand => hc1 hand.1)]
            exact foldl_setAt_not_mem 0 (fun _ _ => TILE_WALL) fs.cavern st.1 c1.1 c1.2 hc1)
      exact ⟨h.1, h.2.1, fun _ => h.2.2⟩
    · simp only [hsmall, if_false]
      refine ⟨_, rfl, ?_⟩
      have h := fillInv_after_flood w h minSize m0 st c fs st.1 hst hinv hcl hq
        hst.shapeMap (fun c1 => by rw [if_neg (fun hand => hsmall hand.2)])
      exact ⟨h.1, h.2.1, fun _ => h.2.2⟩
  next hcond =>
    refine ⟨st, rfl, hst, fun _ h1 => h1, ?_⟩
    intro hfloor
    cases hb : getAt false st.2 c.1 c.2
    · exfalso
      apply hcond
      exact ⟨hb, by rw [hst.unvisited_same c hb]; exact hfloor.2⟩
    · rfl

theorem foldlM_fillCell_inv (w h minSize : Int) (m0 : List (List Int))
    (cs : List (Int × Int)) (st : List (List Int) × List (List Bool))
    (hst : FillInv w h minSize m0 st) (hcs : ∀ c ∈ cs, InGrid w h c) :
    ∃ st', cs.foldlM (fillCell w h minSize) st = some st' ∧ FillInv w h minSize m0 st' ∧
      (∀ c1 : Int × Int, getAt false st.2 c1.1 c1.2 = true →
        getAt false st'.2 c1.1 c1.2 = true) ∧
      (∀ c ∈ cs, IsFloor w h m0 c → getAt false st'.2 c.1 c.2 = true) := by
  induction cs generalizing st with
  | nil => exact ⟨st, rfl, hst, fun _ h1 => h1, fun c hc => absurd hc (List.not_mem_nil _)⟩
  | cons c0 cs ih =>
    obtain ⟨st1, h1, h2, h3, h4⟩ := fillCell_inv w h minSize m0 st c0 hst
      (hcs c0 (List.mem_cons_self _ _))
    obtain ⟨st2, i1, i2, i3, i4⟩ := ih st1 h2 (fun c hc => hcs c (List.mem_cons_of_mem _ hc))
    refine ⟨st2, ?_, i2, fun c1 hc1 => i3 c1 (h3 c1 hc1), ?_⟩
    · rw [List.foldlM_cons, h1]
      exact i1
    · intro c hc hfloor
      rcases List.mem_cons.mp hc with heq | hmem
      · rw [heq]
        exact i3 c0 (h4 (heq ▸ hfloor))
      · exact i4 c hmem hfloor

theorem wellFormed_nonneg (g : CaveGenerator) (hg : WellFormed g) :
    0 ≤ g.height ∧ (0 < g.height → 0 ≤ g.width) := by
  have hh : 0 ≤ g.height := by rw [← hg.1]; exact Int.ofNat_nonneg _
  refine ⟨hh, fun hpos => ?_⟩
  have hne : g.map ≠ [] := by
    intro he
    have := hg.1
    rw [he] at this
    simp at this
    omega
  obtain ⟨row, hrow⟩ := List.exists_mem_of_ne_nil _ hne
  rw [← hg.2 row hrow]
  exact Int.ofNat_nonneg _

/-- What `fillSmallCaverns(minSize)` computes on a well-formed grid: it returns, the
dimensions stay, a cell that is not Floor keeps its value, and a Floor cell becomes Wall
when the region that contains it has fewer than `minSize` cells and stays Floor
otherwise. -/
theorem fillSmallCaverns_spec (g : CaveGenerator) (hg : WellFormed g) (minSize : Int) :
    ∃ g', fillSmallCaverns g minSize = some g' ∧
      g'.width = g.width ∧ g'.height = g.height ∧ WellFormed g' ∧
      ∀ c : Int × Int, InGrid g.width g.height c →
        (g.cell c.1 c.2 ≠ TILE_FLOOR → g'.cell c.1 c.2 = g.cell c.1 c.2) ∧
        (g.cell c.1 c.2 = TILE_FLOOR →
          ∃ cells, IsRegionOf g.width g.height g.map c cells ∧
            g'.cell c.1 c.2 =
              if (cells.length : Int) < minSize then TILE_WALL else TILE_FLOOR) := by
  have hnn := wellFormed_nonneg g hg
  have hinit : FillInv g.width g.height minSize g.map
      (g.map, filled g.width g.height false) := by
    refine ⟨hg, shape_filled _ _ false hnn.1 hnn.2, ?_, ?_, fun _ _ => rfl, ?_⟩
    · intro c hc
      rw [getAt_filled] at hc
      exact absurd hc Bool.false_ne_true
    · intro c d hc
      rw [getAt_filled] at hc
      exact absurd hc Bool.false_ne_true
    · intro c hc
      rw [getAt_filled] at hc
      exact absurd hc Bool.false_ne_true
  obtain ⟨st, h1, h2, _, h4⟩ := foldlM_fillCell_inv g.width g.height minSize g.map
    (rowMajor 0 g.width 0 g.height) _ hinit (fun c hc => (mem_rowMajor_grid _ _ c).mp hc)
  refine ⟨{ g with map := st.1 }, ?_, rfl, rfl, h2.shapeMap, ?_⟩
  · unfold fillSmallCaverns
    rw [h1]
  · intro c hc
    constructor
    · intro hnf
      cases hb : getAt false st.2 c.1 c.2
      · exact h2.unvisited_same c hb
      · exact absurd (h2.visited_floor c hb).2 hnf
    · intro hf
      exact h2.visited_value c (h4 c ((mem_rowMajor_grid _ _ c).mpr hc) ⟨hc, hf⟩)

theorem wall_ne_floor : TILE_WALL ≠ TILE_FLOOR := by decide

/-- C7: on a well-formed grid `fillSmallCaverns(minSize)` returns a grid of the same
dimensions in which every cell that was not Floor is unchanged, every Floor cell whose
maximal 4-connected Floor region (in the input grid) has fewer than `minSize` cells is
Wall, and every Floor cell of a region with at least `minSize` cells is still Floor. -/
theorem fill_small_caverns_exact (g : CaveGenerator) (hg : WellFormed g) (minSize : Int) :
    ∃ g', fillSmallCaverns g minSize = some g' ∧
      g'.width = g.width ∧ g'.height = g.height ∧
      ∀ c : Int × Int, InGrid g.width g.height c →
        (g.cell c.1 c.2 ≠ TILE_FLOOR → g'.cell c.1 c.2 = g.cell c.1 c.2) ∧
        (g.cell c.1 c.2 = TILE_FLOOR →
          (∃ cells, IsRegionOf g.width g.height g.map c cells) ∧
          ∀ cells, IsRegionOf g.width g.height g.map c cells →
            ((cells.length : Int) < minSize → g'.cell c.1 c.2 = TILE_WALL) ∧
            (minSize ≤ (cells.length : Int) → g'.cell c.1 c.2 = g.cell c.1 c.2)) := by
  obtain ⟨g', h1, h2, h3, _, h5⟩ := fillSmallCaverns_spec g hg minSize
  refine ⟨g', h1, h2, h3, fun c hc => ⟨(h5 c hc).1, fun hf => ?_⟩⟩
  obtain ⟨cells0, hreg0, hval⟩ := (h5 c hc).2 hf
  refine ⟨⟨cells0, hreg0⟩, fun cells hreg => ?_⟩
  rw [isRegionOf_length_eq _ _ _ c cells cells0 hreg hreg0, hval, hf]
  constructor
  · intro hs
    rw [if_pos hs]
  · intro hs
    rw [if_neg (by omega)]

theorem fill_small_caverns_exact_witness :
    WellFormed cornerCaves ∧
    (∃ g', fillSmallCaverns cornerCaves 2 = some g' ∧
      g'.width = cornerCaves.width ∧ g'.height = cornerCaves.height ∧
      ∀ c : Int × Int, InGrid cornerCaves.width cornerCaves.height c →
        (cornerCaves.cell c.1 c.2 ≠ TILE_FLOOR → g'.cell c.1 c.2 = cornerCaves.cell c.1 c.2) ∧
        (cornerCaves.cell c.1 c.2 = TILE_FLOOR →
          (∃ cells, IsRegionOf cornerCaves.width cornerCaves.height cornerCaves.map c cells) ∧
          ∀ cells, IsRegionOf cornerCaves.width cornerCaves.height cornerCaves.map c cells →
            ((cells.length : Int) < 2 → g'.cell c.1 c.2 = TILE_WALL) ∧
            (2 ≤ (cells.length : Int) → g'.cell c.1 c.2 = cornerCaves.cell c.1 c.2))) ∧
    (fillSmallCaverns cornerCaves 2).map (fun g' => g'.map) =
      some [[TILE_WALL, TILE_WALL, TILE_WALL],
            [TILE_WALL, TILE_WALL, TILE_WALL],
            [TILE_WALL, TILE_WALL, TILE_WALL]] :=
  ⟨cornerCaves_wellFormed, fill_small_caverns_exact cornerCaves cornerCaves_wellFormed 2,
    by decide⟩

/-- C1: on a well-formed grid `fillSmallCaverns(minSize)` returns, and in the grid it
leaves every maximal 4-connected region of Floor cells has at least `minSize` cells. -/
theorem pruned_regions_large (g : CaveGenerator) (hg : WellFormed g) (minSize : Int) :
    ∃ g', fillSmallCaverns g minSize = some g' ∧
      ∀ c : Int × Int, IsFloor g'.width g'.height g'.map c →
        (∃ cells, IsRegionOf g'.width g'.height g'.map c cells) ∧
        ∀ cells, IsRegionOf g'.width g'.height g'.map c cells →
          minSize ≤ (cells.length : Int) := by
  obtain ⟨g', h1, h2, h3, _, h5⟩ := fillSmallCaverns_spec g hg minSize
  refine ⟨g', h1, ?_⟩
  rw [h2, h3]
  have hfloor_old : ∀ e, IsFloor g.width g.height g'.map e → IsFloor g.width g.height g.map e := by
    intro e he
    refine ⟨he.1, ?_⟩
    by_contra hnf
    have hsame : getAt 0 g'.map e.1 e.2 = getAt 0 g.map e.1 e.2 := (h5 e he.1).1 hnf
    exact hnf (hsame.symm.trans he.2)
  intro c hc
  obtain ⟨cells0, hreg0, hval⟩ := (h5 c hc.1).2 (hfloor_old c hc).2
  have hbig : minSize ≤ (cells0.length : Int) := by
    by_contra hsmall
    rw [if_pos (by omega)] at hval
    exact wall_ne_floor (hval.symm.trans hc.2)
  have hnew_of_old : ∀ e, Connected g.width g.height g.map c e →
      Connected g.width g.height g'.map c e := by
    intro e he
    induction he with
    | refl => exact Relation.ReflTransGen.refl
    | @tail b d hcb hstep ih =>
      have hstay : ∀ e, Connected g.width g.height g.map c e →
          IsFloor g.width g.height g.map e → IsFloor g.width g.height g'.map e := by
        intro e hce hfe
        have hreg_e := isRegionOf_of_mem _ _ _ c e cells0 hreg0 ((hreg0.2 e).mpr hce)
        obtain ⟨cells1, hreg1, hval1⟩ := (h5 e hfe.1).2 hfe.2
        rw [isRegionOf_length_eq _ _ _ e cells1 cells0 hreg1 hreg_e, if_neg (by omega)] at hval1
        exact ⟨hfe.1, hval1⟩
      exact Relation.ReflTransGen.tail ih
        ⟨hstep.1, hstay b hcb hstep.2.1,
          hstay d (Relation.ReflTransGen.tail hcb hstep) hstep.2.2⟩
  have hold_of_new : ∀ e, Connected g.width g.height g'.map c e →
      Connected g.width g.height g.map c e := fun e he =>
    Relation.ReflTransGen.mono
      (fun a b hab => ⟨hab.1, hfloor_old a hab.2.1, hfloor_old b hab.2.2⟩) he
  have hreg_new : IsRegionOf g.width g.height g'.map c cells0 :=
    ⟨hreg0.1, fun d => by
      rw [hreg0.2 d]
      exact ⟨hnew_of_old d, hold_of_new d⟩⟩
  refine ⟨⟨cells0, hreg_new⟩, fun cells hreg => ?_⟩
  rw [isRegionOf_length_eq _ _ _ c cells cells0 hreg hreg_new]
  exact hbig

theorem pruned_regions_large_witness :
    WellFormed cornerCaves ∧
    ∃ g', fillSmallCaverns cornerCaves 1 = some g' ∧
      ∀ c : Int × Int, IsFloor g'.width g'.height g'.map c →
        (∃ cells, IsRegionOf g'.width g'.height g'.map c cells) ∧
        ∀ cells, IsRegionOf g'.width g'.height g'.map c cells →
          (1 : Int) ≤ (cells.length : Int) :=
  ⟨cornerCaves_wellFormed, pruned_regions_large cornerCaves cornerCaves_wellFormed 1⟩

/-! ## connectAllCaverns on the example grids -/

/-- A set of cells that no Floor step leaves contains every cell connected to one of
its members. The hypothesis is a finite check over the cells of the grid. -/
theorem connected_in_closed (w h : Int) (m : List (List Int)) (S : Int × Int → Bool)
    (hS : ∀ c ∈ rowMajor 0 w 0 h, S c = true → ∀ n ∈ neighbours4 c,
      0 ≤ n.1 ∧ n.1 < w ∧ 0 ≤ n.2 ∧ n.2 < h → getAt 0 m n.1 n.2 = TILE_FLOOR → S n = true)
    (a b : Int × Int) (ha : S a = true) (hab : Connected w h m a b) : S b = true := by
  induction hab with
  | refl => exact ha
  | @tail c d _ hstep ih =>
    exact hS c ((mem_rowMajor_grid w h c).mpr hstep.2.1.1) ih d
      ((mem_neighbours4 c d).mpr hstep.1) hstep.2.2.1 hstep.2.2.2

theorem not_connected_of_closed (w h : Int) (m : List (List Int)) (S : Int × Int → Bool)
    (hS : ∀ c ∈ rowMajor 0 w 0 h, S c = true → ∀ n ∈ neighbours4 c,
      0 ≤ n.1 ∧ n.1 < w ∧ 0 ≤ n.2 ∧ n.2 < h → getAt 0 m n.1 n.2 = TILE_FLOOR → S n = true)
    (a b : Int × Int) (ha : S a = true) (hb : S b = false) : ¬ Connected w h m a b := by
  intro hab
  rw [connected_in_closed w h m S hS a b ha hab] at hb
  exact Bool.noConfusion hb

/-- A set of Floor cells in which every cell other than `r` has a 4-adjacent cell of the
set with a smaller rank is connected to `r`. The hypothesis is a finite check over the
cells of the grid. -/
theorem connected_of_parent (w h : Int) (m : List (List Int)) (S : Int × Int → Bool)
    (r : Int × Int) (parent : Int × Int → Int × Int) (rank : Int × Int → Nat)
    (hcert : ∀ c ∈ rowMajor 0 w 0 h, S c = true →
      getAt 0 m c.1 c.2 = TILE_FLOOR ∧
      (c = r ∨ (S (parent c) = true ∧ rank (parent c) < rank c ∧
        parent c ∈ neighbours4 c ∧ InGrid w h (parent c))))
    (c : Int × Int) (hc : InGrid w h c) (hS : S c = true) : Connected w h m r c := by
  have hall : ∀ (n : Nat) (c : Int × Int), rank c = n → InGrid w h c → S c = true →
      Connected w h m r c := by
    intro n
    induction n using Nat.strong_induction_on with
    | _ n ih =>
      intro c hn hc hS
      obtain ⟨hfl, hor⟩ := hcert c ((mem_rowMajor_grid w h c).mpr hc) hS
      rcases hor with heq | ⟨hSp, hlt, hadj, hin⟩
      · rw [heq]
        exact Relation.ReflTransGen.refl
      · have hp := ih (rank (parent c)) (hn ▸ hlt) (parent c) rfl hin hSp
        have hflp := (hcert (parent c) ((mem_rowMajor_grid w h _).mpr hin) hSp).1
        exact Relation.ReflTransGen.tail hp
          ⟨adj4_symm _ _ ((mem_neighbours4 c (parent c)).mp hadj), ⟨hin, hflp⟩, ⟨hc, hfl⟩⟩
  exact hall (rank c) c rfl hc hS

theorem isFloor_iff_mem (w h : Int) (m : List (List Int)) (c : Int × Int) :
    IsFloor w h m c ↔ c ∈ rowMajor 0 w 0 h ∧ getAt 0 m c.1 c.2 = TILE_FLOOR := by
  rw [mem_rowMajor_grid]
  rfl

theorem connect_cornerCaves : connectAllCaverns cornerCaves = some diagonalCaves := by
  rfl

theorem connect_nestedCaves :
    (connectAllCaverns nestedCaves).map (fun g => g.map) = some nestedCavesJoined := by
  decide!

theorem connect_nestedCaves_result :
    ∃ g', connectAllCaverns nestedCaves = some g' ∧ g'.width = 29 ∧ g'.height = 27 ∧
      g'.map = nestedCavesJoined := by
  have hmap := connect_nestedCaves
  cases hres : connectAllCaverns nestedCaves with
  | none => rw [hres] at hmap; exact absurd hmap (by simp)
  | some g' =>
    rw [hres, Option.map_some', Option.some.injEq] at hmap
    have hdims : g'.width = 29 ∧ g'.height = 27 := by
      unfold connectAllCaverns at hres
      split at hres
      · exact absurd hres (by simp)
      · rw [Option.some.injEq] at hres
        rw [← hres]
        exact ⟨rfl, rfl⟩
    exact ⟨g', rfl, hdims.1, hdims.2, hmap⟩

theorem leftCavern_closed :
    ∀ c ∈ rowMajor 0 29 0 27, leftCavern c.1 c.2 = true → ∀ n ∈ neighbours4 c,
      0 ≤ n.1 ∧ n.1 < 29 ∧ 0 ≤ n.2 ∧ n.2 < 27 →
        getAt 0 nestedCavesJoined n.1 n.2 = TILE_FLOOR → leftCavern n.1 n.2 = true := by
  decide!

theorem rightCavern_closed :
    ∀ c ∈ rowMajor 0 29 0 27, rightCavern c.1 c.2 = true → ∀ n ∈ neighbours4 c,
      0 ≤ n.1 ∧ n.1 < 29 ∧ 0 ≤ n.2 ∧ n.2 < 27 →
        getAt 0 nestedCavesJoined n.1 n.2 = TILE_FLOOR → rightCavern n.1 n.2 = true := by
  decide!

/-- The grid `nestedCaves` has exactly two Floor regions, those of (1, 1) and (3, 1). -/
theorem nestedCaves_regions : IsRegionReps 29 27 nestedCaves.map [(1, 1), (3, 1)] := by
  refine ⟨?_, ?_, ?_⟩
  · intro r hr
    rw [isFloor_iff_mem]
    revert r
    decide!
  · simp only [List.pairwise_cons, List.mem_cons, List.mem_singleton, List.not_mem_nil,
      forall_eq_or_imp, forall_eq, IsEmpty.forall_iff, implies_true, List.Pairwise.nil,
      and_true]
    exact not_connected_of_closed 29 27 _ (fun c => leftCavern c.1 c.2) (by decide!) _ _
      (by decide) (by decide)
  · intro c hc
    have hsplit : ∀ c ∈ rowMajor 0 29 0 27, getAt 0 nestedCaves.map c.1 c.2 = TILE_FLOOR →
        leftCavern c.1 c.2 = true ∨ rightCavern c.1 c.2 = true := by decide!
    rcases hsplit c ((mem_rowMajor_grid _ _ c).mpr hc.1) hc.2 with hl | hr
    · exact ⟨(1, 1), by simp, connected_of_parent 29 27 _ (fun c => leftCavern c.1 c.2) (1, 1)
        (fun c => if c.1 = 1 then (1, c.2 - 1) else (c.1 - 1, 25)) (fun c => (c.1 + c.2).toNat)
        (by decide!) c hc.1 hl⟩
    · exact ⟨(3, 1), by simp, connected_of_parent 29 27 _ (fun c => rightCavern c.1 c.2) (3, 1)
        (fun c => if c.2 = 1 then (c.1 - 1, 1) else (27, c.2 - 1)) (fun c => (c.1 + c.2).toNat)
        (by decide!) c hc.1 hr⟩

/-- C2, evaluated on the code: the 3x3 grid with Floor at the corners (0, 0) and
(2, 2), which `generateCellularAutomata(0.5, 0)` produces, has two Floor regions;
`connectAllCaverns` carves the single cell (1, 1), and the resulting grid has three
Floor regions. Away from the border the same happens: a 29x27 grid with two interior
L-shaped caverns has two Floor regions, and the grid that `connectAllCaverns` returns
for it has three Floor cells that are pairwise not connected. -/
theorem connect_adds_region :
    (generateCellularAutomata (CaveGenerator.create 3 3 cornerStream) (1 / 2) 0).map
      = cornerCaves.map ∧
    IsRegionReps 3 3 cornerCaves.map [(0, 0), (2, 2)] ∧
    connectAllCaverns cornerCaves = some diagonalCaves ∧
    IsRegionReps 3 3 diagonalCaves.map [(0, 0), (1, 1), (2, 2)] ∧
    IsRegionReps 29 27 nestedCaves.map [(1, 1), (3, 1)] ∧
    (∃ g', connectAllCaverns nestedCaves = some g' ∧ g'.width = 29 ∧ g'.height = 27 ∧
      IsFloor 29 27 g'.map (1, 1) ∧ IsFloor 29 27 g'.map (3, 1) ∧
      IsFloor 29 27 g'.map (12, 3) ∧ ¬ Connected 29 27 g'.map (1, 1) (3, 1) ∧
      ¬ Connected 29 27 g'.map (1, 1) (12, 3) ∧ ¬ Connected 29 27 g'.map (3, 1) (12, 3)) := by
  have hiso : ∀ (m : List (List Int)) (a b : Int × Int),
      (∀ c ∈ rowMajor 0 3 0 3, decide (c = a) = true → ∀ n ∈ neighbours4 c,
        0 ≤ n.1 ∧ n.1 < 3 ∧ 0 ≤ n.2 ∧ n.2 < 3 →
        getAt 0 m n.1 n.2 = TILE_FLOOR → decide (n = a) = true) →
      a ≠ b → ¬ Connected 3 3 m a b := by
    intro m a b hcl hne
    exact not_connected_of_closed 3 3 m (fun c => decide (c = a)) hcl a b (by simp)
      (decide_eq_false (fun hba => hne hba.symm))
  have hfloor : ∀ (m : List (List Int)) (reps : List (Int × Int)),
      (∀ c ∈ rowMajor 0 3 0 3, getAt 0 m c.1 c.2 = TILE_FLOOR → c ∈ reps) →
      ∀ c, IsFloor 3 3 m c → ∃ r ∈ reps, Connected 3 3 m r c := by
    intro m reps hall c hc
    rw [isFloor_iff_mem] at hc
    exact ⟨c, hall c hc.1 hc.2, Relation.ReflTransGen.refl⟩
  refine ⟨by decide!, ⟨?_, ?_, ?_⟩, connect_cornerCaves, ⟨?_, ?_, ?_⟩, nestedCaves_regions, ?_⟩
  · intro r hr
    rw [isFloor_iff_mem]
    revert r
    decide
  · simp only [List.pairwise_cons, List.mem_cons, List.mem_singleton, List.not_mem_nil,
      forall_eq_or_imp, forall_eq, IsEmpty.forall_iff, implies_true, List.Pairwise.nil,
      and_true]
    exact hiso cornerCaves.map (0, 0) (2, 2) (by decide) (by decide)
  · exact hfloor cornerCaves.map _ (by decide)
  · intro r hr
    rw [isFloor_iff_mem]
    revert r
    decide
  · simp only [List.pairwise_cons, List.mem_cons, List.mem_singleton, List.not_mem_nil,
      forall_eq_or_imp, forall_eq, IsEmpty.forall_iff, implies_true, List.Pairwise.nil,
      and_true]
    exact ⟨⟨hiso diagonalCaves.map (0, 0) (1, 1) (by decide) (by decide),
      hiso diagonalCaves.map (0, 0) (2, 2) (by decide) (by decide)⟩,
      hiso diagonalCaves.map (1, 1) (2, 2) (by decide) (by decide)⟩
  · exact hfloor diagonalCaves.map _ (by decide)
  · obtain ⟨g', h1, h2, h3, h4⟩ := connect_nestedCaves_result
    refine ⟨g', h1, h2, h3, ?_⟩
    rw [h4]
    exact ⟨⟨by decide, by decide!⟩, ⟨by decide, by decide!⟩, ⟨by decide, by decide!⟩,
      not_connected_of_closed 29 27 _ (fun c => leftCavern c.1 c.2) leftCavern_closed _ _
        (by decide) (by decide),
      not_connected_of_closed 29 27 _ (fun c => leftCavern c.1 c.2) leftCavern_closed _ _
        (by decide) (by decide),
      not_connected_of_closed 29 27 _ (fun c => rightCavern c.1 c.2) rightCavern_closed _ _
        (by decide) (by decide)⟩

/-- C3, evaluated on the code: in the 3x3 grid with Floor at the corners (0, 0)
and (2, 2) the two corner cells are Floor before `connectAllCaverns` and are not joined
by any 4-connected Floor path after it. The same happens away from the border: in a
29x27 grid with two interior L-shaped caverns the cells (1, 1) and (3, 1) are Floor
before the call and not connected after it, the corridor between the bounding-box
midpoints touching neither cavern. -/
theorem connect_leaves_caverns_apart :
    IsFloor 3 3 cornerCaves.map (0, 0) ∧ IsFloor 3 3 cornerCaves.map (2, 2) ∧
    (∃ g', connectAllCaverns cornerCaves = some g' ∧ g'.width = 3 ∧ g'.height = 3 ∧
      ¬ Connected 3 3 g'.map (0, 0) (2, 2)) ∧
    (∀ c, IsFloor 29 27 nestedCaves.map c → 1 ≤ c.1 ∧ c.1 ≤ 27 ∧ 1 ≤ c.2 ∧ c.2 ≤ 25) ∧
    IsFloor 29 27 nestedCaves.map (1, 1) ∧ IsFloor 29 27 nestedCaves.map (3, 1) ∧
    (∃ g', connectAllCaverns nestedCaves = some g' ∧ g'.width = 29 ∧ g'.height = 27 ∧
      ¬ Connected 29 27 g'.map (1, 1) (3, 1)) := by
  refine ⟨⟨by decide, by decide⟩, ⟨by decide, by decide⟩,
    ⟨diagonalCaves, connect_cornerCaves, rfl, rfl, ?_⟩, ?_, ⟨by decide, by decide!⟩,
    ⟨by decide, by decide!⟩, ?_⟩
  · exact not_connected_of_closed 3 3 _ (fun c => decide (c = (0, 0))) (by decide) _ _
      (by decide) (by decide)
  · intro c hc
    rw [isFloor_iff_mem] at hc
    have hall : ∀ c ∈ rowMajor 0 29 0 27, getAt 0 nestedCaves.map c.1 c.2 = TILE_FLOOR →
        1 ≤ c.1 ∧ c.1 ≤ 27 ∧ 1 ≤ c.2 ∧ c.2 ≤ 25 := by decide!
    exact hall c hc.1 hc.2
  · obtain ⟨g', h1, h2, h3, h4⟩ := connect_nestedCaves_result
    refine ⟨g', h1, h2, h3, ?_⟩
    rw [h4]
    exact not_connected_of_closed 29 27 _ (fun c => leftCavern c.1 c.2) leftCavern_closed _ _
      (by decide) (by decide)

/-! ## The noise hash -/

theorem hashBits_le (n : Int) : hashBits n ≤ 0x7fffffff := by
  unfold hashBits
  exact Nat.and_le_right

theorem hash_bounds (n : Int) : 0 ≤ hash n ∧ hash n ≤ 1 := by
  unfold hash
  have h := hashBits_le n
  constructor
  · positivity
  · rw [div_le_one (by norm_num)]
    exact_mod_cast h

theorem truncToInt_intCast (z : Int) : truncToInt (z : ℚ) = z := by
  unfold truncToInt
  split
  · exact Int.floor_intCast z
  · exact Int.ceil_intCast z

theorem perlinNoise_lattice (x y seed : Int) :
    perlinNoise (x : ℚ) (y : ℚ) seed = hash (x + y * 73856093 + seed) := by
  unfold perlinNoise
  simp only [truncToInt_intCast, sub_self, fade, interpolate]
  ring

/-- C12, counterexample: at the lattice point (0, 0) with seed 230204178 the masked hash
value is `0x7fffffff` itself, so `perlinNoise` returns exactly 1, which is not strictly
less than 1. -/
theorem noise_reaches_one :
    hashBits (0 + 0 * 73856093 + 230204178) = 0x7fffffff ∧
    perlinNoise ((0 : Int) : ℚ) ((0 : Int) : ℚ) 230204178 = 1 ∧
    ¬ perlinNoise ((0 : Int) : ℚ) ((0 : Int) : ℚ) 230204178 < 1 := by
  have h1 : hashBits (0 + 0 * 73856093 + 230204178) = 0x7fffffff := by decide
  have h2 : perlinNoise ((0 : Int) : ℚ) ((0 : Int) : ℚ) 230204178 = 1 := by
    rw [perlinNoise_lattice]
    unfold hash
    rw [h1]
    norm_num
  exact ⟨h1, h2, by rw [h2]; exact lt_irrefl 1⟩

/-- C12, amended: for every integer lattice point `(x, y)` and every integer seed the value
returned by `perlinNoise` is the hash of `x + y * 73856093 + seed` and lies in the closed
interval from 0 to 1. -/
theorem noise_in_unit_interval (x y seed : Int) :
    perlinNoise (x : ℚ) (y : ℚ) seed = hash (x + y * 73856093 + seed) ∧
    0 ≤ perlinNoise (x : ℚ) (y : ℚ) seed ∧ perlinNoise (x : ℚ) (y : ℚ) seed ≤ 1 := by
  rw [perlinNoise_lattice]
  exact ⟨rfl, hash_bounds _⟩

/-! ## Construction and loading without validation -/

theorem getAt_filled_inGrid {α : Type} (d v : α) (w h x y : Int) (hc : InGrid w h (x, y)) :
    getAt d (filled w h v) x y = v := by
  obtain ⟨hx0, hxw, hy0, hyh⟩ := hc
  simp only at hx0 hxw hy0 hyh
  have hy : y.toNat < (List.replicate h.toNat (List.replicate w.toNat v)).length := by
    rw [List.length_replicate]; omega
  have hx : x.toNat < (List.replicate w.toNat v).length := by
    rw [List.length_replicate]; omega
  unfold getAt filled
  rw [if_pos ⟨hx0, hy0⟩, List.getD_eq_getElem?_getD _ y.toNat, List.getElem?_eq_getElem hy,
    List.getElem_replicate, Option.getD_some, List.getD_eq_getElem?_getD,
    List.getElem?_eq_getElem hx, List.getElem_replicate, Option.getD_some]

/-- C13, counterexample: the constructor called with width 2 and height 2 yields a
generator with a 2x2 all-Wall grid, on which `getMapFlat` returns the four cells. -/
theorem small_grid_is_constructed :
    (CaveGenerator.create 2 2 zeroStream).width = 2 ∧
    (CaveGenerator.create 2 2 zeroStream).height = 2 ∧
    (CaveGenerator.create 2 2 zeroStream).map = [[TILE_WALL, TILE_WALL], [TILE_WALL, TILE_WALL]] ∧
    getMapFlat (CaveGenerator.create 2 2 zeroStream)
      = [TILE_WALL, TILE_WALL, TILE_WALL, TILE_WALL] := by
  decide

/-- C13, amended: for all dimensions `w >= 0` and `h >= 0`, those below 3 included, the
constructor yields a generator of these dimensions whose grid has `h` rows of `w` cells,
every cell Wall. -/
theorem constructor_never_rejects (w h : Int) (r : Rng) (hw : 0 ≤ w) (hh : 0 ≤ h) :
    (CaveGenerator.create w h r).width = w ∧ (CaveGenerator.create w h r).height = h ∧
    WellFormed (CaveGenerator.create w h r) ∧
    ∀ x y, InGrid w h (x, y) → (CaveGenerator.create w h r).cell x y = TILE_WALL :=
  ⟨rfl, rfl, create_wellFormed w h r hw hh, fun x y hc => getAt_filled_inGrid 0 TILE_WALL w h x y hc⟩

theorem constructor_never_rejects_witness :
    (0 : Int) ≤ 2 ∧ (0 : Int) ≤ 1 ∧
    ((CaveGenerator.create 2 1 zeroStream).width = 2 ∧
    (CaveGenerator.create 2 1 zeroStream).height = 1 ∧
    WellFormed (CaveGenerator.create 2 1 zeroStream) ∧
    ∀ x y, InGrid 2 1 (x, y) → (CaveGenerator.create 2 1 zeroStream).cell x y = TILE_WALL) :=
  ⟨by decide, by decide, constructor_never_rejects 2 1 zeroStream (by decide) (by decide)⟩

/-- C14, counterexample: a 3x3 tile map handed an array of 10 values (not 9) reports
success and overwrites its tiles with the first 9 values. -/
theorem load_accepts_wrong_length :
    ([1, 2, 3, 4, 5, 6, 7, 8, 9, 10] : List Int).length ≠ 3 * 3 ∧
    (emptyTilemap.loadMapFromArray (some [1, 2, 3, 4, 5, 6, 7, 8, 9, 10])).1 = true ∧
    (emptyTilemap.loadMapFromArray (some [1, 2, 3, 4, 5, 6, 7, 8, 9, 10])).2.tiles
      = [[1, 2, 3], [4, 5, 6], [7, 8, 9]] ∧
    emptyTilemap.tiles = [[0, 0, 0], [0, 0, 0], [0, 0, 0]] := by
  decide

/-- C14, amended: `loadMapFromArray` returns false and leaves the tile map unchanged when
the array is absent (null); it makes no test of the length: for every array that is
present and holds at least `mapWidth * mapHeight` values (that many or more) it returns
true and sets the tile `(x, y)` to the value at index `y * mapWidth + x` of the array. -/
theorem load_without_length_check (t : Tilemap)
    (ht : Shape t.mapWidth t.mapHeight t.tiles) (data : List Int)
    (hlen : t.mapWidth * t.mapHeight ≤ (data.length : Int)) :
    t.loadMapFromArray none = (false, t) ∧
    (t.loadMapFromArray (some data)).1 = true ∧
    ∀ x y, InGrid t.mapWidth t.mapHeight (x, y) →
      ∃ v, data[(y * t.mapWidth + x).toNat]? = some v ∧
        (t.loadMapFromArray (some data)).2.getTile x y = v := by
  refine ⟨rfl, rfl, ?_⟩
  intro x y hc
  have hidx : (y * t.mapWidth + x).toNat < data.length := by
    obtain ⟨hx0, hxw, hy0, hyh⟩ := hc
    simp only at hx0 hxw hy0 hyh
    have h1 : y * t.mapWidth ≤ (t.mapHeight - 1) * t.mapWidth :=
      mul_le_mul_of_nonneg_right (by omega) (by omega)
    have h2 : (t.mapHeight - 1) * t.mapWidth = t.mapWidth * t.mapHeight - t.mapWidth := by ring
    have h3 : 0 ≤ y * t.mapWidth := mul_nonneg hy0 (by omega)
    omega
  refine ⟨data[(y * t.mapWidth + x).toNat], List.getElem?_eq_getElem hidx, ?_⟩
  rw [loadMapFromArray_getTile t data ht x y hc, List.getD_eq_getElem?_getD,
    List.getElem?_eq_getElem hidx, Option.getD_some]

theorem load_without_length_check_witness :
    Shape emptyTilemap.mapWidth emptyTilemap.mapHeight emptyTilemap.tiles ∧
    emptyTilemap.mapWidth * emptyTilemap.mapHeight
      ≤ ((([1, 2, 3, 4, 5, 6, 7, 8, 9, 10] : List Int).length : Nat) : Int) ∧
    (emptyTilemap.loadMapFromArray none = (false, emptyTilemap) ∧
    (emptyTilemap.loadMapFromArray (some [1, 2, 3, 4, 5, 6, 7, 8, 9, 10])).1 = true ∧
    ∀ x y, InGrid emptyTilemap.mapWidth emptyTilemap.mapHeight (x, y) →
      ∃ v, ([1, 2, 3, 4, 5, 6, 7, 8, 9, 10] : List Int)[(y * emptyTilemap.mapWidth + x).toNat]?
          = some v ∧
        (emptyTilemap.loadMapFromArray (some [1, 2, 3, 4, 5, 6, 7, 8, 9, 10])).2.getTile x y
          = v) :=
  ⟨by unfold Shape emptyTilemap Tilemap.create filled; decide, by decide,
    load_without_length_check emptyTilemap
      (by unfold Shape emptyTilemap Tilemap.create filled; decide)
      [1, 2, 3, 4, 5, 6, 7, 8, 9, 10] (by decide)⟩

/-! ## The rules of the neighbour-counting passes -/

theorem neighbours8_eq (x y : Int) :
    neighbours8 x y =
      ([(-1, -1), (0, -1), (1, -1), (-1, 0), (1, 0), (-1, 1), (0, 1), (1, 1)] :
        List (Int × Int)).map (fun d => (x + d.1, y + d.2)) := by
  unfold neighbours8
  simp [Int.sub_eq_add_neg]

theorem caWallCount_eq (m : List (List Int)) (x y : Int) :
    caWallCount m x y = (wallNeighbours8 m x y : Int) := by
  unfold caWallCount wallNeighbours8
  rw [caOffsets_eq, neighbours8_eq, List.filter_map, List.length_map]
  rfl

/-- C17, evaluated on the code: in the 3x3 grid whose Floor cells are the centre and its
four 4-neighbours, the centre has 4 Floor and 4 non-Floor cells among its 8 neighbours (a
tie), but the loops of `smoothMap` also count the centre itself, giving 5 against 4, and
one pass leaves the centre Floor. -/
theorem smooth_counts_centre :
    floorNeighbours8 plusCaves.map 1 1 = 4 ∧ nonFloorNeighbours8 plusCaves.map 1 1 = 4 ∧
    smoothFloorCount plusCaves.map 1 1 = 5 ∧ smoothWallCount plusCaves.map 1 1 = 4 ∧
    (smoothMap plusCaves 1).cell 1 1 = TILE_FLOOR := by
  decide

/-- C18: one iteration of the cellular-automata loop on a well-formed grid leaves an
interior cell Wall exactly when at least 5 of its 8 Moore neighbours are Wall in the grid
as it was before the iteration, and Floor exactly when fewer than 5 are. -/
theorem ca_rule_threshold (g : CaveGenerator) (hg : WellFormed g) (x y : Int)
    (hc : Interior g.width g.height (x, y)) :
    ((caPass g).cell x y = TILE_WALL ↔ 5 ≤ wallNeighbours8 g.map x y) ∧
    ((caPass g).cell x y = TILE_FLOOR ↔ wallNeighbours8 g.map x y < 5) := by
  have hmem : (x, y) ∈ rowMajor 1 (g.width - 1) 1 (g.height - 1) := by
    rw [mem_rowMajor]
    obtain ⟨h1, h2, h3, h4⟩ := hc
    simp only at h1 h2 h3 h4
    exact ⟨h1, by omega, h3, by omega⟩
  rw [caPass_interior g hg x y hmem, caWallCount_eq]
  by_cases h5 : 5 ≤ wallNeighbours8 g.map x y
  · have h5' : (wallNeighbours8 g.map x y : Int) ≥ 5 := by omega
    rw [if_pos h5']
    exact ⟨⟨fun _ => h5, fun _ => rfl⟩,
      ⟨fun hwf => absurd hwf wall_ne_floor, fun hlt => absurd h5 (by omega)⟩⟩
  · have h5' : ¬ (wallNeighbours8 g.map x y : Int) ≥ 5 := by omega
    rw [if_neg h5']
    exact ⟨⟨fun hfw => absurd hfw.symm wall_ne_floor, fun hge => absurd hge h5⟩,
      ⟨fun _ => by omega, fun _ => rfl⟩⟩

theorem ca_rule_threshold_witness :
    WellFormed plusCaves ∧ Interior plusCaves.width plusCaves.height (1, 1) ∧
    (((caPass plusCaves).cell 1 1 = TILE_WALL ↔ 5 ≤ wallNeighbours8 plusCaves.map 1 1) ∧
    ((caPass plusCaves).cell 1 1 = TILE_FLOOR ↔ wallNeighbours8 plusCaves.map 1 1 < 5)) :=
  ⟨by unfold WellFormed Shape plusCaves; decide, by unfold Interior plusCaves; decide,
    ca_rule_threshold plusCaves (by unfold WellFormed Shape plusCaves; decide) 1 1
      (by unfold Interior plusCaves; decide)⟩

/-- C19, counterexample: the all-Wall 3x3 grid and the 3x3 grid with a Floor ring and a
Wall centre agree on their only interior cell (1, 1), yet after one `smoothMap` pass, and
after one cellular-automata iteration, that cell is Wall in the first and Floor in the
second: the passes read the ring cells as neighbours. -/
theorem ring_is_read :
    (∀ c : Int × Int, Interior 3 3 c →
      (CaveGenerator.create 3 3 zeroStream).cell c.1 c.2 = ringFloorCaves.cell c.1 c.2) ∧
    (smoothMap (CaveGenerator.create 3 3 zeroStream) 1).cell 1 1 = TILE_WALL ∧
    (smoothMap ringFloorCaves 1).cell 1 1 = TILE_FLOOR ∧
    (caPass (CaveGenerator.create 3 3 zeroStream)).cell 1 1 = TILE_WALL ∧
    (caPass ringFloorCaves).cell 1 1 = TILE_FLOOR := by
  refine ⟨?_, by decide, by decide, by decide, by decide⟩
  intro c hc
  obtain ⟨h1, h2, h3, h4⟩ := hc
  have hx : c.1 = 1 := by omega
  have hy : c.2 = 1 := by omega
  rw [hx, hy]
  decide

/-! ## How far the ring is felt by the neighbour-counting passes -/

theorem smoothPass_interior (g : CaveGenerator) (hg : WellFormed g) (x y : Int)
    (hc : (x, y) ∈ rowMajor 1 (g.width - 1) 1 (g.height - 1)) :
    (smoothPass g).cell x y =
      if smoothFloorCount g.map x y > smoothWallCount g.map x y then TILE_FLOOR
      else TILE_WALL :=
  foldl_setAt_mem 0 g.width g.height
    (fun c => if smoothFloorCount g.map c.1 c.2 > smoothWallCount g.map c.1 c.2
      then TILE_FLOOR else TILE_WALL) _ g.map hg
    (fun c hc' => by
      rw [mem_rowMajor] at hc'
      exact ⟨by omega, by omega, by omega, by omega⟩)
    x y hc

theorem window_counts_congr (m1 m2 : List (List Int)) (x y : Int)
    (hwin : ∀ d ∈ offsets9, getAt 0 m1 (x + d.1) (y + d.2) = getAt 0 m2 (x + d.1) (y + d.2)) :
    smoothFloorCount m1 x y = smoothFloorCount m2 x y ∧
    smoothWallCount m1 x y = smoothWallCount m2 x y ∧
    caWallCount m1 x y = caWallCount m2 x y := by
  unfold smoothFloorCount smoothWallCount caWallCount
  refine ⟨?_, ?_, ?_⟩
  · rw [List.filter_congr (fun d hd => by rw [hwin d hd])]
  · rw [List.filter_congr (fun d hd => by rw [hwin d hd])]
  · rw [List.filter_congr (fun d hd => by rw [hwin d (List.mem_of_mem_filter hd)])]

theorem inner_window (w h : Int) (k : Nat) (c d : Int × Int) (hc : Inner w h (k + 1) c)
    (hd : d ∈ offsets9) : Inner w h k (c.1 + d.1, c.2 + d.2) := by
  unfold offsets9 at hd
  rw [mem_rowMajor] at hd
  unfold Inner at *
  push_cast at hc
  simp only
  omega

theorem inner_succ_interior (w h : Int) (k : Nat) (c : Int × Int) (hc : Inner w h (k + 1) c) :
    (c.1, c.2) ∈ rowMajor 1 (w - 1) 1 (h - 1) := by
  rw [mem_rowMajor]
  unfold Inner at hc
  push_cast at hc
  simp only
  omega

theorem smoothPass_agree (g1 g2 : CaveGenerator) (hg1 : WellFormed g1) (hg2 : WellFormed g2)
    (hw : g1.width = g2.width) (hh : g1.height = g2.height) (k : Nat)
    (hag : ∀ c : Int × Int, Inner g1.width g1.height k c → g1.cell c.1 c.2 = g2.cell c.1 c.2)
    (c : Int × Int) (hc : Inner g1.width g1.height (k + 1) c) :
    (smoothPass g1).cell c.1 c.2 = (smoothPass g2).cell c.1 c.2 := by
  have hint := inner_succ_interior _ _ k c hc
  have hwin := window_counts_congr g1.map g2.map c.1 c.2
    (fun d hd => hag _ (inner_window _ _ k c d hc hd))
  rw [smoothPass_interior g1 hg1 c.1 c.2 hint,
    smoothPass_interior g2 hg2 c.1 c.2 (by rw [← hw, ← hh]; exact hint), hwin.1, hwin.2.1]

theorem caPass_agree (g1 g2 : CaveGenerator) (hg1 : WellFormed g1) (hg2 : WellFormed g2)
    (hw : g1.width = g2.width) (hh : g1.height = g2.height) (k : Nat)
    (hag : ∀ c : Int × Int, Inner g1.width g1.height k c → g1.cell c.1 c.2 = g2.cell c.1 c.2)
    (c : Int × Int) (hc : Inner g1.width g1.height (k + 1) c) :
    (caPass g1).cell c.1 c.2 = (caPass g2).cell c.1 c.2 := by
  have hint := inner_succ_interior _ _ k c hc
  have hwin := window_counts_congr g1.map g2.map c.1 c.2
    (fun d hd => hag _ (inner_window _ _ k c d hc hd))
  rw [caPass_interior g1 hg1 c.1 c.2 hint,
    caPass_interior g2 hg2 c.1 c.2 (by rw [← hw, ← hh]; exact hint), hwin.2.2]

theorem repeat_agree (pass : CaveGenerator → CaveGenerator)
    (hpw : ∀ s, (pass s).width = s.width) (hph : ∀ s, (pass s).height = s.height)
    (hpwf : ∀ s, WellFormed s → WellFormed (pass s))
    (hpass : ∀ (s1 s2 : CaveGenerator), WellFormed s1 → WellFormed s2 → s1.width = s2.width →
      s1.height = s2.height → ∀ k : Nat,
      (∀ c : Int × Int, Inner s1.width s1.height k c → s1.cell c.1 c.2 = s2.cell c.1 c.2) →
      ∀ c : Int × Int, Inner s1.width s1.height (k + 1) c →
        (pass s1).cell c.1 c.2 = (pass s2).cell c.1 c.2)
    (n : Nat) (g1 g2 : CaveGenerator) (hg1 : WellFormed g1) (hg2 : WellFormed g2)
    (hw : g1.width = g2.width) (hh : g1.height = g2.height) (k : Nat)
    (hag : ∀ c : Int × Int, Inner g1.width g1.height k c → g1.cell c.1 c.2 = g2.cell c.1 c.2)
    (c : Int × Int) (hc : Inner g1.width g1.height (k + n) c) :
    (repeatN pass n g1).cell c.1 c.2 = (repeatN pass n g2).cell c.1 c.2 := by
  induction n generalizing g1 g2 k with
  | zero => exact hag c hc
  | succ j ih =>
    show (repeatN pass j (pass g1)).cell c.1 c.2 = (repeatN pass j (pass g2)).cell c.1 c.2
    apply ih (pass g1) (pass g2) (hpwf g1 hg1) (hpwf g2 hg2) (by rw [hpw, hpw, hw])
      (by rw [hph, hph, hh]) (k + 1)
    · intro c' hc'
      rw [hpw, hph] at hc'
      exact hpass g1 g2 hg1 hg2 hw hh k hag c' hc'
    · rw [hpw, hph]
      have : k + 1 + j = k + (j + 1) := by omega
      rw [this]
      exact hc

/-- C19, amended: for two well-formed grids of the same dimensions that agree on every
interior cell, the results of `smoothMap(n)`, and of `n` iterations of the
cellular-automata loop, agree on every cell that lies more than `n` cells away from the
outermost ring (`n + 1 <= x <= width - 2 - n`, `n + 1 <= y <= height - 2 - n`). -/
theorem ring_influence_bounded (g1 g2 : CaveGenerator) (hg1 : WellFormed g1)
    (hg2 : WellFormed g2) (hw : g1.width = g2.width) (hh : g1.height = g2.height)
    (hag : ∀ c : Int × Int, Interior g1.width g1.height c → g1.cell c.1 c.2 = g2.cell c.1 c.2)
    (iterations : Int) (c : Int × Int) (hc : Inner g1.width g1.height iterations.toNat c) :
    (smoothMap g1 iterations).cell c.1 c.2 = (smoothMap g2 iterations).cell c.1 c.2 ∧
    (repeatN caPass iterations.toNat g1).cell c.1 c.2
      = (repeatN caPass iterations.toNat g2).cell c.1 c.2 := by
  have hag0 : ∀ c : Int × Int, Inner g1.width g1.height 0 c →
      g1.cell c.1 c.2 = g2.cell c.1 c.2 := by
    intro c' hc'
    apply hag
    unfold Inner at hc'
    unfold Interior
    push_cast at hc'
    omega
  have hc0 : Inner g1.width g1.height (0 + iterations.toNat) c := by
    rw [Nat.zero_add]
    exact hc
  exact ⟨repeat_agree smoothPass smoothPass_width smoothPass_height smoothPass_wellFormed
      smoothPass_agree iterations.toNat g1 g2 hg1 hg2 hw hh 0 hag0 c hc0,
    repeat_agree caPass caPass_width caPass_height caPass_wellFormed
      caPass_agree iterations.toNat g1 g2 hg1 hg2 hw hh 0 hag0 c hc0⟩

theorem ring_influence_bounded_witness :
    WellFormed (CaveGenerator.create 5 5 zeroStream) ∧ WellFormed ringFloorCaves5 ∧
    (∀ c : Int × Int, Interior 5 5 c →
      (CaveGenerator.create 5 5 zeroStream).cell c.1 c.2 = ringFloorCaves5.cell c.1 c.2) ∧
    Inner 5 5 (1 : Int).toNat (2, 2) ∧
    (smoothMap (CaveGenerator.create 5 5 zeroStream) 1).cell 2 2
      = (smoothMap ringFloorCaves5 1).cell 2 2 ∧
    (repeatN caPass (1 : Int).toNat (CaveGenerator.create 5 5 zeroStream)).cell 2 2
      = (repeatN caPass (1 : Int).toNat ringFloorCaves5).cell 2 2 :=
  have hag : ∀ c : Int × Int, Interior 5 5 c →
      (CaveGenerator.create 5 5 zeroStream).cell c.1 c.2 = ringFloorCaves5.cell c.1 c.2 := by
    intro c hc
    have hall : ∀ c ∈ rowMajor 1 4 1 4,
        (CaveGenerator.create 5 5 zeroStream).cell c.1 c.2 = ringFloorCaves5.cell c.1 c.2 := by
      decide
    apply hall
    rw [mem_rowMajor]
    unfold Interior at hc
    omega
  ⟨create_wellFormed 5 5 zeroStream (by decide) (by decide),
    by unfold WellFormed Shape ringFloorCaves5; decide, hag, by unfold Inner; decide,
    ring_influence_bounded (CaveGenerator.create 5 5 zeroStream) ringFloorCaves5
      (create_wellFormed 5 5 zeroStream (by decide) (by decide))
      (by unfold WellFormed Shape ringFloorCaves5; decide) rfl rfl hag
      1 (2, 2) (by unfold Inner; decide)⟩

/-! ## Loops with a guard around the write -/

theorem getAt_setAt_or {α : Type} (d : α) (m : List (List α)) (x y x' y' : Int) (v : α) :
    getAt d (setAt m x y v) x' y' = v ∨ getAt d (setAt m x y v) x' y' = getAt d m x' y' := by
  by_cases hxy : x' = x ∧ y' = y
  · obtain ⟨hx, hy⟩ := hxy
    subst hx
    subst hy
    unfold getAt setAt
    by_cases h0 : 0 ≤ x' ∧ 0 ≤ y'
    · simp only [h0, and_self, if_true]
      rw [getD_set_list]
      by_cases hy : y'.toNat < m.length
      · rw [if_pos ⟨rfl, hy⟩, getD_set_list]
        by_cases hx : x'.toNat < (m.getD y'.toNat []).length
        · left
          rw [if_pos ⟨rfl, hx⟩]
        · right
          rw [if_neg (fun hand => hx hand.2)]
      · right
        rw [if_neg (fun hand => hy hand.2)]
    · right
      simp [h0]
  · right
    exact getAt_setAt_ne d m x y x' y' v hxy

theorem foldl_guarded_shape {α : Type} (w h : Int) (p : Int × Int → Prop) [DecidablePred p]
    (v : α) (cs : List (Int × Int)) (m : List (List α)) (hm : Shape w h m) :
    Shape w h (cs.foldl (fun m c => if p c then setAt m c.1 c.2 v else m) m) := by
  induction cs generalizing m with
  | nil => exact hm
  | cons c cs ih =>
    rw [List.foldl_cons]
    apply ih
    split
    · exact shape_setAt w h m c.1 c.2 v hm
    · exact hm

theorem foldl_guarded_keeps {α : Type} (d : α) (p : Int × Int → Prop) [DecidablePred p]
    (v : α) (cs : List (Int × Int)) (m : List (List α)) (x y : Int)
    (hv : getAt d m x y = v) :
    getAt d (cs.foldl (fun m c => if p c then setAt m c.1 c.2 v else m) m) x y = v := by
  induction cs generalizing m with
  | nil => exact hv
  | cons c cs ih =>
    rw [List.foldl_cons]
    apply ih
    split
    · rcases getAt_setAt_or d m c.1 c.2 x y v with h1 | h1
      · exact h1
      · rw [h1, hv]
    · exact hv

theorem foldl_guarded_mem {α : Type} (d : α) (w h : Int) (p : Int × Int → Prop)
    [DecidablePred p] (v : α) (cs : List (Int × Int)) (m : List (List α)) (hm : Shape w h m)
    (x y : Int) (hc : (x, y) ∈ cs) (hp : p (x, y)) (hin : InGrid w h (x, y)) :
    getAt d (cs.foldl (fun m c => if p c then setAt m c.1 c.2 v else m) m) x y = v := by
  induction cs generalizing m with
  | nil => exact absurd hc (List.not_mem_nil _)
  | cons c cs ih =>
    rw [List.foldl_cons]
    have hm' : Shape w h (if p c then setAt m c.1 c.2 v else m) := by
      split
      · exact shape_setAt w h m c.1 c.2 v hm
      · exact hm
    rcases List.mem_cons.mp hc with heq | hmem
    · apply foldl_guarded_keeps
      rw [← heq, if_pos hp]
      exact getAt_setAt_same d w h m x y v hm hin
    · exact ih _ hm' hmem

/-! ## ensureTopCenterEntrance -/

theorem intRange_append (a b c : Int) (hab : a ≤ b) (hbc : b ≤ c) :
    intRange a c = intRange a b ++ intRange b c := by
  unfold intRange
  have hsplit : (c - a).toNat = (b - a).toNat + (c - b).toNat := by omega
  rw [hsplit, List.range_add, List.map_append, List.map_map]
  congr 1
  apply List.map_congr_left
  intro i _
  simp only [Function.comp]
  push_cast
  omega

theorem rowMajor_append_rows (x0 x1 y0 ym y1 : Int) (h1 : y0 ≤ ym) (h2 : ym ≤ y1) :
    rowMajor x0 x1 y0 y1 = rowMajor x0 x1 y0 ym ++ rowMajor x0 x1 ym y1 := by
  unfold rowMajor
  rw [intRange_append y0 ym y1 h1 h2, List.flatMap_append]

theorem entranceCell_shape (w h : Int) (st : EntranceState) (c : Int × Int)
    (hm : Shape w h st.map) : Shape w h (entranceCell w h st c).map := by
  unfold entranceCell
  split
  · exact hm
  · simp only
    split
    · split <;> exact shape_setAt w h _ _ _ _ hm
    · exact shape_setAt w h _ _ _ _ hm

theorem entranceCell_map (w h : Int) (st : EntranceState) (c : Int × Int) :
    (entranceCell w h st c).map = st.map ∨
    (entranceCell w h st c).map = setAt st.map c.1 c.2 TILE_FLOOR := by
  unfold entranceCell
  split
  · exact Or.inl rfl
  · simp only
    split
    · split <;> exact Or.inr rfl
    · exact Or.inr rfl

theorem entrance_fold_shape (w h : Int) (cs : List (Int × Int)) (st : EntranceState)
    (hm : Shape w h st.map) : Shape w h (cs.foldl (entranceCell w h) st).map := by
  induction cs generalizing st with
  | nil => exact hm
  | cons c cs ih => exact ih _ (entranceCell_shape w h st c hm)

theorem entrance_fold_keeps_floor (w h : Int) (cs : List (Int × Int)) (st : EntranceState)
    (x y : Int) (hf : getAt 0 st.map x y = TILE_FLOOR) :
    getAt 0 (cs.foldl (entranceCell w h) st).map x y = TILE_FLOOR := by
  induction cs generalizing st with
  | nil => exact hf
  | cons c cs ih =>
    rw [List.foldl_cons]
    apply ih
    rcases entranceCell_map w h st c with h1 | h1
    · rw [h1]
      exact hf
    · rw [h1]
      rcases getAt_setAt_or 0 st.map c.1 c.2 x y TILE_FLOOR with h2 | h2
      · exact h2
      · rw [h2, hf]

theorem entrance_fold_low (w h : Int) (cs : List (Int × Int)) (st : EntranceState)
    (hr : st.returned = false) (hlow : ∀ c ∈ cs, c.2 ≤ 205) :
    cs.foldl (entranceCell w h) st =
      { map := cs.foldl (fun m c => setAt m c.1 c.2 TILE_FLOOR) st.map, returned := false } := by
  induction cs generalizing st with
  | nil =>
    cases st
    simp only at hr
    rw [hr]
    rfl
  | cons c cs ih =>
    have hc := hlow c (List.mem_cons_self _ _)
    have hstep : entranceCell w h st c =
        { map := setAt st.map c.1 c.2 TILE_FLOOR, returned := false } := by
      unfold entranceCell
      rw [hr]
      simp only [Bool.false_eq_true, if_false]
      rw [if_neg (by omega)]
    rw [List.foldl_cons, hstep, ih _ rfl (fun c' hc' => hlow c' (List.mem_cons_of_mem _ hc'))]
    rfl

/-- The passage loops set every in-grid cell of the rows `y0 <= y <= 205` they run over to
Floor, whatever happens in the rows below. -/
theorem entrance_fold_rows (w h x0 x1 y0 y1 : Int) (m : List (List Int)) (hm : Shape w h m)
    (x y : Int) (hx : x0 ≤ x ∧ x < x1) (hy : y0 ≤ y ∧ y < y1) (hy205 : y ≤ 205)
    (hcols : 0 ≤ x0 ∧ x1 ≤ w) (hrows : 0 ≤ y0 ∧ y1 ≤ h) :
    getAt 0 ((rowMajor x0 x1 y0 y1).foldl (entranceCell w h)
      { map := m, returned := false }).map x y = TILE_FLOOR := by
  have hsplit := rowMajor_append_rows x0 x1 y0 (min 206 y1) y1 (by omega) (by omega)
  rw [hsplit, List.foldl_append]
  apply entrance_fold_keeps_floor
  rw [entrance_fold_low w h _ _ rfl (fun c hc => by
    rw [mem_rowMajor] at hc
    omega)]
  apply foldl_setAt_mem 0 w h (fun _ => TILE_FLOOR) _ m hm
  · intro c hc
    rw [mem_rowMajor] at hc
    exact ⟨by omega, by omega, by omega, by omega⟩
  · rw [mem_rowMajor]
    simp only
    omega

theorem ensureTopCenterEntrance_corridor (g : CaveGenerator) (hg : WellFormed g)
    (hw : 3 ≤ g.width) (x y : Int) (hx : Int.tdiv g.width 2 - 1 ≤ x ∧ x ≤ Int.tdiv g.width 2 + 1)
    (hy : 8 ≤ y ∧ y ≤ 205 ∧ y ≤ g.height - 2) :
    (ensureTopCenterEntrance g).cell x y = TILE_FLOOR := by
  have hdiv : Int.tdiv g.width 2 = g.width / 2 := Int.tdiv_eq_ediv (by omega) (by omega)
  unfold ensureTopCenterEntrance CaveGenerator.cell
  simp only
  apply entrance_fold_rows g.width g.height _ _ _ _ _
    (foldl_guarded_shape g.width g.height _ TILE_FLOOR _ g.map hg) x y
  · omega
  · omega
  · omega
  · rw [hdiv]
    omega
  · omega

theorem ensureTopCenterEntrance_chamber (g : CaveGenerator) (hg : WellFormed g)
    (hw : 7 ≤ g.width) (hh : 9 ≤ g.height) (x y : Int)
    (hx : Int.tdiv g.width 2 - 2 ≤ x ∧ x ≤ Int.tdiv g.width 2 + 2) (hy : 3 ≤ y ∧ y ≤ 7) :
    (ensureTopCenterEntrance g).cell x y = TILE_FLOOR := by
  have hdiv : Int.tdiv g.width 2 = g.width / 2 := Int.tdiv_eq_ediv (by omega) (by omega)
  rw [hdiv] at hx
  unfold ensureTopCenterEntrance CaveGenerator.cell
  simp only
  apply entrance_fold_keeps_floor
  unfold carveChamber
  apply foldl_guarded_mem 0 g.width g.height _ TILE_FLOOR _ g.map hg x y
  · rw [mem_rowMajor, hdiv]
    simp only
    omega
  · simp only
    omega
  · unfold InGrid
    simp only
    omega

/-- C11, counterexample: on the all-Wall 9x9 grid `ensureTopCenterEntrance` carves the 5x5
block but no passage cell: row 8 is the bottom row of the grid, which the passage loop
(`y < height - 1`) never reaches, and its three cells below the block stay Wall. -/
theorem entrance_passage_empty_on_9x9 :
    (ensureTopCenterEntrance (CaveGenerator.create 9 9 zeroStream)).cell 3 8 = TILE_WALL ∧
    (ensureTopCenterEntrance (CaveGenerator.create 9 9 zeroStream)).cell 4 8 = TILE_WALL ∧
    (ensureTopCenterEntrance (CaveGenerator.create 9 9 zeroStream)).cell 5 8 = TILE_WALL ∧
    (ensureTopCenterEntrance (CaveGenerator.create 9 9 zeroStream)).cell 4 7 = TILE_FLOOR := by
  decide!

/-- C11, amended: on every well-formed grid with width at least 7 and height at least 9
(the all-Wall 9x9 grid included), after `ensureTopCenterEntrance` every cell of the 5x5
block `width/2 - 2 <= x <= width/2 + 2`, `3 <= y <= 7` is Floor; and when the height is
at least 10 the three cells `width/2 - 1 <= x <= width/2 + 1` of row 8 are Floor. -/
theorem entrance_chamber_and_passage (g : CaveGenerator) (hg : WellFormed g)
    (hw : 7 ≤ g.width) (hh : 9 ≤ g.height) :
    (∀ x y, Int.tdiv g.width 2 - 2 ≤ x ∧ x ≤ Int.tdiv g.width 2 + 2 → 3 ≤ y ∧ y ≤ 7 →
      (ensureTopCenterEntrance g).cell x y = TILE_FLOOR) ∧
    (10 ≤ g.height → ∀ x, Int.tdiv g.width 2 - 1 ≤ x ∧ x ≤ Int.tdiv g.width 2 + 1 →
      (ensureTopCenterEntrance g).cell x 8 = TILE_FLOOR) :=
  ⟨fun x y hx hy => ensureTopCenterEntrance_chamber g hg hw hh x y hx hy,
    fun h10 x hx => ensureTopCenterEntrance_corridor g hg (by omega) x 8 hx
      ⟨le_refl _, by decide, by omega⟩⟩

theorem entrance_chamber_and_passage_witness :
    WellFormed (CaveGenerator.create 7 10 zeroStream) ∧
    (7 : Int) ≤ (CaveGenerator.create 7 10 zeroStream).width ∧
    (9 : Int) ≤ (CaveGenerator.create 7 10 zeroStream).height ∧
    ((∀ x y, Int.tdiv (CaveGenerator.create 7 10 zeroStream).width 2 - 2 ≤ x ∧
        x ≤ Int.tdiv (CaveGenerator.create 7 10 zeroStream).width 2 + 2 → 3 ≤ y ∧ y ≤ 7 →
      (ensureTopCenterEntrance (CaveGenerator.create 7 10 zeroStream)).cell x y = TILE_FLOOR) ∧
    (10 ≤ (CaveGenerator.create 7 10 zeroStream).height →
      ∀ x, Int.tdiv (CaveGenerator.create 7 10 zeroStream).width 2 - 1 ≤ x ∧
        x ≤ Int.tdiv (CaveGenerator.create 7 10 zeroStream).width 2 + 1 →
      (ensureTopCenterEntrance (CaveGenerator.create 7 10 zeroStream)).cell x 8 = TILE_FLOOR)) :=
  ⟨create_wellFormed 7 10 zeroStream (by decide) (by decide), by decide, by decide,
    entrance_chamber_and_passage (CaveGenerator.create 7 10 zeroStream)
      (create_wellFormed 7 10 zeroStream (by decide) (by decide)) (by decide) (by decide)⟩

/-- C20: on every well-formed grid with width at least 3, whatever its contents, after
`ensureTopCenterEntrance` the three cells `(width/2 - 1, y)`, `(width/2, y)`,
`(width/2 + 1, y)` of every row `8 <= y <= 205` with `y <= height - 2` are Floor. -/
theorem passage_carved_above_threshold (g : CaveGenerator) (hg : WellFormed g)
    (hw : 3 ≤ g.width) (y : Int) (hy8 : 8 ≤ y) (hy205 : y ≤ 205) (hyh : y ≤ g.height - 2) :
    (ensureTopCenterEntrance g).cell (Int.tdiv g.width 2 - 1) y = TILE_FLOOR ∧
    (ensureTopCenterEntrance g).cell (Int.tdiv g.width 2) y = TILE_FLOOR ∧
    (ensureTopCenterEntrance g).cell (Int.tdiv g.width 2 + 1) y = TILE_FLOOR :=
  ⟨ensureTopCenterEntrance_corridor g hg hw _ y ⟨le_refl _, by omega⟩ ⟨hy8, hy205, hyh⟩,
    ensureTopCenterEntrance_corridor g hg hw _ y ⟨by omega, by omega⟩ ⟨hy8, hy205, hyh⟩,
    ensureTopCenterEntrance_corridor g hg hw _ y ⟨by omega, le_refl _⟩ ⟨hy8, hy205, hyh⟩⟩

theorem passage_carved_above_threshold_witness :
    WellFormed (CaveGenerator.create 3 12 zeroStream) ∧
    (3 : Int) ≤ (CaveGenerator.create 3 12 zeroStream).width ∧ (8 : Int) ≤ 10 ∧
    (10 : Int) ≤ 205 ∧ (10 : Int) ≤ (CaveGenerator.create 3 12 zeroStream).height - 2 ∧
    ((ensureTopCenterEntrance (CaveGenerator.create 3 12 zeroStream)).cell
        (Int.tdiv (CaveGenerator.create 3 12 zeroStream).width 2 - 1) 10 = TILE_FLOOR ∧
    (ensureTopCenterEntrance (CaveGenerator.create 3 12 zeroStream)).cell
        (Int.tdiv (CaveGenerator.create 3 12 zeroStream).width 2) 10 = TILE_FLOOR ∧
    (ensureTopCenterEntrance (CaveGenerator.create 3 12 zeroStream)).cell
        (Int.tdiv (CaveGenerator.create 3 12 zeroStream).width 2 + 1) 10 = TILE_FLOOR) :=
  ⟨create_wellFormed 3 12 zeroStream (by decide) (by decide), by decide, by decide,
    by decide, by decide,
    passage_carved_above_threshold (CaveGenerator.create 3 12 zeroStream)
      (create_wellFormed 3 12 zeroStream (by decide) (by decide)) (by decide) 10
      (by decide) (by decide) (by decide)⟩

/-! ## Determinism: the output depends on the stream only through the variates it delivers -/

theorem countP_succ_le {α : Type} (l : List α) (p q : α → Bool) (n : α) (hn : n ∈ l)
    (hpn : p n = true) (hqn : q n = false) (himp : ∀ c, q c = true → p c = true) :
    l.countP q + 1 ≤ l.countP p := by
  induction l with
  | nil => exact absurd hn (List.not_mem_nil _)
  | cons a l ih =>
    rw [List.countP_cons, List.countP_cons]
    rcases List.mem_cons.mp hn with heq | hmem
    · rw [← heq, hpn, hqn]
      have hmono : l.countP q ≤ l.countP p :=
        List.countP_mono_left (fun c _ hc => himp c hc)
      simp only [if_true, Bool.false_eq_true, if_false]
      omega
    · have := ih hmem
      by_cases hqa : q a = true
      · rw [hqa, himp a hqa]
        simp only [if_true]
        omega
      · rw [if_neg hqa]
        split <;> omega

theorem unmarkedCount_setAt (w h : Int) (cid : List (List Int)) (n : Int × Int) (v : Int)
    (hs : Shape w h cid) (hin : InGrid w h n) (hun : getAt 0 cid n.1 n.2 = -1)
    (hv : v ≠ -1) :
    unmarkedCount w h (setAt cid n.1 n.2 v) + 1 ≤ unmarkedCount w h cid := by
  unfold unmarkedCount
  apply countP_succ_le _ _ _ n ((mem_rowMajor_grid w h n).mpr hin)
  · exact decide_eq_true hun
  · rw [getAt_setAt_same 0 w h cid n.1 n.2 v hs hin]
    exact decide_eq_false hv
  · intro c hc
    have hc' := of_decide_eq_true hc
    rcases getAt_setAt_or 0 cid n.1 n.2 c.1 c.2 v with h1 | h1
    · rw [h1] at hc'
      exact absurd hc' hv
    · rw [h1] at hc'
      exact decide_eq_true hc'

theorem unmarkedCount_le (w h : Int) (cid : List (List Int)) (hw : 0 ≤ w) (hh : 0 ≤ h) :
    unmarkedCount w h cid ≤ (w * h).toNat := by
  unfold unmarkedCount
  have h1 := List.countP_le_length (fun c : Int × Int => decide (getAt 0 cid c.1 c.2 = -1))
    (l := rowMajor 0 w 0 h)
  have h2 := length_rowMajor_grid w h hw hh
  omega

theorem regionVisit_measure (w h : Int) (m : List (List Int)) (nextID : Int)
    (hid : nextID ≠ -1) (st : RegionState) (n : Int × Int) (hs : Shape w h st.caveID) :
    Shape w h (regionVisit w h m nextID st n).caveID ∧
    (regionVisit w h m nextID st n).queue.length +
        unmarkedCount w h (regionVisit w h m nextID st n).caveID
      ≤ st.queue.length + unmarkedCount w h st.caveID := by
  unfold regionVisit
  split
  next hcond =>
    obtain ⟨hx0, hxw, hy0, hyh, hun, _⟩ := hcond
    refine ⟨shape_setAt w h _ _ _ _ hs, ?_⟩
    have := unmarkedCount_setAt w h st.caveID n nextID hs ⟨hx0, hxw, hy0, hyh⟩ hun hid
    simp only [List.length_cons]
    omega
  next => exact ⟨hs, le_refl _⟩

theorem foldl_regionVisit_measure (w h : Int) (m : List (List Int)) (nextID : Int)
    (hid : nextID ≠ -1) (ns : List (Int × Int)) (st : RegionState)
    (hs : Shape w h st.caveID) :
    Shape w h (ns.foldl (regionVisit w h m nextID) st).caveID ∧
    (ns.foldl (regionVisit w h m nextID) st).queue.length +
        unmarkedCount w h (ns.foldl (regionVisit w h m nextID) st).caveID
      ≤ st.queue.length + unmarkedCount w h st.caveID := by
  induction ns generalizing st with
  | nil => exact ⟨hs, le_refl _⟩
  | cons n ns ih =>
    obtain ⟨h1, h2⟩ := regionVisit_measure w h m nextID hid st n hs
    obtain ⟨i1, i2⟩ := ih (regionVisit w h m nextID st n) h1
    exact ⟨i1, le_trans i2 h2⟩

theorem regionLoop_terminates (w h : Int) (m : List (List Int)) (nextID : Int)
    (hid : nextID ≠ -1) (fuel : Nat) (st : RegionState) (hs : Shape w h st.caveID)
    (hfuel : st.queue.length + unmarkedCount w h st.caveID ≤ fuel) :
    ∃ st', regionLoop w h m nextID fuel st = some st' ∧ Shape w h st'.caveID := by
  induction fuel generalizing st with
  | zero =>
    unfold regionLoop
    split
    next => exact ⟨st, rfl, hs⟩
    next pos rest hq =>
      rw [hq, List.length_cons] at hfuel
      omega
  | succ f ih =>
    unfold regionLoop
    split
    next => exact ⟨st, rfl, hs⟩
    next pos rest hq =>
      rw [hq, List.length_cons] at hfuel
      have hstep := foldl_regionVisit_measure w h m nextID hid (neighbours4 pos)
        { st with queue := rest, minX := min st.minX pos.1, maxX := max st.maxX pos.1,
                  minY := min st.minY pos.2, maxY := max st.maxY pos.2 } hs
      apply ih (regionStep w h m nextID pos rest st) hstep.1
      have := hstep.2
      unfold regionStep
      simp only at this ⊢
      omega

theorem scanCell_returns (w h : Int) (m : List (List Int)) (st : ScanState) (c : Int × Int)
    (hs : Shape w h st.caveID) (hid : 0 ≤ st.nextID) (hc : InGrid w h c) :
    ∃ st', scanCell w h m st c = some st' ∧ Shape w h st'.caveID ∧ 0 ≤ st'.nextID := by
  unfold scanCell
  split
  next hcond =>
    have hne : st.nextID ≠ -1 := by omega
    have hdec := unmarkedCount_setAt w h st.caveID c st.nextID hs hc hcond.1 hne
    have hle := unmarkedCount_le w h st.caveID (by have := hc.1; have := hc.2.1; omega)
      (by have := hc.2.2.1; have := hc.2.2.2; omega)
    obtain ⟨rs, hloop, hshape⟩ := regionLoop_terminates w h m st.nextID hne (w * h).toNat
      { caveID := setAt st.caveID c.1 c.2 st.nextID, queue := [c],
        minX := c.1, maxX := c.1, minY := c.2, maxY := c.2 }
      (shape_setAt w h _ _ _ _ hs)
      (by simp only [List.length_singleton]; omega)
    rw [hloop]
    exact ⟨_, rfl, hshape, by simp only; omega⟩
  next => exact ⟨st, rfl, hs, hid⟩

theorem foldlM_scanCell_returns (w h : Int) (m : List (List Int)) (cs : List (Int × Int))
    (st : ScanState) (hs : Shape w h st.caveID) (hid : 0 ≤ st.nextID)
    (hcs : ∀ c ∈ cs, InGrid w h c) :
    ∃ st', cs.foldlM (scanCell w h m) st = some st' := by
  induction cs generalizing st with
  | nil => exact ⟨st, rfl⟩
  | cons c cs ih =>
    obtain ⟨st1, h1, h2, h3⟩ := scanCell_returns w h m st c hs hid
      (hcs c (List.mem_cons_self _ _))
    obtain ⟨st2, i1⟩ := ih st1 h2 h3 (fun c' hc' => hcs c' (List.mem_cons_of_mem _ hc'))
    refine ⟨st2, ?_⟩
    rw [List.foldlM_cons, h1]
    exact i1

/-- The region scan of `connectAllCaverns` returns on every well-formed grid: the fuel
`width * height` handed to each flood fill suffices. -/
theorem findCaverns_returns (g : CaveGenerator) (hg : WellFormed g) :
    ∃ sc, findCaverns g = some sc := by
  have hnn := wellFormed_nonneg g hg
  unfold findCaverns
  exact foldlM_scanCell_returns g.width g.height g.map _ _
    (shape_filled _ _ (-1) hnn.1 hnn.2) (le_refl _)
    (fun c hc => (mem_rowMajor_grid _ _ c).mp hc)

/-! ## Every stage keeps the grid well formed and two-valued -/

theorem validGrid_setAt (w h : Int) (m : List (List Int)) (x y v : Int)
    (hm : ValidGrid w h m) (hv : v = TILE_WALL ∨ v = TILE_FLOOR) :
    ValidGrid w h (setAt m x y v) := by
  refine ⟨shape_setAt w h m x y v hm.1, fun c hc => ?_⟩
  rcases getAt_setAt_or 0 m x y c.1 c.2 v with h1 | h1
  · rw [h1]
    exact hv
  · rw [h1]
    exact hm.2 c hc

theorem foldl_invariant {σ α : Type} (P : σ → Prop) (f : σ → α → σ)
    (hf : ∀ s a, P s → P (f s a)) (l : List α) (s : σ) (hs : P s) : P (l.foldl f s) := by
  induction l generalizing s with
  | nil => exact hs
  | cons a l ih => exact ih _ (hf s a hs)

theorem ite_wall_floor (c : Prop) [Decidable c] :
    (if c then TILE_WALL else TILE_FLOOR) = TILE_WALL ∨
    (if c then TILE_WALL else TILE_FLOOR) = TILE_FLOOR := by
  split
  · exact Or.inl rfl
  · exact Or.inr rfl

theorem ite_floor_wall (c : Prop) [Decidable c] :
    (if c then TILE_FLOOR else TILE_WALL) = TILE_WALL ∨
    (if c then TILE_FLOOR else TILE_WALL) = TILE_FLOOR := by
  split
  · exact Or.inr rfl
  · exact Or.inl rfl

theorem validGrid_guarded (w h : Int) (m : List (List Int)) (c : Prop) [Decidable c]
    (x y : Int) (hm : ValidGrid w h m) :
    ValidGrid w h (if c then setAt m x y TILE_FLOOR else m) := by
  split
  · exact validGrid_setAt w h m x y _ hm (Or.inr rfl)
  · exact hm

theorem generateCellularAutomata_valid (g : CaveGenerator) (p : ℚ) (n : Int)
    (hg : ValidGrid g.width g.height g.map) :
    (generateCellularAutomata g p n).width = g.width ∧
    (generateCellularAutomata g p n).height = g.height ∧
    ValidGrid g.width g.height (generateCellularAutomata g p n).map := by
  have hfill : ValidGrid g.width g.height (initialFill g p).map :=
    foldl_invariant (fun st : List (List Int) × Rng => ValidGrid g.width g.height st.1)
      (initialFillCell p)
      (fun _ _ hst => validGrid_setAt _ _ _ _ _ _ hst (ite_wall_floor _)) _ _ hg
  exact repeatN_invariant caPass
    (fun s => s.width = g.width ∧ s.height = g.height ∧ ValidGrid g.width g.height s.map)
    (fun s hs => ⟨hs.1, hs.2.1,
      foldl_invariant (ValidGrid g.width g.height) _
        (fun _ _ hm => validGrid_setAt _ _ _ _ _ _ hm (ite_wall_floor _)) _ _ hs.2.2⟩)
    n.toNat (initialFill g p) ⟨rfl, rfl, hfill⟩

theorem generatePerlinNoise_valid (g : CaveGenerator) (sc t : ℚ)
    (hg : ValidGrid g.width g.height g.map) :
    ValidGrid g.width g.height (generatePerlinNoise g sc t).map :=
  foldl_invariant (ValidGrid g.width g.height) _
    (fun _ _ hm => validGrid_setAt _ _ _ _ _ _ hm (ite_wall_floor _)) _ _ hg

theorem smoothMap_valid (g : CaveGenerator) (n : Int)
    (hg : ValidGrid g.width g.height g.map) :
    (smoothMap g n).width = g.width ∧ (smoothMap g n).height = g.height ∧
    ValidGrid g.width g.height (smoothMap g n).map :=
  repeatN_invariant smoothPass
    (fun s => s.width = g.width ∧ s.height = g.height ∧ ValidGrid g.width g.height s.map)
    (fun _ hs => ⟨hs.1, hs.2.1,
      foldl_invariant (ValidGrid g.width g.height) _
        (fun _ _ hm => validGrid_setAt _ _ _ _ _ _ hm (ite_floor_wall _)) _ _ hs.2.2⟩)
    n.toNat g ⟨rfl, rfl, hg⟩

theorem carveBlock_valid (w h : Int) (m : List (List Int)) (x y t : Int)
    (hm : ValidGrid w h m) : ValidGrid w h (carveBlock w h m x y t) :=
  foldl_invariant (ValidGrid w h) _ (fun m _ hm => validGrid_guarded w h m _ _ _ hm) _ _ hm

theorem walkStep_valid (w h t : Int) (s : WalkState) (hs : ValidGrid w h s.map) :
    ValidGrid w h (walkStep w h t s).map := by
  have hb := carveBlock_valid w h s.map s.x s.y t hs
  unfold walkStep
  simp only
  split
  · exact hb
  · split
    · exact hb
    · split
      · exact hb
      · split <;> exact hb

theorem generateRandomWalk_valid (g : CaveGenerator) (n l : Int)
    (hg : ValidGrid g.width g.height g.map) :
    ValidGrid g.width g.height (generateRandomWalk g n l).map := by
  have hwalls : ValidGrid g.width g.height
      ((rowMajor 0 g.width 0 g.height).foldl (fun m c => setAt m c.1 c.2 TILE_WALL) g.map) :=
    foldl_invariant (ValidGrid g.width g.height) _
      (fun m c hm => validGrid_setAt _ _ _ _ _ _ hm (Or.inl rfl)) _ _ hg
  exact repeatN_invariant (oneWalk g.width g.height l)
    (fun st => ValidGrid g.width g.height st.1)
    (fun st hst => repeatN_invariant (walkStep g.width g.height _)
      (fun s => ValidGrid g.width g.height s.map)
      (fun s hs => walkStep_valid _ _ _ s hs) _ _ hst)
    n.toNat _ hwalls

theorem ensureTopCenterEntrance_valid (g : CaveGenerator)
    (hg : ValidGrid g.width g.height g.map) :
    ValidGrid g.width g.height (ensureTopCenterEntrance g).map := by
  have hch : ValidGrid g.width g.height
      (carveChamber g.width g.height g.map (Int.tdiv g.width 2)) :=
    foldl_invariant (ValidGrid g.width g.height) _
      (fun m c hm => validGrid_guarded _ _ m _ _ _ hm) _ _ hg
  exact foldl_invariant (fun st : EntranceState => ValidGrid g.width g.height st.map)
    (entranceCell g.width g.height)
    (fun st c hst => by
      rcases entranceCell_map g.width g.height st c with h1 | h1
      · rw [h1]
        exact hst
      · rw [h1]
        exact validGrid_setAt _ _ _ _ _ _ hst (Or.inr rfl))
    _ _ hch

theorem fillSmallCaverns_valid (g : CaveGenerator) (k : Int)
    (hg : ValidGrid g.width g.height g.map) :
    ∃ g', fillSmallCaverns g k = some g' ∧ g'.width = g.width ∧ g'.height = g.height ∧
      ValidGrid g.width g.height g'.map := by
  obtain ⟨g', h1, h2, h3, h4, h5⟩ := fillSmallCaverns_spec g hg.1 k
  refine ⟨g', h1, h2, h3, ⟨by rw [← h2, ← h3]; exact h4, fun c hc => ?_⟩⟩
  by_cases hf : g.cell c.1 c.2 = TILE_FLOOR
  · obtain ⟨cells, _, hval⟩ := (h5 c hc).2 hf
    have hval' : getAt 0 g'.map c.1 c.2 =
        if (cells.length : Int) < k then TILE_WALL else TILE_FLOOR := hval
    rw [hval']
    exact ite_wall_floor _
  · have hsame : getAt 0 g'.map c.1 c.2 = getAt 0 g.map c.1 c.2 := (h5 c hc).1 hf
    rw [hsame]
    exact hg.2 c hc

theorem connectPair_valid (w h : Int) (centers : List (Int × Int)) (m : List (List Int))
    (i : Int) (hm : ValidGrid w h m) : ValidGrid w h (connectPair w h centers m i) := by
  unfold connectPair carveVertical carveHorizontal
  simp only
  apply foldl_invariant (ValidGrid w h)
  · intro m1 y hm1
    exact foldl_invariant (ValidGrid w h) _
      (fun m2 wx hm2 => validGrid_guarded w h m2 _ _ _ hm2) _ _ hm1
  · apply foldl_invariant (ValidGrid w h)
    · intro m1 x hm1
      exact foldl_invariant (ValidGrid w h) _
        (fun m2 wy hm2 => validGrid_guarded w h m2 _ _ _ hm2) _ _ hm1
    · exact hm

theorem connectAllCaverns_valid (g : CaveGenerator) (hg : ValidGrid g.width g.height g.map) :
    ∃ g', connectAllCaverns g = some g' ∧ g'.width = g.width ∧ g'.height = g.height ∧
      ValidGrid g.width g.height g'.map := by
  obtain ⟨sc, hsc⟩ := findCaverns_returns g hg.1
  unfold connectAllCaverns
  rw [hsc]
  exact ⟨_, rfl, rfl, rfl,
    foldl_invariant (ValidGrid g.width g.height) _
      (fun m i hm => connectPair_valid _ _ _ m i hm) _ _ hg⟩

theorem runStage_valid (s : Stage) (g : CaveGenerator)
    (hg : ValidGrid g.width g.height g.map) :
    ∃ g', runStage g s = some g' ∧ g'.width = g.width ∧ g'.height = g.height ∧
      ValidGrid g.width g.height g'.map := by
  cases s with
  | cellularAutomata p n =>
    have hv := generateCellularAutomata_valid g p n hg
    exact ⟨_, rfl, hv.1, hv.2.1, hv.2.2⟩
  | perlinNoise sc t => exact ⟨_, rfl, rfl, rfl, generatePerlinNoise_valid g sc t hg⟩
  | randomWalk n l => exact ⟨_, rfl, rfl, rfl, generateRandomWalk_valid g n l hg⟩
  | smooth n =>
    have hv := smoothMap_valid g n hg
    exact ⟨_, rfl, hv.1, hv.2.1, hv.2.2⟩
  | fillSmall k => exact fillSmallCaverns_valid g k hg
  | connectAll => exact connectAllCaverns_valid g hg
  | topCenterEntrance => exact ⟨_, rfl, rfl, rfl, ensureTopCenterEntrance_valid g hg⟩

theorem runStages_valid (stages : List Stage) (g : CaveGenerator)
    (hg : ValidGrid g.width g.height g.map) :
    ∃ g', runStages stages g = some g' ∧ g'.width = g.width ∧ g'.height = g.height ∧
      ValidGrid g.width g.height g'.map := by
  unfold runStages
  induction stages generalizing g with
  | nil => exact ⟨g, rfl, rfl, rfl, hg⟩
  | cons s stages ih =>
    obtain ⟨g1, h1, h2, h3, h4⟩ := runStage_valid s g hg
    obtain ⟨g2, i1, i2, i3, i4⟩ := ih g1 (by rw [h2, h3]; exact h4)
    refine ⟨g2, ?_, by rw [i2, h2], by rw [i3, h3], by rw [← h2, ← h3]; exact i4⟩
    rw [List.foldlM_cons, h1]
    exact i1

/-- C15: a generator constructed with width and height at least 3 has a grid of `height`
rows of `width` cells, all Wall, and after any sequence of invocations of
`generateCellularAutomata`, `generatePerlinNoise`, `generateRandomWalk`, `smoothMap`,
`fillSmallCaverns`, `connectAllCaverns` and `ensureTopCenterEntrance` (every one of which
returns) the grid still has `height` rows of `width` cells and every cell holds
`TILE_WALL` or `TILE_FLOOR`. -/
theorem grid_stays_well_formed (w h : Int) (hw : 3 ≤ w) (hh : 3 ≤ h) (r : Rng)
    (stages : List Stage) :
    ∃ g', runStages stages (CaveGenerator.create w h r) = some g' ∧
      g'.width = w ∧ g'.height = h ∧ WellFormed g' ∧ AllTiles g'.width g'.height g'.map := by
  have hinit : ValidGrid w h (CaveGenerator.create w h r).map :=
    ⟨create_wellFormed w h r (by omega) (by omega),
      fun c hc => Or.inl (getAt_filled_inGrid 0 TILE_WALL w h c.1 c.2 hc)⟩
  obtain ⟨g', h1, h2, h3, h4⟩ := runStages_valid stages (CaveGenerator.create w h r) hinit
  have h2' : g'.width = w := h2
  have h3' : g'.height = h := h3
  refine ⟨g', h1, h2', h3', ?_, ?_⟩
  · unfold WellFormed
    rw [h2', h3']
    exact h4.1
  · rw [h2', h3']
    exact h4.2

theorem grid_stays_well_formed_witness :
    (3 : Int) ≤ 4 ∧ (3 : Int) ≤ 3 ∧
    ∃ g', runStages
        [Stage.cellularAutomata (1 / 2) 1, Stage.smooth 1, Stage.fillSmall 2, Stage.connectAll,
          Stage.topCenterEntrance, Stage.randomWalk 1 2, Stage.perlinNoise (1 / 20) (2 / 5)]
        (CaveGenerator.create 4 3 cornerStream) = some g' ∧
      g'.width = 4 ∧ g'.height = 3 ∧ WellFormed g' ∧ AllTiles g'.width g'.height g'.map :=
  ⟨by decide, by decide, grid_stays_well_formed 4 3 (by decide) (by decide) cornerStream _⟩

/-! ## Writes behind the interior guard -/

theorem getAt_setAt_interior (w h : Int) (m : List (List Int)) (cx cy x y v : Int)
    (hguard : cx ≥ 1 ∧ cx < w - 1 ∧ cy ≥ 1 ∧ cy < h - 1) (hc : ¬ Interior w h (x, y)) :
    getAt 0 (setAt m cx cy v) x y = getAt 0 m x y := by
  apply getAt_setAt_ne
  rintro ⟨h1, h2⟩
  apply hc
  unfold Interior
  simp only
  omega

theorem not_interior_of_onRing (w h : Int) (c : Int × Int) (hr : OnRing w h c) :
    ¬ Interior w h c := by
  unfold Interior
  obtain ⟨_, hr⟩ := hr
  omega

theorem carveBlock_invariant (P : List (List Int) → Prop) (w h : Int)
    (hP : ∀ m cx cy, P m → cx ≥ 1 ∧ cx < w - 1 ∧ cy ≥ 1 ∧ cy < h - 1 →
      P (setAt m cx cy TILE_FLOOR))
    (m : List (List Int)) (x y t : Int) (hm : P m) : P (carveBlock w h m x y t) := by
  unfold carveBlock
  apply foldl_invariant P _ _ _ _ hm
  intro m1 d hm1
  simp only
  split
  next hg => exact hP m1 _ _ hm1 hg
  next => exact hm1

theorem connectPair_invariant (P : List (List Int) → Prop) (w h : Int)
    (hP : ∀ m cx cy, P m → cx ≥ 1 ∧ cx < w - 1 ∧ cy ≥ 1 ∧ cy < h - 1 →
      P (setAt m cx cy TILE_FLOOR))
    (centers : List (Int × Int)) (m : List (List Int)) (i : Int) (hm : P m) :
    P (connectPair w h centers m i) := by
  unfold connectPair carveVertical carveHorizontal
  simp only
  apply foldl_invariant P
  · intro m1 y hm1
    apply foldl_invariant P _ _ _ _ hm1
    intro m2 wx hm2
    split
    next hg => exact hP m2 _ _ hm2 ⟨hg.2.2.1, hg.2.2.2, hg.1, hg.2.1⟩
    next => exact hm2
  · apply foldl_invariant P _ _ _ _ hm
    intro m1 x hm1
    apply foldl_invariant P _ _ _ _ hm1
    intro m2 wy hm2
    split
    next hg => exact hP m2 _ _ hm2 ⟨hg.2.2.1, hg.2.2.2, hg.1, hg.2.1⟩
    next => exact hm2

/-! ## generateRandomWalk: the walker and the ring -/

theorem oneWalk_eq_walkStart (w h walkLength : Int) (st : List (List Int) × Rng) :
    oneWalk w h walkLength st =
      ((repeatN (walkStep w h (walkWidth w h st)) walkLength.toNat (walkStart w h st)).map,
       (repeatN (walkStep w h (walkWidth w h st)) walkLength.toNat (walkStart w h st)).rng) :=
  rfl

theorem generateRandomWalk_eq_walksAfter (g : CaveGenerator) (walks walkLength : Int) :
    generateRandomWalk g walks walkLength =
      { g with map := (walksAfter g walkLength walks.toNat).1,
               rng := (walksAfter g walkLength walks.toNat).2 } :=
  rfl

theorem uniformInt_range (r : Rng) (a b : Int) (hab : a ≤ b)
    (hu : 0 ≤ r.draws r.pos ∧ r.draws r.pos < 1) :
    a ≤ (r.uniformInt a b).1 ∧ (r.uniformInt a b).1 ≤ b := by
  have hn : (0 : ℚ) < ((b - a + 1 : Int) : ℚ) := by
    have : (0 : Int) < b - a + 1 := by omega
    exact_mod_cast this
  have h0 : 0 ≤ ⌊r.draws r.pos * ((b - a + 1 : Int) : ℚ)⌋ :=
    Int.floor_nonneg.mpr (mul_nonneg hu.1 (le_of_lt hn))
  have h1 : ⌊r.draws r.pos * ((b - a + 1 : Int) : ℚ)⌋ < b - a + 1 := by
    rw [Int.floor_lt]
    calc r.draws r.pos * ((b - a + 1 : Int) : ℚ) < 1 * ((b - a + 1 : Int) : ℚ) :=
          mul_lt_mul_of_pos_right hu.2 hn
      _ = ((b - a + 1 : Int) : ℚ) := one_mul _
  unfold Rng.uniformInt
  simp only
  omega

theorem walkStep_draws (w h t : Int) (s : WalkState) :
    (walkStep w h t s).rng.draws = s.rng.draws := by
  unfold walkStep
  simp only
  split
  · rfl
  · split
    · rfl
    · split
      · rfl
      · split <;> rfl

theorem repeat_walkStep_draws (w h t : Int) (k : Nat) (s : WalkState) :
    (repeatN (walkStep w h t) k s).rng.draws = s.rng.draws := by
  induction k generalizing s with
  | zero => rfl
  | succ j ih =>
    show (repeatN (walkStep w h t) j (walkStep w h t s)).rng.draws = s.rng.draws
    rw [ih, walkStep_draws]

theorem oneWalk_draws (w h l : Int) (st : List (List Int) × Rng) :
    (oneWalk w h l st).2.draws = st.2.draws := by
  rw [oneWalk_eq_walkStart]
  exact repeat_walkStep_draws w h _ _ _

theorem walksAfter_draws (g : CaveGenerator) (l : Int) (j : Nat) :
    (walksAfter g l j).2.draws = g.rng.draws := by
  unfold walksAfter
  exact repeatN_invariant (oneWalk g.width g.height l)
    (fun st => st.2.draws = g.rng.draws)
    (fun st hst => (oneWalk_draws _ _ _ st).trans hst) j _ rfl

theorem walkStart_interior (w h : Int) (st : List (List Int) × Rng) (hw : 3 ≤ w) (hh : 3 ≤ h)
    (hdraws : ∀ i, 0 ≤ st.2.draws i ∧ st.2.draws i < 1) :
    Interior w h ((walkStart w h st).x, (walkStart w h st).y) := by
  have hx := uniformInt_range st.2 1 (w - 2) (by omega) (hdraws _)
  have hy := uniformInt_range (st.2.uniformInt 1 (w - 2)).2 1 (h - 2) (by omega) (hdraws _)
  exact ⟨hx.1, hx.2, hy.1, hy.2⟩

theorem walkStep_interior (w h t : Int) (s : WalkState) (hw : 3 ≤ w) (hh : 3 ≤ h)
    (hs : Interior w h (s.x, s.y)) :
    Interior w h ((walkStep w h t s).x, (walkStep w h t s).y) := by
  unfold Interior at *
  simp only at hs
  unfold walkStep
  simp only
  split
  · simp only
    omega
  · split
    · simp only
      omega
    · split
      · simp only
        omega
      · split
        · simp only
          omega
        · simp only
          omega

theorem walkStep_ring (w h t : Int) (s : WalkState) (x y v : Int)
    (hc : ¬ Interior w h (x, y)) (hv : getAt 0 s.map x y = v) :
    getAt 0 (walkStep w h t s).map x y = v := by
  have hb : getAt 0 (carveBlock w h s.map s.x s.y t) x y = v :=
    carveBlock_invariant (fun m => getAt 0 m x y = v) w h
      (fun m cx cy hm hg => (getAt_setAt_interior w h m cx cy x y _ hg hc).trans hm)
      s.map s.x s.y t hv
  unfold walkStep
  simp only
  split
  · exact hb
  · split
    · exact hb
    · split
      · exact hb
      · split <;> exact hb

/-- C23: on a well-formed grid with width and height at least 3, for every `walks` and
`walkLength` and every stream of draws with values in [0, 1), the walker of every walk of
`generateRandomWalk` is at an interior position `1 <= x <= width - 2`,
`1 <= y <= height - 2` after every number of steps, and after the call every cell of the
outermost ring is Wall. -/
theorem walker_stays_interior (g : CaveGenerator) (hg : WellFormed g) (hw : 3 ≤ g.width)
    (hh : 3 ≤ g.height) (hdraws : ∀ i, 0 ≤ g.rng.draws i ∧ g.rng.draws i < 1)
    (walks walkLength : Int) :
    (∀ j k : Nat, Interior g.width g.height
      ((walkerAt g walkLength j k).x, (walkerAt g walkLength j k).y)) ∧
    (∀ x y, OnRing g.width g.height (x, y) →
      (generateRandomWalk g walks walkLength).cell x y = TILE_WALL) := by
  constructor
  · intro j k
    unfold walkerAt
    apply repeatN_invariant (walkStep g.width g.height _)
      (fun s => Interior g.width g.height (s.x, s.y))
      (fun s hs => walkStep_interior _ _ _ s hw hh hs)
    apply walkStart_interior _ _ _ hw hh
    rw [walksAfter_draws]
    exact hdraws
  · intro x y hr
    have hni := not_interior_of_onRing _ _ _ hr
    have hwalls : getAt 0 ((rowMajor 0 g.width 0 g.height).foldl
        (fun m c => setAt m c.1 c.2 TILE_WALL) g.map) x y = TILE_WALL :=
      foldl_setAt_mem 0 g.width g.height (fun _ => TILE_WALL) _ g.map hg
        (fun c hc' => (mem_rowMajor_grid _ _ c).mp hc') x y ((mem_rowMajor_grid _ _ _).mpr hr.1)
    exact repeatN_invariant (oneWalk g.width g.height walkLength)
      (fun st => getAt 0 st.1 x y = TILE_WALL)
      (fun st hst => repeatN_invariant (walkStep g.width g.height _)
        (fun s => getAt 0 s.map x y = TILE_WALL)
        (fun s hs => walkStep_ring _ _ _ s x y _ hni hs) _ _ hst)
      walks.toNat _ hwalls

theorem walker_stays_interior_witness :
    WellFormed (CaveGenerator.create 12 12 walkStream) ∧
    (3 : Int) ≤ (CaveGenerator.create 12 12 walkStream).width ∧
    (3 : Int) ≤ (CaveGenerator.create 12 12 walkStream).height ∧
    (∀ i, 0 ≤ (CaveGenerator.create 12 12 walkStream).rng.draws i ∧
      (CaveGenerator.create 12 12 walkStream).rng.draws i < 1) ∧
    ((∀ j k : Nat, Interior (CaveGenerator.create 12 12 walkStream).width
        (CaveGenerator.create 12 12 walkStream).height
        ((walkerAt (CaveGenerator.create 12 12 walkStream) 3 j k).x,
         (walkerAt (CaveGenerator.create 12 12 walkStream) 3 j k).y)) ∧
    (∀ x y, OnRing (CaveGenerator.create 12 12 walkStream).width
        (CaveGenerator.create 12 12 walkStream).height (x, y) →
      (generateRandomWalk (CaveGenerator.create 12 12 walkStream) 2 3).cell x y = TILE_WALL)) :=
  have hdraws : ∀ i, 0 ≤ (CaveGenerator.create 12 12 walkStream).rng.draws i ∧
      (CaveGenerator.create 12 12 walkStream).rng.draws i < 1 := by
    intro i
    show 0 ≤ (if i < 2 then (2 / 5 : ℚ) else 0) ∧ (if i < 2 then (2 / 5 : ℚ) else 0) < 1
    split <;> norm_num
  ⟨create_wellFormed 12 12 walkStream (by decide) (by decide), by decide, by decide, hdraws,
    walker_stays_interior (CaveGenerator.create 12 12 walkStream)
      (create_wellFormed 12 12 walkStream (by decide) (by decide)) (by decide) (by decide)
      hdraws 2 3⟩

/-! ## connectAllCaverns: frame -/

/-- C24: on a well-formed grid `connectAllCaverns` returns a grid of the same dimensions
in which every cell of the outermost ring is unchanged, every cell that was Floor is still
Floor, and every cell that has changed is an interior cell that was not Floor and is now
Floor. -/
theorem connect_only_carves_interior (g : CaveGenerator) (hg : WellFormed g) :
    ∃ g', connectAllCaverns g = some g' ∧ g'.width = g.width ∧ g'.height = g.height ∧
      (∀ x y, OnRing g.width g.height (x, y) → g'.cell x y = g.cell x y) ∧
      (∀ x y, g.cell x y = TILE_FLOOR → g'.cell x y = TILE_FLOOR) ∧
      (∀ x y, g'.cell x y ≠ g.cell x y →
        Interior g.width g.height (x, y) ∧ g.cell x y ≠ TILE_FLOOR ∧
        g'.cell x y = TILE_FLOOR) := by
  obtain ⟨sc, hsc⟩ := findCaverns_returns g hg
  have hsame : ∀ x y, ¬ Interior g.width g.height (x, y) →
      getAt 0 ((intRange 0 (sc.nextID - 1)).foldl
        (connectPair g.width g.height sc.caveCenters) g.map) x y = getAt 0 g.map x y := by
    intro x y hni
    exact foldl_invariant (fun m => getAt 0 m x y = getAt 0 g.map x y) _
      (fun m i hm => connectPair_invariant (fun m => getAt 0 m x y = getAt 0 g.map x y)
        g.width g.height
        (fun m cx cy hm hgd =>
          (getAt_setAt_interior g.width g.height m cx cy x y _ hgd hni).trans hm)
        sc.caveCenters m i hm) _ _ rfl
  have hor : ∀ x y,
      getAt 0 ((intRange 0 (sc.nextID - 1)).foldl
        (connectPair g.width g.height sc.caveCenters) g.map) x y = getAt 0 g.map x y ∨
      getAt 0 ((intRange 0 (sc.nextID - 1)).foldl
        (connectPair g.width g.height sc.caveCenters) g.map) x y = TILE_FLOOR := by
    intro x y
    exact foldl_invariant
      (fun m => getAt 0 m x y = getAt 0 g.map x y ∨ getAt 0 m x y = TILE_FLOOR) _
      (fun m i hm => connectPair_invariant
        (fun m => getAt 0 m x y = getAt 0 g.map x y ∨ getAt 0 m x y = TILE_FLOOR)
        g.width g.height
        (fun m cx cy hm _ => by
          rcases getAt_setAt_or 0 m cx cy x y TILE_FLOOR with h1 | h1
          · exact Or.inr h1
          · rw [h1]; exact hm)
        sc.caveCenters m i hm) _ _ (Or.inl rfl)
  have hres : connectAllCaverns g = some (CaveGenerator.mk g.width g.height
      ((intRange 0 (sc.nextID - 1)).foldl (connectPair g.width g.height sc.caveCenters) g.map)
      g.rng) := by
    unfold connectAllCaverns
    rw [hsc]
  refine ⟨_, hres, rfl, rfl, ?_, ?_, ?_⟩
  · intro x y hr
    exact hsame x y (not_interior_of_onRing _ _ _ hr)
  · intro x y hf
    rcases hor x y with h1 | h1
    · exact h1.trans hf
    · exact h1
  · intro x y hne
    refine ⟨?_, ?_, ?_⟩
    · by_contra hni
      exact hne (hsame x y hni)
    · intro hf
      rcases hor x y with h1 | h1
      · exact hne h1
      · exact hne (h1.trans hf.symm)
    · rcases hor x y with h1 | h1
      · exact absurd h1 hne
      · exact h1

theorem connect_only_carves_interior_witness :
    WellFormed cornerCaves ∧
    ∃ g', connectAllCaverns cornerCaves = some g' ∧ g'.width = cornerCaves.width ∧
      g'.height = cornerCaves.height ∧
      (∀ x y, OnRing cornerCaves.width cornerCaves.height (x, y) →
        g'.cell x y = cornerCaves.cell x y) ∧
      (∀ x y, cornerCaves.cell x y = TILE_FLOOR → g'.cell x y = TILE_FLOOR) ∧
      (∀ x y, g'.cell x y ≠ cornerCaves.cell x y →
        Interior cornerCaves.width cornerCaves.height (x, y) ∧
        cornerCaves.cell x y ≠ TILE_FLOOR ∧ g'.cell x y = TILE_FLOOR) :=
  ⟨cornerCaves_wellFormed, connect_only_carves_interior cornerCaves cornerCaves_wellFormed⟩

/-! ## ensureTopCenterEntrance: the passage stops after row 206 -/

theorem foldl_guarded_not_mem {α : Type} (d : α) (p : Int × Int → Prop) [DecidablePred p]
    (v : α) (cs : List (Int × Int)) (m : List (List α)) (x y : Int) (hc : (x, y) ∉ cs) :
    getAt d (cs.foldl (fun m c => if p c then setAt m c.1 c.2 v else m) m) x y =
      getAt d m x y := by
  induction cs generalizing m with
  | nil => rfl
  | cons c cs ih =>
    rw [List.foldl_cons, ih _ (fun hmem => hc (List.mem_cons_of_mem _ hmem))]
    split
    · apply getAt_setAt_ne
      rintro ⟨h1, h2⟩
      apply hc
      rw [h1, h2]
      exact List.mem_cons_self _ _
    · rfl

theorem entranceCell_returned (w h : Int) (st : EntranceState) (c : Int × Int)
    (hr : st.returned = true) : entranceCell w h st c = st := by
  unfold entranceCell
  rw [if_pos hr]

theorem entrance_fold_returned (w h : Int) (cs : List (Int × Int)) (st : EntranceState)
    (hr : st.returned = true) : cs.foldl (entranceCell w h) st = st := by
  induction cs with
  | nil => rfl
  | cons c cs ih => rw [List.foldl_cons, entranceCell_returned w h st c hr, ih]

theorem entrance_fold_not_mem (w h : Int) (cs : List (Int × Int)) (st : EntranceState)
    (x y : Int) (hc : (x, y) ∉ cs) :
    getAt 0 (cs.foldl (entranceCell w h) st).map x y = getAt 0 st.map x y := by
  induction cs generalizing st with
  | nil => rfl
  | cons c cs ih =>
    rw [List.foldl_cons, ih _ (fun hmem => hc (List.mem_cons_of_mem _ hmem))]
    rcases entranceCell_map w h st c with h1 | h1
    · rw [h1]
    · rw [h1]
      apply getAt_setAt_ne
      rintro ⟨h2, h3⟩
      apply hc
      rw [h2, h3]
      exact List.mem_cons_self _ _

theorem entranceCell_keeps_floor (w h : Int) (st : EntranceState) (c : Int × Int) (x y : Int)
    (hf : getAt 0 st.map x y = TILE_FLOOR) :
    getAt 0 (entranceCell w h st c).map x y = TILE_FLOOR :=
  entrance_fold_keeps_floor w h [c] st x y hf

theorem entranceCell_sets (w h : Int) (st : EntranceState) (c : Int × Int)
    (hr : st.returned = false) (hm : Shape w h st.map) (hc : InGrid w h c) :
    getAt 0 (entranceCell w h st c).map c.1 c.2 = TILE_FLOOR := by
  have hset := getAt_setAt_same 0 w h st.map c.1 c.2 TILE_FLOOR hm hc
  unfold entranceCell
  rw [hr]
  simp only [Bool.false_eq_true, if_false]
  split
  · split <;> exact hset
  · exact hset

theorem entranceFloorNeighbors_dense (w h : Int) (m : List (List Int)) (x y : Int)
    (hx : 2 ≤ x ∧ x < w) (hy : 2 ≤ y ∧ y < h)
    (hf : ∀ dx dy : Int, -2 ≤ dx ∧ dx ≤ 0 → -2 ≤ dy ∧ dy ≤ 0 →
      getAt 0 m (x + dx) (y + dy) = TILE_FLOOR) :
    entranceFloorNeighbors w h m x y > 8 := by
  unfold entranceFloorNeighbors
  have h9 : (rowMajor (-2) 3 (-2) 3).countP (fun d => decide (d.1 ≤ 0 ∧ d.2 ≤ 0)) = 9 := by
    decide
  have hmono := List.countP_mono_left
    (l := rowMajor (-2) 3 (-2) 3)
    (p := fun d => decide (d.1 ≤ 0 ∧ d.2 ≤ 0))
    (q := fun d => decide (x + d.1 ≥ 0 ∧ x + d.1 < w ∧ y + d.2 ≥ 0 ∧ y + d.2 < h ∧
      getAt 0 m (x + d.1) (y + d.2) = TILE_FLOOR))
    (fun d hd hp => by
      have hmem := (mem_rowMajor _ _ _ _ d).mp hd
      have hp' : d.1 ≤ 0 ∧ d.2 ≤ 0 := of_decide_eq_true hp
      apply decide_eq_true
      refine ⟨by omega, by omega, by omega, by omega, ?_⟩
      exact hf d.1 d.2 ⟨hmem.1, hp'.1⟩ ⟨hmem.2.2.1, hp'.2⟩)
  rw [h9, List.countP_eq_length_filter] at hmono
  omega

theorem entranceCell_returns_when_dense (w h : Int) (st : EntranceState) (c : Int × Int)
    (hy : 205 < c.2)
    (hd : entranceFloorNeighbors w h (setAt st.map c.1 c.2 TILE_FLOOR) c.1 c.2 > 8) :
    (entranceCell w h st c).returned = true := by
  unfold entranceCell
  split
  next hr => exact hr
  next =>
    simp only
    rw [if_pos (by omega), if_pos hd]

theorem intRange_three (a : Int) : intRange a (a + 3) = [a, a + 1, a + 2] := by
  unfold intRange
  have h3 : (a + 3 - a).toNat = 3 := by omega
  rw [h3]
  simp [List.range_succ]

theorem rowMajor_three (a y : Int) :
    rowMajor a (a + 3) y (y + 1) = [(a, y), (a + 1, y), (a + 2, y)] := by
  unfold rowMajor
  have h1 : intRange y (y + 1) = [y] := by
    unfold intRange
    have h : (y + 1 - y).toNat = 1 := by omega
    rw [h]
    simp [List.range_succ]
  rw [h1, intRange_three]
  rfl

theorem entrance_row_returns (w h : Int) (st : EntranceState) (a y : Int)
    (hm : Shape w h st.map) (ha : 0 ≤ a ∧ a + 3 ≤ w) (hy : 205 < y ∧ y < h)
    (hf : ∀ x y', a ≤ x ∧ x ≤ a + 2 → y - 2 ≤ y' ∧ y' < y →
      getAt 0 st.map x y' = TILE_FLOOR) :
    ((rowMajor a (a + 3) y (y + 1)).foldl (entranceCell w h) st).returned = true := by
  rw [rowMajor_three]
  simp only [List.foldl_cons, List.foldl_nil]
  by_cases hr0 : st.returned = true
  · rw [entranceCell_returned w h st _ hr0, entranceCell_returned w h st _ hr0,
      entranceCell_returned w h st _ hr0]
    exact hr0
  by_cases hr1 : (entranceCell w h st (a, y)).returned = true
  · rw [entranceCell_returned w h _ _ hr1, entranceCell_returned w h _ _ hr1]
    exact hr1
  by_cases hr2 : (entranceCell w h (entranceCell w h st (a, y)) (a + 1, y)).returned = true
  · rw [entranceCell_returned w h _ _ hr2]
    exact hr2
  have hr0' : st.returned = false := by simpa using hr0
  have hr1' : (entranceCell w h st (a, y)).returned = false := by simpa using hr1
  have hs1 := entranceCell_shape w h st (a, y) hm
  have hs2 := entranceCell_shape w h (entranceCell w h st (a, y)) (a + 1, y) hs1
  apply entranceCell_returns_when_dense
  · exact hy.1
  · apply entranceFloorNeighbors_dense
    · simp only
      omega
    · simp only
      omega
    · intro dx dy hdx hdy
      simp only
      by_cases hrow : dy = 0
      · subst hrow
        rw [add_zero]
        by_cases h2 : dx = 0
        · subst h2
          rw [add_zero]
          exact getAt_setAt_same 0 w h _ (a + 2) y TILE_FLOOR hs2
            ⟨by simp only; omega, by simp only; omega, by simp only; omega,
              by simp only; omega⟩
        · have hkeep : getAt 0 (entranceCell w h (entranceCell w h st (a, y)) (a + 1, y)).map
              (a + 2 + dx) y = TILE_FLOOR := by
            by_cases h1 : dx = -1
            · subst h1
              have hc := entranceCell_sets w h (entranceCell w h st (a, y)) (a + 1, y) hr1' hs1
                ⟨by simp only; omega, by simp only; omega, by simp only; omega,
                  by simp only; omega⟩
              have he : a + 2 + -1 = a + 1 := by omega
              rw [he]
              exact hc
            · have h0 : dx = -2 := by omega
              subst h0
              have hc := entranceCell_sets w h st (a, y) hr0' hm
                ⟨by simp only; omega, by simp only; omega, by simp only; omega,
                  by simp only; omega⟩
              have he : a + 2 + -2 = a := by omega
              rw [he]
              exact entranceCell_keeps_floor w h _ _ a y hc
          rcases getAt_setAt_or 0
            (entranceCell w h (entranceCell w h st (a, y)) (a + 1, y)).map
            (a + 2) y (a + 2 + dx) y TILE_FLOOR with h3 | h3
          · exact h3
          · rw [h3]; exact hkeep
      · have hst : getAt 0 st.map (a + 2 + dx) (y + dy) = TILE_FLOOR :=
          hf _ _ (by omega) (by omega)
        have hkeep := entranceCell_keeps_floor w h _ (a + 1, y) _ _
          (entranceCell_keeps_floor w h st (a, y) _ _ hst)
        rcases getAt_setAt_or 0
          (entranceCell w h (entranceCell w h st (a, y)) (a + 1, y)).map
          (a + 2) y (a + 2 + dx) (y + dy) TILE_FLOOR with h3 | h3
        · exact h3
        · rw [h3]; exact hkeep

/-- C25: on a well-formed grid of width at least 3, `ensureTopCenterEntrance` changes no
cell in a row `y >= 207`, whatever the grid content: once the three cells of row 206 are
written, the 5 x 5 window around the third of them holds the nine Floor cells of rows 204
to 206 of the corridor, which is more than 8, so the function returns there. -/
theorem passage_stops_after_row_206 (g : CaveGenerator) (hg : WellFormed g)
    (hw : 3 ≤ g.width) (x y : Int) (hy : 207 ≤ y) :
    (ensureTopCenterEntrance g).cell x y = g.cell x y := by
  have hdiv : Int.tdiv g.width 2 = g.width / 2 := Int.tdiv_eq_ediv (by omega) (by omega)
  have hchamber : getAt 0 (carveChamber g.width g.height g.map (Int.tdiv g.width 2)) x y =
      getAt 0 g.map x y := by
    unfold carveChamber
    apply foldl_guarded_not_mem 0
      (fun c : Int × Int => c.1 ≥ 1 ∧ c.1 < g.width - 1 ∧ c.2 ≥ 1 ∧ c.2 < g.height - 1)
    rw [mem_rowMajor]
    simp only
    omega
  have hcs : Shape g.width g.height (carveChamber g.width g.height g.map (Int.tdiv g.width 2)) :=
    foldl_guarded_shape g.width g.height _ _ _ _ hg
  have hx3 : Int.tdiv g.width 2 + 1 + 1 = Int.tdiv g.width 2 - 1 + 3 := by omega
  unfold ensureTopCenterEntrance CaveGenerator.cell
  simp only
  rw [← hchamber, hx3]
  by_cases hh : g.height - 1 ≤ 207
  · apply entrance_fold_not_mem
    rw [mem_rowMajor]
    simp only
    omega
  · have hsplit1 := rowMajor_append_rows (Int.tdiv g.width 2 - 1) (Int.tdiv g.width 2 - 1 + 3)
      (5 + 3) (206 + 1) (g.height - 1) (by omega) (by omega)
    have hsplit2 := rowMajor_append_rows (Int.tdiv g.width 2 - 1) (Int.tdiv g.width 2 - 1 + 3)
      (5 + 3) 206 (206 + 1) (by omega) (by omega)
    have hret : ((rowMajor (Int.tdiv g.width 2 - 1) (Int.tdiv g.width 2 - 1 + 3) (5 + 3)
        (206 + 1)).foldl (entranceCell g.width g.height)
        { map := carveChamber g.width g.height g.map (Int.tdiv g.width 2),
          returned := false }).returned = true := by
      rw [hsplit2, List.foldl_append]
      apply entrance_row_returns
      · exact entrance_fold_shape _ _ _ _ hcs
      · omega
      · omega
      · intro x' y' hx' hy'
        exact entrance_fold_rows g.width g.height _ _ _ _ _ hcs x' y' (by omega) (by omega)
          (by omega) (by omega) (by omega)
    rw [hsplit1, List.foldl_append, entrance_fold_returned _ _ _ _ hret]
    apply entrance_fold_not_mem
    rw [mem_rowMajor]
    simp only
    omega

theorem passage_stops_after_row_206_witness :
    WellFormed (CaveGenerator.create 3 210 zeroStream) ∧
    (3 : Int) ≤ (CaveGenerator.create 3 210 zeroStream).width ∧ (207 : Int) ≤ 208 ∧
    (ensureTopCenterEntrance (CaveGenerator.create 3 210 zeroStream)).cell 1 208 =
      (CaveGenerator.create 3 210 zeroStream).cell 1 208 :=
  ⟨create_wellFormed 3 210 zeroStream (by decide) (by decide), by decide, by decide,
    passage_stops_after_row_206 (CaveGenerator.create 3 210 zeroStream)
      (create_wellFormed 3 210 zeroStream (by decide) (by decide)) (by decide) 1 208
      (by decide)⟩

/-! ## The cells written by the carving loops -/

theorem foldl_guarded_cell {α : Type} (d : α) (w h : Int) (p : Int × Int → Prop)
    [DecidablePred p] (v : α) (cs : List (Int × Int)) (m : List (List α)) (hm : Shape w h m)
    (hp : ∀ c, p c → InGrid w h c) (x y : Int) :
    getAt d (cs.foldl (fun m c => if p c then setAt m c.1 c.2 v else m) m) x y =
      if (x, y) ∈ cs ∧ p (x, y) then v else getAt d m x y := by
  by_cases hc : (x, y) ∈ cs ∧ p (x, y)
  · rw [if_pos hc]
    exact foldl_guarded_mem d w h p v cs m hm x y hc.1 hc.2 (hp _ hc.2)
  · rw [if_neg hc]
    clear hm
    induction cs generalizing m with
    | nil => rfl
    | cons c cs ih =>
      rw [List.foldl_cons, ih _ (fun hmem => hc ⟨List.mem_cons_of_mem _ hmem.1, hmem.2⟩)]
      split
      next hpc =>
        apply getAt_setAt_ne
        rintro ⟨h1, h2⟩
        apply hc
        have hcx : c = (x, y) := Prod.ext h1.symm h2.symm
        rw [← hcx]
        exact ⟨List.mem_cons_self _ _, hpc⟩
      next => rfl

theorem foldl_flatMap_eq {σ α β : Type} (f : σ → β → σ) (g : α → List β) (l : List α) (s : σ) :
    (l.flatMap g).foldl f s = l.foldl (fun s a => (g a).foldl f s) s := by
  induction l generalizing s with
  | nil => rfl
  | cons a l ih => rw [List.flatMap_cons, List.foldl_append, List.foldl_cons, ih]

theorem inGrid_of_guard (w h : Int) (c : Int × Int)
    (hc : c.1 ≥ 1 ∧ c.1 < w - 1 ∧ c.2 ≥ 1 ∧ c.2 < h - 1) : InGrid w h c := by
  unfold InGrid
  omega

/-- The block written by one step of a walk of thickness `t`: the interior cells at most
`t / 2` away from the walker in each coordinate become Floor, so the block has
`2 * (t / 2) + 1` cells a side; every other cell is unchanged. -/
theorem carveBlock_cell (w h : Int) (m : List (List Int)) (x y t : Int) (hm : Shape w h m)
    (ht : 0 ≤ t) (cx cy : Int) :
    getAt 0 (carveBlock w h m x y t) cx cy =
      if x - t / 2 ≤ cx ∧ cx ≤ x + t / 2 ∧ y - t / 2 ≤ cy ∧ cy ≤ y + t / 2 ∧
          Interior w h (cx, cy) then TILE_FLOOR else getAt 0 m cx cy := by
  have hdiv : Int.tdiv t 2 = t / 2 := Int.tdiv_eq_ediv ht (by omega)
  have hneg : Int.tdiv (-t) 2 = -(t / 2) := by rw [Int.neg_tdiv, hdiv]
  have hfold : carveBlock w h m x y t =
      ((rowMajor (Int.tdiv (-t) 2) (Int.tdiv t 2 + 1) (Int.tdiv (-t) 2)
          (Int.tdiv t 2 + 1)).map (fun d => (x + d.1, y + d.2))).foldl
        (fun m c => if c.1 ≥ 1 ∧ c.1 < w - 1 ∧ c.2 ≥ 1 ∧ c.2 < h - 1
          then setAt m c.1 c.2 TILE_FLOOR else m) m := by
    rw [List.foldl_map]
    rfl
  rw [hfold, foldl_guarded_cell 0 w h
    (fun c : Int × Int => c.1 ≥ 1 ∧ c.1 < w - 1 ∧ c.2 ≥ 1 ∧ c.2 < h - 1) TILE_FLOOR _ m hm
    (inGrid_of_guard w h) cx cy]
  apply if_congr _ rfl rfl
  simp only [List.mem_map, mem_rowMajor, hdiv, hneg]
  unfold Interior
  constructor
  · rintro ⟨⟨d, hd, he⟩, hg⟩
    have h1 : x + d.1 = cx := congrArg Prod.fst he
    have h2 : y + d.2 = cy := congrArg Prod.snd he
    omega
  · intro hc
    simp only at hc
    refine ⟨⟨(cx - x, cy - y), ⟨by simp only; omega, by simp only; omega, by simp only; omega,
      by simp only; omega⟩, ?_⟩, by omega⟩
    apply Prod.ext
    · simp only; omega
    · simp only; omega

/-- The horizontal tunnel: the interior cells with `x` between the two centres and `y`
from `y1 - 10` to `y1 + 10` become Floor (21 rows); every other cell is unchanged. -/
theorem carveHorizontal_cell (w h : Int) (m : List (List Int)) (x1 y1 x2 : Int)
    (hm : Shape w h m) (cx cy : Int) :
    getAt 0 (carveHorizontal w h m x1 y1 x2) cx cy =
      if min x1 x2 ≤ cx ∧ cx ≤ max x1 x2 ∧ y1 - 10 ≤ cy ∧ cy ≤ y1 + 10 ∧
          Interior w h (cx, cy) then TILE_FLOOR else getAt 0 m cx cy := by
  have hfold : carveHorizontal w h m x1 y1 x2 =
      ((intRange (min x1 x2) (max x1 x2 + 1)).flatMap (fun x =>
          (intRange (Int.tdiv (-20) 2) (Int.tdiv 20 2 + 1)).map (fun wy => (x, y1 + wy)))).foldl
        (fun m c => if c.1 ≥ 1 ∧ c.1 < w - 1 ∧ c.2 ≥ 1 ∧ c.2 < h - 1
          then setAt m c.1 c.2 TILE_FLOOR else m) m := by
    rw [foldl_flatMap_eq]
    unfold carveHorizontal
    congr 1
    funext m1 x
    rw [List.foldl_map]
    congr 1
    funext m2 wy
    simp only
    apply if_congr _ rfl rfl
    constructor <;> intro hg <;> omega
  have hlo : Int.tdiv (-20) 2 = -10 := by decide
  have hhi : Int.tdiv 20 2 + 1 = 11 := by decide
  rw [hfold, foldl_guarded_cell 0 w h
    (fun c : Int × Int => c.1 ≥ 1 ∧ c.1 < w - 1 ∧ c.2 ≥ 1 ∧ c.2 < h - 1) TILE_FLOOR _ m hm
    (inGrid_of_guard w h) cx cy]
  apply if_congr _ rfl rfl
  simp only [List.mem_flatMap, List.mem_map, mem_intRange, hlo, hhi]
  unfold Interior
  constructor
  · rintro ⟨⟨x, hx, wy, hwy, he⟩, hg⟩
    have h1 : x = cx := congrArg Prod.fst he
    have h2 : y1 + wy = cy := congrArg Prod.snd he
    omega
  · intro hc
    simp only at hc
    refine ⟨⟨cx, by omega, cy - y1, by omega, ?_⟩, by omega⟩
    apply Prod.ext
    · rfl
    · simp only; omega

/-- The vertical tunnel: the interior cells with `y` between the two centres and `x`
from `x2 - 10` to `x2 + 10` become Floor (21 columns); every other cell is unchanged. -/
theorem carveVertical_cell (w h : Int) (m : List (List Int)) (y1 x2 y2 : Int)
    (hm : Shape w h m) (cx cy : Int) :
    getAt 0 (carveVertical w h m y1 x2 y2) cx cy =
      if x2 - 10 ≤ cx ∧ cx ≤ x2 + 10 ∧ min y1 y2 ≤ cy ∧ cy ≤ max y1 y2 ∧
          Interior w h (cx, cy) then TILE_FLOOR else getAt 0 m cx cy := by
  have hfold : carveVertical w h m y1 x2 y2 =
      ((intRange (min y1 y2) (max y1 y2 + 1)).flatMap (fun y =>
          (intRange (Int.tdiv (-20) 2) (Int.tdiv 20 2 + 1)).map (fun wx => (x2 + wx, y)))).foldl
        (fun m c => if c.1 ≥ 1 ∧ c.1 < w - 1 ∧ c.2 ≥ 1 ∧ c.2 < h - 1
          then setAt m c.1 c.2 TILE_FLOOR else m) m := by
    rw [foldl_flatMap_eq]
    unfold carveVertical
    congr 1
    funext m1 y
    rw [List.foldl_map]
    congr 1
    funext m2 wx
    simp only
    apply if_congr _ rfl rfl
    constructor <;> intro hg <;> omega
  have hlo : Int.tdiv (-20) 2 = -10 := by decide
  have hhi : Int.tdiv 20 2 + 1 = 11 := by decide
  rw [hfold, foldl_guarded_cell 0 w h
    (fun c : Int × Int => c.1 ≥ 1 ∧ c.1 < w - 1 ∧ c.2 ≥ 1 ∧ c.2 < h - 1) TILE_FLOOR _ m hm
    (inGrid_of_guard w h) cx cy]
  apply if_congr _ rfl rfl
  simp only [List.mem_flatMap, List.mem_map, mem_intRange, hlo, hhi]
  unfold Interior
  constructor
  · rintro ⟨⟨y, hy, wx, hwx, he⟩, hg⟩
    have h1 : x2 + wx = cx := congrArg Prod.fst he
    have h2 : y = cy := congrArg Prod.snd he
    omega
  · intro hc
    simp only at hc
    refine ⟨⟨cy, by omega, cx - x2, by omega, ?_⟩, by omega⟩
    apply Prod.ext
    · simp only; omega
    · rfl

theorem carveHorizontal_shape (w h : Int) (m : List (List Int)) (x1 y1 x2 : Int)
    (hm : Shape w h m) : Shape w h (carveHorizontal w h m x1 y1 x2) := by
  unfold carveHorizontal
  apply foldl_invariant (Shape w h) _ _ _ _ hm
  intro m1 x hm1
  apply foldl_invariant (Shape w h) _ _ _ _ hm1
  intro m2 wy hm2
  simp only
  split
  · exact shape_setAt w h _ _ _ _ hm2
  · exact hm2

/-- The corridor of one pair of centres `(x1, y1)`, `(x2, y2)`: exactly the interior cells
of the horizontal band `y1 - 10 .. y1 + 10` over `min x1 x2 .. max x1 x2` and of the
vertical band `x2 - 10 .. x2 + 10` over `min y1 y2 .. max y1 y2` become Floor. -/
theorem connectPair_cell (w h : Int) (centers : List (Int × Int)) (m : List (List Int))
    (i : Int) (hm : Shape w h m) (cx cy : Int) :
    getAt 0 (connectPair w h centers m i) cx cy =
      if Interior w h (cx, cy) ∧
          ((min (centers.getD i.toNat (0, 0)).1 (centers.getD (i + 1).toNat (0, 0)).1 ≤ cx ∧
            cx ≤ max (centers.getD i.toNat (0, 0)).1 (centers.getD (i + 1).toNat (0, 0)).1 ∧
            (centers.getD i.toNat (0, 0)).2 - 10 ≤ cy ∧
            cy ≤ (centers.getD i.toNat (0, 0)).2 + 10) ∨
           ((centers.getD (i + 1).toNat (0, 0)).1 - 10 ≤ cx ∧
            cx ≤ (centers.getD (i + 1).toNat (0, 0)).1 + 10 ∧
            min (centers.getD i.toNat (0, 0)).2 (centers.getD (i + 1).toNat (0, 0)).2 ≤ cy ∧
            cy ≤ max (centers.getD i.toNat (0, 0)).2 (centers.getD (i + 1).toNat (0, 0)).2))
      then TILE_FLOOR else getAt 0 m cx cy := by
  unfold connectPair
  simp only
  rw [carveVertical_cell w h _ _ _ _ (carveHorizontal_shape w h m _ _ _ hm),
    carveHorizontal_cell w h m _ _ _ hm]
  by_cases hin : Interior w h (cx, cy)
  · simp only [hin, and_true, true_and]
    split
    next hv => rw [if_pos (Or.inr hv)]
    next hv =>
      split
      next hh => rw [if_pos (Or.inl hh)]
      next hh =>
        rw [if_neg]
        rintro (h1 | h1)
        · exact hh h1
        · exact hv h1
  · simp only [hin, and_false, false_and, if_false]

/-- C26, amended: on every grid of width at least 5, whatever its height and contents,
`ensureTopCenterEntrance` leaves every cell of the outermost ring unchanged (the three
passage columns `width/2 - 1` to `width/2 + 1` are then interior columns). -/
theorem ensureTopCenterEntrance_ring_wide (g : CaveGenerator) (hw : 5 ≤ g.width)
    (x y : Int) (hr : OnRing g.width g.height (x, y)) :
    (ensureTopCenterEntrance g).cell x y = g.cell x y := by
  have hdiv : Int.tdiv g.width 2 = g.width / 2 := Int.tdiv_eq_ediv (by omega) (by omega)
  obtain ⟨hin, hring⟩ := hr
  unfold InGrid at hin
  have hchamber : getAt 0 (carveChamber g.width g.height g.map (Int.tdiv g.width 2)) x y =
      getAt 0 g.map x y := by
    unfold carveChamber
    apply foldl_invariant (fun m => getAt 0 m x y = getAt 0 g.map x y) _ _ _ _ rfl
    intro m c hm
    show getAt 0 (if c.1 ≥ 1 ∧ c.1 < g.width - 1 ∧ c.2 ≥ 1 ∧ c.2 < g.height - 1
      then setAt m c.1 c.2 TILE_FLOOR else m) x y = getAt 0 g.map x y
    split
    next hgd =>
      rw [getAt_setAt_ne 0 m c.1 c.2 x y TILE_FLOOR (by omega)]
      exact hm
    next => exact hm
  unfold ensureTopCenterEntrance CaveGenerator.cell
  simp only
  rw [← hchamber]
  apply entrance_fold_not_mem
  rw [mem_rowMajor]
  omega

/-! ## Widths of the carved blocks and corridors -/

/-- C21, evaluated on the code: on an all-Wall 12x12 grid with a stream whose first walk
starts at (5, 5) with drawn tunnel width 8, one walk of one step carves the block
`1 <= x <= 9`, `1 <= y <= 9` (no cell of it is clamped away): row 5 and column 5 hold 9
Floor cells each, not 8, because the loops run from `-tunnelWidth/2` to `tunnelWidth/2`
inclusive. -/
theorem walk_block_one_wider :
    walkWidth 12 12 (walksAfter (CaveGenerator.create 12 12 walkStream) 1 0) = 8 ∧
    (walkerAt (CaveGenerator.create 12 12 walkStream) 1 0 0).x = 5 ∧
    (walkerAt (CaveGenerator.create 12 12 walkStream) 1 0 0).y = 5 ∧
    floorCountRow 12 (generateRandomWalk (CaveGenerator.create 12 12 walkStream) 1 1).map 5 = 9 ∧
    floorCountColumn 12
      (generateRandomWalk (CaveGenerator.create 12 12 walkStream) 1 1).map 5 = 9 ∧
    (generateRandomWalk (CaveGenerator.create 12 12 walkStream) 1 1).cell 1 5 = TILE_FLOOR ∧
    (generateRandomWalk (CaveGenerator.create 12 12 walkStream) 1 1).cell 9 5 = TILE_FLOOR ∧
    (generateRandomWalk (CaveGenerator.create 12 12 walkStream) 1 1).cell 10 5 = TILE_WALL := by
  decide!

/-- C22, evaluated on the code: in the 5x23 grid whose Floor cells are (1, 11) and (3, 11)
the region centres are (1, 11) and (3, 11); `connectAllCaverns` sets column 2, all Wall
before, to Floor in the rows 1 to 21, that is in 21 rows around `y1 = 11`, not 20,
because `wy` runs from `-connectionWidth/2` to `connectionWidth/2` inclusive. -/
theorem corridor_one_wider :
    (findCaverns twinCaves).map (fun sc => sc.caveCenters) = some [(1, 11), (3, 11)] ∧
    floorCountColumn 23 twinCaves.map 2 = 0 ∧
    (connectAllCaverns twinCaves).map (fun g => floorCountColumn 23 g.map 2) = some 21 ∧
    (connectAllCaverns twinCaves).map (fun g => g.cell 2 1) = some TILE_FLOOR ∧
    (connectAllCaverns twinCaves).map (fun g => g.cell 2 21) = some TILE_FLOOR ∧
    (connectAllCaverns twinCaves).map (fun g => g.cell 2 0) = some TILE_WALL ∧
    (connectAllCaverns twinCaves).map (fun g => g.cell 2 22) = some TILE_WALL := by
  decide!

theorem ensureTopCenterEntrance_ring_wide_witness :
    (5 : Int) ≤ (CaveGenerator.create 5 10 zeroStream).width ∧
    OnRing (CaveGenerator.create 5 10 zeroStream).width
      (CaveGenerator.create 5 10 zeroStream).height (4, 8) ∧
    (ensureTopCenterEntrance (CaveGenerator.create 5 10 zeroStream)).cell 4 8 =
      (CaveGenerator.create 5 10 zeroStream).cell 4 8 :=
  ⟨by decide, by unfold OnRing; decide,
    ensureTopCenterEntrance_ring_wide (CaveGenerator.create 5 10 zeroStream) (by decide) 4 8
      (by unfold OnRing; decide)⟩

/-- C26, counterexample: on the all-Wall grids of width 3 and 4 and height 10 the three
passage columns of `ensureTopCenterEntrance` reach the outermost ring, and the passage
loop writes Floor to ring cells: (0, 8) and (2, 8) for width 3, (3, 8) for width 4. -/
theorem entrance_writes_ring_when_narrow :
    OnRing 3 10 (0, 8) ∧ OnRing 3 10 (2, 8) ∧ OnRing 4 10 (3, 8) ∧
    (CaveGenerator.create 3 10 zeroStream).cell 0 8 = TILE_WALL ∧
    (ensureTopCenterEntrance (CaveGenerator.create 3 10 zeroStream)).cell 0 8 = TILE_FLOOR ∧
    (CaveGenerator.create 3 10 zeroStream).cell 2 8 = TILE_WALL ∧
    (ensureTopCenterEntrance (CaveGenerator.create 3 10 zeroStream)).cell 2 8 = TILE_FLOOR ∧
    (CaveGenerator.create 4 10 zeroStream).cell 3 8 = TILE_WALL ∧
    (ensureTopCenterEntrance (CaveGenerator.create 4 10 zeroStream)).cell 3 8 = TILE_FLOOR := by
  refine ⟨by unfold OnRing; decide, by unfold OnRing; decide, by unfold OnRing; decide,
    by decide!, by decide!, by decide!, by decide!, by decide!, by decide!⟩

/-! ## generatePerlinNoise depends on the dimensions and its arguments only -/

theorem getAt_eq_getElem {α : Type} (d : α) (m : List (List α)) (n k : Nat)
    (hn : n < m.length) (hk : k < (m[n]).length) :
    getAt d m (k : Int) (n : Int) = (m[n])[k] := by
  unfold getAt
  rw [if_pos ⟨Int.ofNat_nonneg k, Int.ofNat_nonneg n⟩, Int.toNat_ofNat, Int.toNat_ofNat,
    List.getD_eq_getElem?_getD m, List.getElem?_eq_getElem hn, Option.getD_some,
    List.getD_eq_getElem?_getD, List.getElem?_eq_getElem hk, Option.getD_some]

theorem shape_ext {α : Type} (d : α) (w h : Int) (m1 m2 : List (List α)) (h1 : Shape w h m1)
    (h2 : Shape w h m2)
    (hcells : ∀ x y, InGrid w h (x, y) → getAt d m1 x y = getAt d m2 x y) : m1 = m2 := by
  have hlen : m1.length = m2.length := by
    have e1 := h1.1
    have e2 := h2.1
    omega
  apply List.ext_getElem hlen
  intro n hn1 hn2
  have hr1 : ((m1[n]).length : Int) = w := h1.2 _ (List.getElem_mem hn1)
  have hr2 : ((m2[n]).length : Int) = w := h2.2 _ (List.getElem_mem hn2)
  apply List.ext_getElem (by omega)
  intro k hk1 hk2
  rw [← getAt_eq_getElem d m1 n k hn1 hk1, ← getAt_eq_getElem d m2 n k hn2 hk2]
  apply hcells
  have e1 := h1.1
  exact ⟨Int.ofNat_nonneg k, by omega, Int.ofNat_nonneg n, by omega⟩

theorem generatePerlinNoise_cell (g : CaveGenerator) (hg : WellFormed g) (scale threshold : ℚ)
    (x y : Int) (hc : InGrid g.width g.height (x, y)) :
    (generatePerlinNoise g scale threshold).cell x y =
      if perlinNoise ((x : ℚ) * scale) ((y : ℚ) * scale) 12345 > threshold then TILE_WALL
      else TILE_FLOOR :=
  foldl_setAt_mem 0 g.width g.height
    (fun c => if perlinNoise ((c.1 : ℚ) * scale) ((c.2 : ℚ) * scale) 12345 > threshold
      then TILE_WALL else TILE_FLOOR) _ g.map hg
    (fun c hc' => (mem_rowMajor_grid _ _ c).mp hc') x y ((mem_rowMajor_grid _ _ _).mpr hc)

theorem generatePerlinNoise_wellFormed (g : CaveGenerator) (hg : WellFormed g)
    (scale threshold : ℚ) : WellFormed (generatePerlinNoise g scale threshold) :=
  foldl_setAt_shape g.width g.height _ _ g.map hg

/-- C27: for two well-formed generators of the same dimensions, whatever their grids and
random number streams, `generatePerlinNoise(scale, threshold)` leaves identical grids
(so identical `getMapFlat` sequences), every cell being determined by its coordinates,
`scale` and `threshold`; and the call leaves the random number stream of each generator
as it was. -/
theorem perlin_ignores_state (g1 g2 : CaveGenerator) (hg1 : WellFormed g1)
    (hg2 : WellFormed g2) (hw : g1.width = g2.width) (hh : g1.height = g2.height)
    (scale threshold : ℚ) :
    (generatePerlinNoise g1 scale threshold).map = (generatePerlinNoise g2 scale threshold).map ∧
    getMapFlat (generatePerlinNoise g1 scale threshold)
      = getMapFlat (generatePerlinNoise g2 scale threshold) ∧
    (∀ x y, InGrid g1.width g1.height (x, y) →
      (generatePerlinNoise g1 scale threshold).cell x y =
        if perlinNoise ((x : ℚ) * scale) ((y : ℚ) * scale) 12345 > threshold then TILE_WALL
        else TILE_FLOOR) ∧
    (generatePerlinNoise g1 scale threshold).rng = g1.rng ∧
    (generatePerlinNoise g2 scale threshold).rng = g2.rng := by
  have hmap : (generatePerlinNoise g1 scale threshold).map
      = (generatePerlinNoise g2 scale threshold).map := by
    apply shape_ext 0 g1.width g1.height _ _ (generatePerlinNoise_wellFormed g1 hg1 _ _)
    · have := generatePerlinNoise_wellFormed g2 hg2 scale threshold
      unfold WellFormed at this
      rw [hw, hh]
      exact this
    · intro x y hc
      have e1 := generatePerlinNoise_cell g1 hg1 scale threshold x y hc
      have e2 := generatePerlinNoise_cell g2 hg2 scale threshold x y (by rw [← hw, ← hh]; exact hc)
      exact e1.trans e2.symm
  refine ⟨hmap, ?_, generatePerlinNoise_cell g1 hg1 scale threshold, rfl, rfl⟩
  rw [getMapFlat_eq, getMapFlat_eq, hmap]
  show List.map _ (rowMajor 0 g1.width 0 g1.height) = List.map _ (rowMajor 0 g2.width 0 g2.height)
  rw [hw, hh]

theorem perlin_ignores_state_witness :
    WellFormed diagonalCaves ∧ WellFormed (CaveGenerator.create 3 3 cornerStream) ∧
    diagonalCaves.width = (CaveGenerator.create 3 3 cornerStream).width ∧
    diagonalCaves.height = (CaveGenerator.create 3 3 cornerStream).height ∧
    diagonalCaves.map ≠ (CaveGenerator.create 3 3 cornerStream).map ∧
    ((generatePerlinNoise diagonalCaves (1 / 20) (2 / 5)).map
      = (generatePerlinNoise (CaveGenerator.create 3 3 cornerStream) (1 / 20) (2 / 5)).map ∧
    getMapFlat (generatePerlinNoise diagonalCaves (1 / 20) (2 / 5))
      = getMapFlat (generatePerlinNoise (CaveGenerator.create 3 3 cornerStream) (1 / 20) (2 / 5)) ∧
    (∀ x y, InGrid diagonalCaves.width diagonalCaves.height (x, y) →
      (generatePerlinNoise diagonalCaves (1 / 20) (2 / 5)).cell x y =
        if perlinNoise ((x : ℚ) * (1 / 20)) ((y : ℚ) * (1 / 20)) 12345 > 2 / 5 then TILE_WALL
        else TILE_FLOOR) ∧
    (generatePerlinNoise diagonalCaves (1 / 20) (2 / 5)).rng = diagonalCaves.rng ∧
    (generatePerlinNoise (CaveGenerator.create 3 3 cornerStream) (1 / 20) (2 / 5)).rng
      = (CaveGenerator.create 3 3 cornerStream).rng) :=
  ⟨by unfold WellFormed Shape diagonalCaves; decide,
    create_wellFormed 3 3 cornerStream (by decide) (by decide), rfl, rfl, by decide,
    perlin_ignores_state diagonalCaves (CaveGenerator.create 3 3 cornerStream)
      (by unfold WellFormed Shape diagonalCaves; decide)
      (create_wellFormed 3 3 cornerStream (by decide) (by decide)) rfl rfl (1 / 20) (2 / 5)⟩

end Octobot
